import Mathlib

/-! PLONK setup and prover core: a shallow embedding.

The Go sources embedded here are

* `backend/plonk/bls12-377/setup.go` (`Setup`, `BuildTrace`, `commitTrace`, `initDomains`,
  `buildPermutation`, `computePermutationPolynomials`, `getSupportPermutation`);
* `internal/backend/bls381/plonk/prove.go` (`ComputeZ` and the prover pipeline).

Conventions of the embedding.

* `fr.Element` is an arbitrary field `F`. The library's `Inverse` maps `0` to `0`, and `Div`
  is multiplication by that inverse, which is exactly the convention of `Field` (`0⁻¹ = 0`).
* Go slices are lists. A slice read or write outside the bounds panics; a function that can
  panic returns an `Option`, and `none` is the panic.
* Slice lengths and indices are natural numbers (a slice cannot be long enough for the
  `uint64` / `int` arithmetic on its length to wrap around).
* A counted loop is `forLoop body init n`, the state after `n` iterations of `body`.
-/

namespace Plonk

/-! ## Slices and loops -/

/-- The slice write `xs[i] = v`: the bounds check of the Go run time, then the update. -/
def store {α : Type} (xs : List α) (i : Nat) (v : α) : Option (List α) :=
  if i < xs.length then some (xs.set i v) else none

/-- The loop `for i := 0; i < n; i++ { body }`: the state after `n` iterations, `none` as soon
as one iteration has panicked. -/
def forLoop {σ : Type} (body : Nat → σ → Option σ) (init : σ) : Nat → Option σ
  | 0 => some init
  | k + 1 => (forLoop body init k).bind (body k)

/-! ## Data model -/

/-- One gate `cs.SparseR1C`: indices into the coefficient table and the three wire IDs. -/
structure SparseR1C where
  QL : Nat
  QR : Nat
  QM : Nat
  QO : Nat
  QC : Nat
  XA : Nat
  XB : Nat
  XC : Nat
deriving Repr, DecidableEq

/-- One entry of `spr.CommitmentInfo`: the committed indices. -/
structure Commitment where
  Committed : List Nat
deriving Repr, DecidableEq

/-- The constraint system `cs.SparseR1CS` as far as `setup.go` reads it. `Constraints` is the
sequence that `GetSparseR1CIterator` yields, and `GetNbConstraints` is its length. -/
structure SparseR1CS (F : Type) where
  Public : List String
  Secret : List String
  NbInternalVariables : Nat
  Constraints : List SparseR1C
  Coefficients : List F
  CommitmentInfo : List Commitment

/-- The method `spr.GetNbConstraints()`. -/
def SparseR1CS.GetNbConstraints {F : Type} (spr : SparseR1CS F) : Nat :=
  spr.Constraints.length

/-- The fields of `fft.Domain` that the two source files read. -/
structure Domain (F : Type) where
  Cardinality : Nat
  Generator : F
  FrMultiplicativeGen : F
  FinerGenerator : F

/-- The record `Trace` of `setup.go`; every `*iop.Polynomial` is its vector of coefficients. -/
structure Trace (F : Type) where
  Ql : List F
  Qr : List F
  Qm : List F
  Qo : List F
  Qk : List F
  Qcp : List (List F)
  S1 : List F
  S2 : List F
  S3 : List F
  S : List Int

/-! ## Domains -/

/-- Doubling search used by `nextPowerOfTwo`: the first of `p, 2p, 4p, …` that reaches `n`. -/
def nextPowerOfTwoFrom (n : Nat) : Nat → Nat → Nat
  | 0, p => p
  | fuel + 1, p => if n ≤ p then p else nextPowerOfTwoFrom n fuel (2 * p)

/-- Modelled from the spec: `ecc.NextPowerOfTwo` belongs to the field library and is not among
the sources. The spec calls it `next_pow2` and requires `N ≥ 1`: the least power of two that is
at least `n` (so `0` and `1` give `1`). -/
def nextPowerOfTwo (n : Nat) : Nat :=
  nextPowerOfTwoFrom n n 1

/-- Modelled from the spec: `fft.NewDomain(m)` belongs to the field library. Its cardinality is
the next power of two of `m` (spec, data model, "Domain"); the generators it picks are the
parameter `gens`, a function of the cardinality. -/
def NewDomain {F : Type} (gens : Nat → F × F × F) (m : Nat) : Domain F :=
  { Cardinality := nextPowerOfTwo m
    Generator := (gens (nextPowerOfTwo m)).1
    FrMultiplicativeGen := (gens (nextPowerOfTwo m)).2.1
    FinerGenerator := (gens (nextPowerOfTwo m)).2.2 }

/-- The method `initDomains`: the pair `Domain[0]`, `Domain[1]`. -/
def initDomains {F : Type} (gens : Nat → F × F × F) (spr : SparseR1CS F) :
    Domain F × Domain F :=
  let nbConstraints := spr.GetNbConstraints
  let sizeSystem := nbConstraints + spr.Public.length
  let d0 := NewDomain gens sizeSystem
  if sizeSystem < 6 then
    (d0, NewDomain gens (8 * sizeSystem))
  else
    (d0, NewDomain gens (4 * sizeSystem))

/-! ## The copy permutation -/

/-- The table `lro` of `buildPermutation` (position to variable ID): zero-initialised, then
the placeholder rows, then the three wires of each gate. -/
def buildLRO {F : Type} (spr : SparseR1CS F) (sizeSolution : Nat) : Option (List Nat) := do
  let sizePermutation := 3 * sizeSolution
  let lro : List Nat := List.replicate sizePermutation 0
  let lro ← forLoop (fun i lro => store lro i i) lro spr.Public.length
  let offset := spr.Public.length
  forLoop (fun j lro => do
      let c ← spr.Constraints[j]?
      let lro ← store lro (offset + j) c.XA
      let lro ← store lro (sizeSolution + offset + j) c.XB
      store lro (2 * sizeSolution + offset + j) c.XC)
    lro spr.Constraints.length

/-- Body of the first pass of `buildPermutation` over the slots; the state is
`(permutation, cycle)`. -/
def firstPassBody (lro : List Nat) (i : Nat) (st : List Int × List Int) :
    Option (List Int × List Int) := do
  let v ← lro[i]?
  let c ← st.2[v]?
  let permutation ← if c ≠ -1 then store st.1 i c else some st.1
  let cycle ← store st.2 v (i : Int)
  some (permutation, cycle)

/-- Body of the second pass of `buildPermutation`, which fills the entries that are still
`-1`. -/
def secondPassBody (lro : List Nat) (cycle : List Int) (i : Nat) (permutation : List Int) :
    Option (List Int) := do
  let x ← permutation[i]?
  if x = -1 then do
    let v ← lro[i]?
    let c ← cycle[v]?
    store permutation i c
  else some permutation

/-- The array `permutation` that `buildPermutation` computes, for a trace whose `Ql` has
`sizeSolution` coefficients. -/
def permutationArray {F : Type} (spr : SparseR1CS F) (sizeSolution nbVariables : Nat) :
    Option (List Int) := do
  let sizePermutation := 3 * sizeSolution
  let permutation : List Int := List.replicate sizePermutation (-1)
  let lro ← buildLRO spr sizeSolution
  let cycle : List Int := List.replicate nbVariables (-1)
  let st ← forLoop (firstPassBody lro) (permutation, cycle) lro.length
  forLoop (secondPassBody lro st.2) st.1 sizePermutation

/-- The function `buildPermutation`: it stores the permutation in `pt.S`. -/
def buildPermutation {F : Type} (spr : SparseR1CS F) (pt : Trace F) (nbVariables : Nat) :
    Option (Trace F) := do
  let sizeSolution := pt.Ql.length
  let permutation ← permutationArray spr sizeSolution nbVariables
  some { pt with S := permutation }

/-! ## Specification-side definitions for the copy permutation -/

/-- The slot labelling as the specification words it: the column-a slot of public row `i`
is labelled `i`, a gate row is labelled `XA`, `XB`, `XC` in the columns a, b, c, and every other
slot is labelled `0`. Slots `[0, N)` are column a, `[N, 2N)` column b, `[2N, 3N)` column c. -/
def wireAt {F : Type} (spr : SparseR1CS F) (N : Nat) (s : Nat) : Nat :=
  let P := spr.Public.length
  if s < N then
    if s < P then s
    else match spr.Constraints[s - P]? with
      | some c => c.XA
      | none => 0
  else if s < 2 * N then
    if s - N < P then 0
    else match spr.Constraints[s - N - P]? with
      | some c => c.XB
      | none => 0
  else if s < 3 * N then
    if s - 2 * N < P then 0
    else match spr.Constraints[s - 2 * N - P]? with
      | some c => c.XC
      | none => 0
  else 0

/-- The row of a slot: its offset inside its column. -/
def slotRow (N s : Nat) : Nat :=
  if s < N then s else if s < 2 * N then s - N else s - 2 * N

/-- The last slot before position `k` that holds variable `v`, if there is one. -/
def lastBefore (lro : List Nat) (v : Nat) : Nat → Option Nat
  | 0 => none
  | k + 1 => if lro[k]? = some v then some k else lastBefore lro v k

/-- How `buildPermutation` stores an optional slot in an `int64`: `-1` for "none". -/
def enc : Option Nat → Int
  | none => -1
  | some j => (j : Int)

/-- Closed form of the permutation: the previous slot holding the same variable, and for the
first slot of a variable the last slot holding it. -/
def nextSlot (lro : List Nat) (i : Nat) : Nat :=
  match lastBefore lro (lro[i]?.getD 0) i with
  | some j => j
  | none => (lastBefore lro (lro[i]?.getD 0) lro.length).getD i

/-- The slot that the stored array `S` sends slot `i` to. -/
def slotNext (S : List Int) (i : Nat) : Nat :=
  (S[i]?.getD (-1)).toNat

/-! ## BuildTrace -/

/-- Lines 226-255 of `BuildTrace`: the five selector columns `ql, qr, qm, qo, qk`, first the
placeholder rows of the public inputs, then one row per gate. -/
def buildSelectors {F : Type} [Field F] (spr : SparseR1CS F) :
    Option (List F × List F × List F × List F × List F) := do
  let nbConstraints := spr.GetNbConstraints
  let sizeSystem := nbConstraints + spr.Public.length
  let size := nextPowerOfTwo sizeSystem
  let ql : List F := List.replicate size 0
  let qr : List F := List.replicate size 0
  let qm : List F := List.replicate size 0
  let qo : List F := List.replicate size 0
  let qk : List F := List.replicate size 0
  let st ← forLoop (fun i (st : List F × List F × List F × List F × List F) => do
      let ql ← store st.1 i (-1)
      let qr ← store st.2.1 i 0
      let qm ← store st.2.2.1 i 0
      let qo ← store st.2.2.2.1 i 0
      let qk ← store st.2.2.2.2 i 0
      some (ql, qr, qm, qo, qk))
    (ql, qr, qm, qo, qk) spr.Public.length
  let offset := spr.Public.length
  forLoop (fun j (st : List F × List F × List F × List F × List F) => do
      let c ← spr.Constraints[j]?
      let ql ← store st.1 (offset + j) (← spr.Coefficients[c.QL]?)
      let qr ← store st.2.1 (offset + j) (← spr.Coefficients[c.QR]?)
      let qm ← store st.2.2.1 (offset + j) (← spr.Coefficients[c.QM]?)
      let qo ← store st.2.2.2.1 (offset + j) (← spr.Coefficients[c.QO]?)
      let qk ← store st.2.2.2.2 (offset + j) (← spr.Coefficients[c.QC]?)
      some (ql, qr, qm, qo, qk))
    st spr.Constraints.length

/-- Lines 267-270 of `BuildTrace`: the column `qcp[i]` of one commitment-info entry. -/
def buildQcpColumn {F : Type} [Field F] (size offset : Nat) (committed : List Nat) :
    Option (List F) :=
  forLoop (fun t (q : List F) => do
      let w ← committed[t]?
      store q (offset + w) 1)
    (List.replicate size 0) committed.length

/-- The function `BuildTrace`: the selector columns are stored in `pt`, then one `Qcp` column
per commitment-info entry. -/
def BuildTrace {F : Type} [Field F] (spr : SparseR1CS F) (pt : Trace F) : Option (Trace F) := do
  let size := nextPowerOfTwo (spr.GetNbConstraints + spr.Public.length)
  let offset := spr.Public.length
  let sel ← buildSelectors spr
  let pt : Trace F :=
    { pt with Ql := sel.1, Qr := sel.2.1, Qm := sel.2.2.1, Qo := sel.2.2.2.1,
              Qk := sel.2.2.2.2, Qcp := List.replicate spr.CommitmentInfo.length [] }
  forLoop (fun i (pt : Trace F) => do
      let info ← spr.CommitmentInfo[i]?
      let q ← buildQcpColumn size offset info.Committed
      let Qcp ← store pt.Qcp i q
      some { pt with Qcp := Qcp })
    pt spr.CommitmentInfo.length

/-! ## The permutation polynomials -/

/-- The function `getSupportPermutation`: the vector `<g> ‖ u<g> ‖ u²<g>`. -/
def getSupportPermutation {F : Type} [Field F] (domain : Domain F) : Option (List F) := do
  let res : List F := List.replicate (3 * domain.Cardinality) 0
  let res ← store res 0 1
  let res ← store res domain.Cardinality domain.FrMultiplicativeGen
  let res ← store res (2 * domain.Cardinality)
    (domain.FrMultiplicativeGen * domain.FrMultiplicativeGen)
  forLoop (fun k (res : List F) => do
      let i := k + 1
      let res ← store res i ((← res[i - 1]?) * domain.Generator)
      let res ← store res (domain.Cardinality + i)
        ((← res[domain.Cardinality + i - 1]?) * domain.Generator)
      store res (2 * domain.Cardinality + i)
        ((← res[2 * domain.Cardinality + i - 1]?) * domain.Generator))
    res (domain.Cardinality - 1)

/-- The slice read `xs[s]` with an `int64` index: a negative index panics as well. -/
def readAt {α : Type} (xs : List α) (s : Int) : Option α :=
  if s < 0 then none else xs[s.toNat]?

/-- The function `computePermutationPolynomials`: the three vectors `S1, S2, S3`. -/
def computePermutationPolynomials {F : Type} [Field F] (pt : Trace F) (domain : Domain F) :
    Option (List F × List F × List F) := do
  let nbElmts := domain.Cardinality
  let evaluationIDSmallDomain ← getSupportPermutation domain
  let s1Canonical : List F := List.replicate nbElmts 0
  let s2Canonical : List F := List.replicate nbElmts 0
  let s3Canonical : List F := List.replicate nbElmts 0
  forLoop (fun i (st : List F × List F × List F) => do
      let s1 ← store st.1 i (← readAt evaluationIDSmallDomain (← pt.S[i]?))
      let s2 ← store st.2.1 i (← readAt evaluationIDSmallDomain (← pt.S[nbElmts + i]?))
      let s3 ← store st.2.2 i (← readAt evaluationIDSmallDomain (← pt.S[2 * nbElmts + i]?))
      some (s1, s2, s3))
    (s1Canonical, s2Canonical, s3Canonical) nbElmts

/-! ## The prover: the grand product -/

/-- The fields of `PublicRaw` that `prove.go` reads. -/
structure PublicRaw (F : Type) where
  DomainNum : Domain F
  DomainH : Domain F
  Shifter : F × F
  Ql : List F
  Qr : List F
  Qm : List F
  Qo : List F
  Qk : List F
  LS1 : List F
  LS2 : List F
  LS3 : List F
  CS1 : List F
  CS2 : List F
  CS3 : List F

/-- Body of the loop of `ComputeZ`; the state is `z` and the running values `u[0], u[1], u[2]`. -/
def ComputeZBody {F : Type} [Field F] (gamma : F) (l r o : List F) (publicData : PublicRaw F)
    (i : Nat) (st : List F × F × F × F) : Option (List F × F × F × F) := do
  let z := st.1
  let u0 := st.2.1
  let u1 := st.2.2.1
  let u2 := st.2.2.2
  let li ← l[i]?
  let ri ← r[i]?
  let oi ← o[i]?
  let f0 := li + u0 + gamma
  let f1 := ri + u1 + gamma
  let f2 := oi + u2 + gamma
  let s1 ← publicData.LS1[i]?
  let s2 ← publicData.LS2[i]?
  let s3 ← publicData.LS3[i]?
  let g0 := li + s1 + gamma
  let g1 := ri + s2 + gamma
  let g2 := oi + s3 + gamma
  let f0 := f0 * f1 * f2
  let g0 := g0 * g1 * g2
  let zi ← z[i]?
  let z ← store z (i + 1) (zi * f0 / g0)
  some (z, u0 * publicData.DomainNum.Generator, u1 * publicData.DomainNum.Generator,
    u2 * publicData.DomainNum.Generator)

/-- The function `ComputeZ`; the package-level challenge `gamma` is a parameter. -/
def ComputeZ {F : Type} [Field F] (gamma : F) (l r o : List F) (publicData : PublicRaw F) :
    Option (List F) := do
  let z : List F := List.replicate publicData.DomainNum.Cardinality 0
  let nbElmts := publicData.DomainNum.Cardinality
  let z ← store z 0 1
  let st ← forLoop (ComputeZBody gamma l r o publicData)
    (z, 1, publicData.Shifter.1, publicData.Shifter.2) (nbElmts - 1)
  some st.1

/-! ## Specification-side definitions for the grand product -/

/-- Numerator of step `k` of the grand product:
`(l_k + g^k + γ)(r_k + u·g^k + γ)(o_k + u²·g^k + γ)`, with `(u, u²)` the two shifters. -/
def zNum {F : Type} [Field F] (gamma g : F) (shifter : F × F) (l r o : List F) (k : Nat) : F :=
  (l[k]?.getD 0 + g ^ k + gamma) * (r[k]?.getD 0 + shifter.1 * g ^ k + gamma)
    * (o[k]?.getD 0 + shifter.2 * g ^ k + gamma)

/-- Denominator of step `k` of the grand product:
`(l_k + LS1_k + γ)(r_k + LS2_k + γ)(o_k + LS3_k + γ)`. -/
def zDen {F : Type} [Field F] (gamma : F) (l r o s1 s2 s3 : List F) (k : Nat) : F :=
  (l[k]?.getD 0 + s1[k]?.getD 0 + gamma) * (r[k]?.getD 0 + s2[k]?.getD 0 + gamma)
    * (o[k]?.getD 0 + s3[k]?.getD 0 + gamma)

/-! ## Example inputs -/

/-- The example system used to instantiate the permutation theorems: one public input and
two gates, the second of which reuses the output wire of the first. -/
def exampleSpr : SparseR1CS ℚ :=
  { Public := ["x"], Secret := ["y"], NbInternalVariables := 2
    Constraints := [⟨0, 0, 1, 2, 0, 0, 1, 2⟩, ⟨0, 0, 1, 2, 0, 2, 1, 3⟩]
    Coefficients := [0, 1, -1], CommitmentInfo := [⟨[0]⟩] }

/-- A trace of the size `BuildTrace` gives for `exampleSpr`. -/
def exampleTrace : Trace ℚ :=
  { Ql := [-1, 0, 0, 0], Qr := [0, 0, 0, 0], Qm := [0, 1, 1, 0], Qo := [0, -1, -1, 0]
    Qk := [0, 0, 0, 0], Qcp := [[0, 1, 0, 0]], S1 := [], S2 := [], S3 := [], S := [] }

/-- Public data of the example used for the grand product: a domain of size 2 over `ℚ` with
generator `-1` and coset shift `2`, and the permutation polynomials of `exampleZTrace`. -/
def exampleZData : PublicRaw ℚ :=
  { DomainNum := ⟨2, -1, 2, 0⟩, DomainH := ⟨8, 0, 0, 0⟩, Shifter := (2, 4)
    Ql := [], Qr := [], Qm := [], Qo := [], Qk := []
    LS1 := [-1, 1], LS2 := [2, 4], LS3 := [-2, -4], CS1 := [], CS2 := [], CS3 := [] }

/-- A trace whose permutation swaps the slots 0, 1 and the slots 3, 4. -/
def exampleZTrace : Trace ℚ :=
  { Ql := [], Qr := [], Qm := [], Qo := [], Qk := [], Qcp := [], S1 := [], S2 := [], S3 := []
    S := [1, 0, 2, 4, 3, 5] }

/-! ## Specification-side definitions for the trace -/

/-- Row `i` of a selector column as the specification describes it: the placeholder value `pub`
on the rows of the public inputs, the coefficient that gate `i - P` references through the
index `idx`, and zero beyond the last gate. -/
def selectorRow {F : Type} [Field F] (spr : SparseR1CS F) (pub : F) (idx : SparseR1C → Nat)
    (i : Nat) : F :=
  if i < spr.Public.length then pub
  else match spr.Constraints[i - spr.Public.length]? with
    | some c => spr.Coefficients[idx c]?.getD 0
    | none => 0

/-- The invariant of the two loops of `buildSelectors` after the rows `[0, m)` are written. -/
def SelectorsUpTo {F : Type} [Field F] (spr : SparseR1CS F) (size m : Nat)
    (st : List F × List F × List F × List F × List F) : Prop :=
  (st.1.length = size ∧ ∀ i, i < size →
    st.1[i]? = some (if i < m then selectorRow spr (-1) SparseR1C.QL i else 0)) ∧
  (st.2.1.length = size ∧ ∀ i, i < size →
    st.2.1[i]? = some (if i < m then selectorRow spr 0 SparseR1C.QR i else 0)) ∧
  (st.2.2.1.length = size ∧ ∀ i, i < size →
    st.2.2.1[i]? = some (if i < m then selectorRow spr 0 SparseR1C.QM i else 0)) ∧
  (st.2.2.2.1.length = size ∧ ∀ i, i < size →
    st.2.2.2.1[i]? = some (if i < m then selectorRow spr 0 SparseR1C.QO i else 0)) ∧
  (st.2.2.2.2.length = size ∧ ∀ i, i < size →
    st.2.2.2.2[i]? = some (if i < m then selectorRow spr 0 SparseR1C.QC i else 0))

/-! ## Setup -/

/-- The proving key `kzg.ProvingKey` of the commitment scheme: its group-1 elements. -/
structure KzgProvingKey (G1 : Type) where
  G1 : List G1

/-- The reference string `kzg.SRS`: a proving key and a verifying key. -/
structure SRS (G1 KV : Type) where
  Pk : KzgProvingKey G1
  Vk : KV

/-- The record `VerifyingKey` of `setup.go`; `D` is `kzg.Digest`, `KV` is `kzg.VerifyingKey`. -/
structure VerifyingKey (F D KV : Type) where
  Size : Nat
  SizeInv : F
  Generator : F
  NbPublicVariables : Nat
  Kzg : KV
  CosetShift : F
  S : D × D × D
  Ql : D
  Qr : D
  Qm : D
  Qo : D
  Qk : D
  Qcp : List D
  CommitmentConstraintIndexes : List Nat

/-- The record `ProvingKey` of `setup.go`. The pointer `Vk` is the verifying key itself. -/
structure ProvingKey (F D G1 KV : Type) where
  trace : Trace F
  Kzg : KzgProvingKey G1
  Vk : VerifyingKey F D KV
  lcQl : List F
  lcQr : List F
  lcQm : List F
  lcQo : List F
  lcQcp : List (List F)
  lQk : List F
  Domain : Domain F × Domain F
  lcS1 : List F
  lcS2 : List F
  lcS3 : List F
  lcIdIOP : List F
  lLoneIOP : List F

/-- The errors `Setup` returns: its own `errors.New("kzg srs is too small")`, a value distinct
from every other error, and an error of `kzg.Commit` handed on unchanged. -/
inductive SetupError (E : Type) where
  | srsTooSmall : SetupError E
  | commitFailed (e : E) : SetupError E
deriving DecidableEq, Repr

/-- The library functions `Setup` calls and that are outside the sources: the generators that
`fft.NewDomain` picks, the basis changes of `iop.Polynomial` (`ToCanonical(d).ToRegular()` and
`ToLagrangeCoset(d)`), `kzg.Commit`, and `CommitmentInfo.CommitmentWireIndexes`. -/
structure Collaborators (F D G1 E : Type) where
  gens : Nat → F × F × F
  toCanonical : Domain F → List F → List F
  toLagrangeCoset : Domain F → List F → List F
  commit : List F → KzgProvingKey G1 → Except E D
  commitmentWireIndexes : List Commitment → List Nat

/-- The function `commitTrace`: every polynomial of the trace is put in canonical form and
committed, the digests go to the verifying key; the first error of `kzg.Commit` is returned. -/
def commitTrace {F D G1 KV E : Type} (env : Collaborators F D G1 E) (trace : Trace F)
    (domain0 : Domain F) (kzgPk : KzgProvingKey G1) (vk : VerifyingKey F D KV) :
    Except E (Trace F × VerifyingKey F D KV) := do
  let trace : Trace F :=
    { trace with
      Ql := env.toCanonical domain0 trace.Ql, Qr := env.toCanonical domain0 trace.Qr,
      Qm := env.toCanonical domain0 trace.Qm, Qo := env.toCanonical domain0 trace.Qo,
      Qk := env.toCanonical domain0 trace.Qk, S1 := env.toCanonical domain0 trace.S1,
      S2 := env.toCanonical domain0 trace.S2, S3 := env.toCanonical domain0 trace.S3 }
  let qcp ← trace.Qcp.mapM (fun q => do
      let c := env.toCanonical domain0 q
      let d ← env.commit c kzgPk
      pure (c, d))
  let trace : Trace F := { trace with Qcp := qcp.map Prod.fst }
  let vk := { vk with Qcp := qcp.map Prod.snd }
  let vk := { vk with Ql := ← env.commit trace.Ql kzgPk }
  let vk := { vk with Qr := ← env.commit trace.Qr kzgPk }
  let vk := { vk with Qm := ← env.commit trace.Qm kzgPk }
  let vk := { vk with Qo := ← env.commit trace.Qo kzgPk }
  let vk := { vk with Qk := ← env.commit trace.Qk kzgPk }
  let vk := { vk with S := (← env.commit trace.S1 kzgPk, vk.S.2.1, vk.S.2.2) }
  let vk := { vk with S := (vk.S.1, ← env.commit trace.S2 kzgPk, vk.S.2.2) }
  let vk := { vk with S := (vk.S.1, vk.S.2.1, ← env.commit trace.S3 kzgPk) }
  pure (trace, vk)

/-- The method `computeLagrangeCosetPolys`: the cached evaluations on the large coset, the
identity polynomial `id` and the first Lagrange polynomial. -/
def computeLagrangeCosetPolys {F D G1 KV E : Type} [Field F] (env : Collaborators F D G1 E)
    (pk : ProvingKey F D G1 KV) : Option (ProvingKey F D G1 KV) := do
  let lcQcp := pk.trace.Qcp.map (env.toLagrangeCoset pk.Domain.2)
  let id : List F := List.replicate pk.Domain.2.Cardinality 0
  let id ← store id 0 pk.Domain.2.FrMultiplicativeGen
  let id ← forLoop (fun k (id : List F) => do
      let i := k + 1
      store id i ((← id[i - 1]?) * pk.Domain.2.Generator))
    id (pk.Domain.2.Cardinality - 1)
  let lone : List F := List.replicate pk.Domain.1.Cardinality 0
  let lone ← store lone 0 1
  some { pk with
    lcQcp := lcQcp
    lcQl := env.toLagrangeCoset pk.Domain.2 pk.trace.Ql
    lcQr := env.toLagrangeCoset pk.Domain.2 pk.trace.Qr
    lcQm := env.toLagrangeCoset pk.Domain.2 pk.trace.Qm
    lcQo := env.toLagrangeCoset pk.Domain.2 pk.trace.Qo
    lcS1 := env.toLagrangeCoset pk.Domain.2 pk.trace.S1
    lcS2 := env.toLagrangeCoset pk.Domain.2 pk.trace.S2
    lcS3 := env.toLagrangeCoset pk.Domain.2 pk.trace.S3
    lcIdIOP := id
    lLoneIOP := env.toLagrangeCoset pk.Domain.2 (env.toCanonical pk.Domain.1 lone) }

/-- The function `Setup`. The result is the Go triple `(*ProvingKey, *VerifyingKey, error)`,
a `nil` pointer or error being `none`; the outer `none` is a panic. -/
def Setup {F D G1 KV E : Type} [Field F] [Inhabited D] (env : Collaborators F D G1 E)
    (spr : SparseR1CS F) (kzgSrs : SRS G1 KV) :
    Option (Option (ProvingKey F D G1 KV) × Option (VerifyingKey F D KV)
      × Option (SetupError E)) := do
  let domains := initDomains env.gens spr
  let vk : VerifyingKey F D KV :=
    { Size := domains.1.Cardinality
      SizeInv := ((domains.1.Cardinality : Nat) : F)⁻¹
      Generator := domains.1.Generator
      NbPublicVariables := spr.Public.length
      Kzg := kzgSrs.Vk
      CosetShift := domains.1.FrMultiplicativeGen
      S := (default, default, default)
      Ql := default, Qr := default, Qm := default, Qo := default, Qk := default
      Qcp := []
      CommitmentConstraintIndexes := env.commitmentWireIndexes spr.CommitmentInfo }
  if kzgSrs.Pk.G1.length < vk.Size then
    some (none, none, some SetupError.srsTooSmall)
  else do
    let trace : Trace F :=
      { Ql := [], Qr := [], Qm := [], Qo := [], Qk := [], Qcp := [],
        S1 := [], S2 := [], S3 := [], S := [] }
    let trace ← BuildTrace spr trace
    let nbVariables := spr.NbInternalVariables + spr.Public.length + spr.Secret.length
    let trace ← buildPermutation spr trace nbVariables
    let s ← computePermutationPolynomials trace domains.1
    let trace : Trace F := { trace with S1 := s.1, S2 := s.2.1, S3 := s.2.2 }
    let lQk := trace.Qk
    match commitTrace env trace domains.1 kzgSrs.Pk vk with
    | Except.error e => some (none, none, some (SetupError.commitFailed e))
    | Except.ok (trace, vk) => do
      let pk : ProvingKey F D G1 KV :=
        { trace := trace, Kzg := kzgSrs.Pk, Vk := vk
          lcQl := [], lcQr := [], lcQm := [], lcQo := [], lcQcp := []
          lQk := lQk, Domain := domains
          lcS1 := [], lcS2 := [], lcS3 := [], lcIdIOP := [], lLoneIOP := [] }
      let pk ← computeLagrangeCosetPolys env pk
      some (some pk, some pk.Vk, none)

/-! ## Example inputs for the domains and for Setup -/

/-- A system of five public inputs and no gate: its size is `5`, below the threshold of
`initDomains`, while the small domain has `8` points. -/
def fiveInputs : SparseR1CS ℚ :=
  { Public := ["a", "b", "c", "d", "e"], Secret := [], NbInternalVariables := 0
    Constraints := [], Coefficients := [], CommitmentInfo := [] }

/-- The empty system: no public input and no gate. -/
def emptySystem : SparseR1CS ℚ :=
  { Public := [], Secret := [], NbInternalVariables := 0
    Constraints := [], Coefficients := [], CommitmentInfo := [] }

/-- Generators for the examples (the cardinalities do not depend on them). -/
def exampleGens : Nat → ℚ × ℚ × ℚ := fun _ => (-1, 2, 0)

/-- Collaborators for the example: identity basis changes, and a commitment that fails, as
`kzg.Commit` does, on an empty polynomial or one longer than the reference string. -/
def exampleEnv : Collaborators ℚ Nat Unit String :=
  { gens := exampleGens
    toCanonical := fun _ p => p
    toLagrangeCoset := fun _ p => p
    commit := fun p pk =>
      if p.length = 0 ∨ pk.G1.length < p.length then Except.error "invalid polynomial size"
      else Except.ok p.length
    commitmentWireIndexes := fun infos => List.replicate infos.length 0 }

/-- A reference string with three group-1 elements: one fewer than the domain of
`exampleSpr`. -/
def smallSrs : SRS Unit Unit :=
  { Pk := ⟨[(), (), ()]⟩, Vk := () }

/-- A reference string with four group-1 elements: exactly the domain of `exampleSpr`. -/
def fullSrs : SRS Unit Unit :=
  { Pk := ⟨[(), (), (), ()]⟩, Vk := () }

/-! ## The prover (`prove.go`) -/

/-- A gate of the prover's constraint system (`cs.SparseR1C` of the package
`internal/backend/bls381/cs`): the variable IDs `L.VariableID()`, `R.VariableID()`,
`O.VariableID()` of its three terms. -/
structure bls381.SparseR1C where
  L : Nat
  R : Nat
  O : Nat
deriving Repr, DecidableEq

/-- The constraint system `cs.SparseR1CS` as far as `prove.go` reads it. -/
structure bls381.SparseR1CS where
  NbPublicVariables : Nat
  Constraints : List bls381.SparseR1C
  Assertions : List bls381.SparseR1C
deriving Repr, DecidableEq

/-- The package-level challenges of `prove.go` (constants set in `init`). -/
structure Challenges (F : Type) where
  zeta : F
  vBundle : F
  gamma : F
  alpha : F

/-- The record `ProofRaw`; `BO` and `OP` are the two kinds of opening proofs. -/
structure ProofRaw (F BO OP : Type) where
  LROHZ : F × F × F × F × F
  ZShift : F
  BatchOpenings : BO
  OpeningZShift : OP

/-- What `prove.go` calls outside the sources. `solve` is `spr.Solve(witness)` with its two
results. `fft d a c` is `d.FFT(a, fft.DIF, c)` followed by `fft.BitReverse(a)`: the values of
the polynomial `a` on the coset `FinerGenerator^c · <Generator>`, in the natural order.
`fftInverse d a c` is `d.FFTInverse(a, fft.DIF, c)` followed by `fft.BitReverse(a)`: the
coefficients of the polynomial with the values `a` on that coset. The last two are the methods
of `publicData.CommitmentScheme`. -/
structure ProverCollaborators (F W E BO OP : Type) where
  solve : bls381.SparseR1CS → W → List F × Option E
  fft : Domain F → List F → Nat → List F
  fftInverse : Domain F → List F → Nat → List F
  BatchOpenSinglePoint : F → F → List (List F) → BO
  Open : F → List F → OP

/-- Modelled from the spec: `bls381.Poly.Eval` belongs to the package `crypto/polynomial`,
which is not among the sources. The spec has the prover "evaluate at ζ": the value
`Σ p[i]·x^i` of the polynomial with coefficients `p`, here by Horner's rule. -/
def Poly.Eval {F : Type} [Field F] (p : List F) (x : F) : F :=
  p.foldr (fun c acc => c + x * acc) 0

/-- Go's built-in `copy(dst, src)`: the first `min(len(dst), len(src))` entries of `dst` are
overwritten. -/
def copySlice {α : Type} (dst src : List α) : List α :=
  src.take dst.length ++ dst.drop src.length

/-- One row of `l`, `r`, `o` (and of `partialL` when `withPartial` holds) in `ComputeLRO`:
`l[row] = solution[a]`, `r[row] = solution[b]`, `o[row] = solution[c]`,
`partialL[row] = l[row]`. -/
def ComputeLRORow {F : Type} (solution : List F) (row a b c : Nat) (withPartial : Bool)
    (st : List F × List F × List F × List F) : Option (List F × List F × List F × List F) := do
  let x ← solution[a]?
  let l ← store st.1 row x
  let y ← solution[b]?
  let r ← store st.2.1 row y
  let w ← solution[c]?
  let o ← store st.2.2.1 row w
  if withPartial then do
    let d ← l[row]?
    let partialL ← store st.2.2.2 row d
    some (l, r, o, partialL)
  else some (l, r, o, st.2.2.2)

/-- The function `ComputeLRO`; the result is `(l, r, o, partialL)`. Its four loops write the
placeholder rows, the constraints, the assertions and the padding. -/
def ComputeLRO {F : Type} [Field F] (spr : bls381.SparseR1CS) (publicData : PublicRaw F)
    (solution : List F) : Option (List F × List F × List F × List F) := do
  let s := publicData.DomainNum.Cardinality
  let l : List F := List.replicate s 0
  let r : List F := List.replicate s 0
  let o : List F := List.replicate s 0
  let partialL : List F := List.replicate s 0
  let st ← forLoop (fun i st => ComputeLRORow solution i i 0 0 false st)
    (l, r, o, partialL) spr.NbPublicVariables
  let offset := spr.NbPublicVariables
  let st ← forLoop (fun i st => do
      let g ← spr.Constraints[i]?
      ComputeLRORow solution (offset + i) g.L g.R g.O true st)
    st spr.Constraints.length
  let offset := offset + spr.Constraints.length
  let st ← forLoop (fun i st => do
      let g ← spr.Assertions[i]?
      ComputeLRORow solution (offset + i) g.L g.R g.O true st)
    st spr.Assertions.length
  let offset := offset + spr.Assertions.length
  forLoop (fun i st => ComputeLRORow solution (offset + i) 0 0 0 true st) st (s - offset)

/-- The function `shiftZ`: a copy of `z` rotated to the left by one slot. -/
def shiftZ {F : Type} (z : List F) : Option (List F) := do
  let res := z
  let buf ← res[0]?
  let res ← forLoop (fun i (res : List F) => do
      let x ← res[i + 1]?
      store res i x)
    res (res.length - 1)
  store res (res.length - 1) buf

/-- The four writes `res[4i+k] = e_k[i]` of one iteration of a loop over the cosets. -/
def storeFour {F : Type} (res : List F) (i : Nat) (a b c d : F) : Option (List F) := do
  let res ← store res (4 * i) a
  let res ← store res (4 * i + 1) b
  let res ← store res (4 * i + 2) c
  store res (4 * i + 3) d

/-- The function `evaluateCosets`: the values of `poly` on the four odd cosets, interleaved
into `res`. -/
def evaluateCosets {F W E BO OP : Type} [Field F] (env : ProverCollaborators F W E BO OP)
    (poly res : List F) (domain : Domain F) : Option (List F) :=
  let e0 := env.fft domain (copySlice (List.replicate domain.Cardinality (0 : F)) poly) 1
  let e1 := env.fft domain (copySlice (List.replicate domain.Cardinality (0 : F)) poly) 3
  let e2 := env.fft domain (copySlice (List.replicate domain.Cardinality (0 : F)) poly) 5
  let e3 := env.fft domain (copySlice (List.replicate domain.Cardinality (0 : F)) poly) 7
  forLoop (fun i (res : List F) => do
      let a ← e0[i]?
      let b ← e1[i]?
      let c ← e2[i]?
      let d ← e3[i]?
      storeFour res i a b c d)
    res domain.Cardinality

/-- The value `ql·l + qr·r + qm·l·r + qo·o + k` that one iteration of `evalConstraints`
accumulates in `acc`. -/
def gateValue {F : Type} [Field F] (ql qr qm qo qk li ri oi : F) : F :=
  ql * li + qr * ri + qm * li * ri + qo * oi + qk

/-- Body of the loop of `evalConstraints`. -/
def evalConstraintsBody {F : Type} [Field F]
    (evalQl evalQr evalQm evalQo evalQk evalL evalR evalO : List F) (i : Nat) (res : List F) :
    Option (List F) := do
  let ql ← evalQl[i]?
  let li ← evalL[i]?
  let qr ← evalQr[i]?
  let ri ← evalR[i]?
  let qm ← evalQm[i]?
  let qo ← evalQo[i]?
  let oi ← evalO[i]?
  let qk ← evalQk[i]?
  store res i (gateValue ql qr qm qo qk li ri oi)

/-- The function `evalConstraints`: the values of `ql·l + qr·r + qm·l·r + qo·o + k` on the
odd cosets. -/
def evalConstraints {F W E BO OP : Type} [Field F] (env : ProverCollaborators F W E BO OP)
    (publicData : PublicRaw F) (evalL evalR evalO : List F) : Option (List F) := do
  let n4 := 4 * publicData.DomainNum.Cardinality
  let res : List F := List.replicate n4 0
  let evalQl ← evaluateCosets env publicData.Ql (List.replicate n4 0) publicData.DomainNum
  let evalQr ← evaluateCosets env publicData.Qr (List.replicate n4 0) publicData.DomainNum
  let evalQm ← evaluateCosets env publicData.Qm (List.replicate n4 0) publicData.DomainNum
  let evalQo ← evaluateCosets env publicData.Qo (List.replicate n4 0) publicData.DomainNum
  let evalQk ← evaluateCosets env publicData.Qk (List.replicate n4 0) publicData.DomainNum
  forLoop (evalConstraintsBody evalQl evalQr evalQm evalQo evalQk evalL evalR evalO) res n4

/-- Body of the first loop of `evalIDCosets`: `id[4i] = id[4(i-1)]·g`, copied to the three
next entries; the loop starts at `i = 1`. -/
def evalIDCosetsPowers {F : Type} [Field F] (g : F) (k : Nat) (id : List F) :
    Option (List F) := do
  let i := k + 1
  let p ← id[4 * (i - 1)]?
  let id ← store id (4 * i) (p * g)
  let q ← id[4 * i]?
  storeFour id i q q q q

/-- Four updates `dst[4i+k] = src[4i+k]·c_k`, `k = 0..3`, of one iteration of a loop over the
cosets. -/
def scaleFour {F : Type} [Field F] (src dst : List F) (i : Nat) (c0 c1 c2 c3 : F) :
    Option (List F) := do
  let a0 ← src[4 * i]?
  let a1 ← src[4 * i + 1]?
  let a2 ← src[4 * i + 2]?
  let a3 ← src[4 * i + 3]?
  storeFour dst i (a0 * c0) (a1 * c1) (a2 * c2) (a3 * c3)

/-- Body of the second loop of `evalIDCosets`; the state is `(id, uid, uuid)`. -/
def evalIDCosetsShift {F : Type} [Field F] (u0 u1 u2 u3 s0 s1 : F) (i : Nat)
    (st : List F × List F × List F) : Option (List F × List F × List F) := do
  let id ← scaleFour st.1 st.1 i u0 u1 u2 u3
  let uid ← scaleFour id st.2.1 i s0 s0 s0 s0
  let uuid ← scaleFour id st.2.2 i s1 s1 s1 s1
  some (id, uid, uuid)

/-- The function `evalIDCosets`: `id`, `Shifter[0]·id` and `Shifter[1]·id` on the odd
cosets. -/
def evalIDCosets {F : Type} [Field F] (publicData : PublicRaw F) :
    Option (List F × List F × List F) := do
  let id : List F := List.replicate (4 * publicData.DomainNum.Cardinality) 0
  let c := publicData.DomainNum.Cardinality
  let id ← storeFour id 0 1 1 1 1
  let id ← forLoop (evalIDCosetsPowers publicData.DomainNum.Generator) id (c - 1)
  let uu := publicData.DomainNum.FinerGenerator * publicData.DomainNum.FinerGenerator
  let u0 := publicData.DomainNum.FinerGenerator
  let u1 := u0 * uu
  let u2 := u1 * uu
  let u3 := u2 * uu
  let uid : List F := List.replicate (4 * publicData.DomainNum.Cardinality) 0
  let uuid : List F := List.replicate (4 * publicData.DomainNum.Cardinality) 0
  forLoop (evalIDCosetsShift u0 u1 u2 u3 publicData.Shifter.1 publicData.Shifter.2)
    (id, uid, uuid) c

/-- The value `(l + s1 + γ)(r + s2 + γ)(o + s3 + γ)·zu - (l + id + γ)(r + uid + γ)(o + uuid + γ)·z`
that one iteration of `evalConstraintOrdering` stores. -/
def orderingValue {F : Type} [Field F] (gamma li ri oi id uid uuid s1 s2 s3 zi zui : F) : F :=
  (li + s1 + gamma) * (ri + s2 + gamma) * (oi + s3 + gamma) * zui
    - (li + id + gamma) * (ri + uid + gamma) * (oi + uuid + gamma) * zi

/-- Body of the loop of `evalConstraintOrdering`. -/
def evalConstraintOrderingBody {F : Type} [Field F] (gamma : F)
    (evalID evaluID evaluuID evalS1 evalS2 evalS3 evalZ evalZu evalL evalR evalO : List F)
    (i : Nat) (res : List F) : Option (List F) := do
  let li ← evalL[i]?
  let id ← evalID[i]?
  let ri ← evalR[i]?
  let uid ← evaluID[i]?
  let oi ← evalO[i]?
  let uuid ← evaluuID[i]?
  let s1 ← evalS1[i]?
  let s2 ← evalS2[i]?
  let s3 ← evalS3[i]?
  let zi ← evalZ[i]?
  let zui ← evalZu[i]?
  store res i (orderingValue gamma li ri oi id uid uuid s1 s2 s3 zi zui)

/-- The function `evalConstraintOrdering`: the values of `Z(gX)·g1·g2·g3 - Z(X)·f1·f2·f3` on
the odd cosets. -/
def evalConstraintOrdering {F W E BO OP : Type} [Field F]
    (env : ProverCollaborators F W E BO OP) (gamma : F) (publicData : PublicRaw F)
    (evalZ evalZu evalL evalR evalO : List F) : Option (List F) := do
  let n4 := 4 * publicData.DomainNum.Cardinality
  let evalS1 ← evaluateCosets env publicData.CS1 (List.replicate n4 0) publicData.DomainNum
  let evalS2 ← evaluateCosets env publicData.CS2 (List.replicate n4 0) publicData.DomainNum
  let evalS3 ← evaluateCosets env publicData.CS3 (List.replicate n4 0) publicData.DomainNum
  let ids ← evalIDCosets publicData
  let res : List F := List.replicate n4 0
  forLoop (evalConstraintOrderingBody gamma ids.1 ids.2.1 ids.2.2 evalS1 evalS2 evalS3
      evalZ evalZu evalL evalR evalO)
    res n4

/-- The function `evalStartsAtOne`: the values of `L1·(Z - 1)` on the odd cosets. -/
def evalStartsAtOne {F W E BO OP : Type} [Field F] (env : ProverCollaborators F W E BO OP)
    (publicData : PublicRaw F) (evalZ : List F) : Option (List F) := do
  let lOneLagrange : List F := List.replicate publicData.DomainNum.Cardinality 0
  let lOneLagrange ← store lOneLagrange 0 1
  let lOneLagrange := env.fftInverse publicData.DomainNum lOneLagrange 0
  let res : List F := List.replicate (4 * publicData.DomainNum.Cardinality) 0
  let res ← evaluateCosets env lOneLagrange res publicData.DomainNum
  forLoop (fun i (res : List F) => do
      let zi ← evalZ[i]?
      let x ← res[i]?
      store res i ((zi - 1) * x))
    res (4 * publicData.DomainNum.Cardinality)

/-- Lines 377-392 of `computeH` up to the subtraction: the values of `X^m - 1` at `u`, `u³`,
`u⁵`, `u⁷`, with `u` the finer generator, which `computeH` then inverts. -/
def vanishingOnCosets {F : Type} [Field F] (publicData : PublicRaw F) : F × F × F × F :=
  let uu := publicData.DomainNum.FinerGenerator * publicData.DomainNum.FinerGenerator
  let u0 := publicData.DomainNum.FinerGenerator
  let u1 := u0 * uu
  let u2 := u1 * uu
  let u3 := u2 * uu
  (u0 ^ publicData.DomainNum.Cardinality - 1, u1 ^ publicData.DomainNum.Cardinality - 1,
    u2 ^ publicData.DomainNum.Cardinality - 1, u3 ^ publicData.DomainNum.Cardinality - 1)

/-- Body of the first loop of `computeH`: `h[i] = (startsAtOne[i]·α + constraintOrdering[i])·α
+ constraintsInd[i]`. -/
def computeHCombine {F : Type} [Field F] (alpha : F)
    (constraintsInd constraintOrdering startsAtOne : List F) (i : Nat) (h : List F) :
    Option (List F) := do
  let b ← startsAtOne[i]?
  let p ← constraintOrdering[i]?
  let g ← constraintsInd[i]?
  store h i ((b * alpha + p) * alpha + g)

/-- Lines 375-410 of `computeH`: the values on the odd cosets that are handed to the inverse
FFT. -/
def computeHEvals {F : Type} [Field F] (alpha : F) (publicData : PublicRaw F)
    (constraintsInd constraintOrdering startsAtOne : List F) : Option (List F) := do
  let h : List F := List.replicate (4 * publicData.DomainNum.Cardinality) 0
  let v := vanishingOnCosets publicData
  let h ← forLoop (computeHCombine alpha constraintsInd constraintOrdering startsAtOne) h
    (4 * publicData.DomainNum.Cardinality)
  forLoop (fun i (h : List F) => scaleFour h h i v.1⁻¹ v.2.1⁻¹ v.2.2.1⁻¹ v.2.2.2⁻¹) h
    publicData.DomainNum.Cardinality

/-- The function `computeH`: the quotient in canonical form. -/
def computeH {F W E BO OP : Type} [Field F] (env : ProverCollaborators F W E BO OP)
    (alpha : F) (publicData : PublicRaw F)
    (constraintsInd constraintOrdering startsAtOne : List F) : Option (List F) := do
  let h ← computeHEvals alpha publicData constraintsInd constraintOrdering startsAtOne
  some (env.fftInverse publicData.DomainH h 1)

/-- The polynomials `ProveRaw` has computed once `computeH` returns (lines 427-476), all in
canonical form. -/
structure ProverPolynomials (F : Type) where
  l : List F
  r : List F
  o : List F
  partialL : List F
  z : List F
  zu : List F
  h : List F

/-- Lines 427-476 of `ProveRaw`: from the solution to the quotient. -/
def proverPolynomials {F W E BO OP : Type} [Field F] (env : ProverCollaborators F W E BO OP)
    (ch : Challenges F) (spr : bls381.SparseR1CS) (publicData : PublicRaw F)
    (solution : List F) : Option (ProverPolynomials F) := do
  let lro ← ComputeLRO spr publicData solution
  let z ← ComputeZ ch.gamma lro.1 lro.2.1 lro.2.2.1 publicData
  let zu ← shiftZ z
  let l := env.fftInverse publicData.DomainNum lro.1 0
  let r := env.fftInverse publicData.DomainNum lro.2.1 0
  let o := env.fftInverse publicData.DomainNum lro.2.2.1 0
  let partialL := env.fftInverse publicData.DomainNum lro.2.2.2 0
  let n4 := 4 * publicData.DomainNum.Cardinality
  let evalL ← evaluateCosets env l (List.replicate n4 0) publicData.DomainNum
  let evalR ← evaluateCosets env r (List.replicate n4 0) publicData.DomainNum
  let evalO ← evaluateCosets env o (List.replicate n4 0) publicData.DomainNum
  let constraintsInd ← evalConstraints env publicData evalL evalR evalO
  let z := env.fftInverse publicData.DomainNum z 0
  let zu := env.fftInverse publicData.DomainNum zu 0
  let evalZ ← evaluateCosets env z (List.replicate n4 0) publicData.DomainNum
  let evalZu ← evaluateCosets env zu (List.replicate n4 0) publicData.DomainNum
  let constraintsOrdering ←
    evalConstraintOrdering env ch.gamma publicData evalZ evalZu evalL evalR evalO
  let startsAtOne ← evalStartsAtOne env publicData evalZ
  let h ← computeH env ch.alpha publicData constraintsInd constraintsOrdering startsAtOne
  some { l := l, r := r, o := o, partialL := partialL, z := z, zu := zu, h := h }

/-- The function `ProveRaw`. The error of `spr.Solve` is assigned to `_`; `none` is a
panic. -/
def ProveRaw {F W E BO OP : Type} [Field F] (env : ProverCollaborators F W E BO OP)
    (ch : Challenges F) (spr : bls381.SparseR1CS) (publicData : PublicRaw F) (witness : W) :
    Option (ProofRaw F BO OP) := do
  let solution := (env.solve spr witness).1
  let p ← proverPolynomials env ch spr publicData solution
  let zzeta := ch.zeta * publicData.DomainNum.Generator
  some
    { LROHZ := (Poly.Eval p.partialL ch.zeta, Poly.Eval p.r ch.zeta, Poly.Eval p.o ch.zeta,
        Poly.Eval p.h ch.zeta, Poly.Eval p.z ch.zeta)
      ZShift := Poly.Eval p.z zzeta
      BatchOpenings := env.BatchOpenSinglePoint ch.zeta ch.vBundle [p.l, p.r, p.o, p.h, p.z]
      OpeningZShift := env.Open zzeta p.z }

/-! ## Specification-side definitions for the prover -/

/-- Entry `s` of the support `σ = (g^i) ‖ (u·g^i) ‖ (u²·g^i)` over a domain of size `N`:
`u^(s div N) · g^(s mod N)`. -/
def sigmaAt {F : Type} [Field F] (domain : Domain F) (s : Nat) : F :=
  domain.FrMultiplicativeGen ^ (s / domain.Cardinality)
    * domain.Generator ^ (s % domain.Cardinality)

/-- The variable ID that row `i` of a wire column of `ComputeLRO` reads: `pub i` on the rows of
the public variables, the ID that `pick` selects in gate `i - P` (constraints followed by
assertions), and `0` beyond the last gate. -/
def wireID (spr : bls381.SparseR1CS) (pub : Nat → Nat) (pick : bls381.SparseR1C → Nat)
    (i : Nat) : Nat :=
  if i < spr.NbPublicVariables then pub i
  else match (spr.Constraints ++ spr.Assertions)[i - spr.NbPublicVariables]? with
    | some g => pick g
    | none => 0

/-- The polynomials that `commitTrace` commits, in the order in which it commits them: the
canonical forms of `Qcp[0], Qcp[1], …`, then of `Ql, Qr, Qm, Qo, Qk, S1, S2, S3`. -/
def commitOrder {F D G1 E : Type} (env : Collaborators F D G1 E) (trace : Trace F)
    (domain0 : Domain F) : List (List F) :=
  trace.Qcp.map (env.toCanonical domain0) ++
    [env.toCanonical domain0 trace.Ql, env.toCanonical domain0 trace.Qr,
     env.toCanonical domain0 trace.Qm, env.toCanonical domain0 trace.Qo,
     env.toCanonical domain0 trace.Qk, env.toCanonical domain0 trace.S1,
     env.toCanonical domain0 trace.S2, env.toCanonical domain0 trace.S3]

/-- Steps 2 and 3 of `Setup`: the trace in Lagrange form that is handed to `commitTrace`. -/
def lagrangeTrace {F : Type} [Field F] (spr : SparseR1CS F) (domain0 : Domain F) :
    Option (Trace F) := do
  let trace : Trace F :=
    { Ql := [], Qr := [], Qm := [], Qo := [], Qk := [], Qcp := [],
      S1 := [], S2 := [], S3 := [], S := [] }
  let trace ← BuildTrace spr trace
  let nbVariables := spr.NbInternalVariables + spr.Public.length + spr.Secret.length
  let trace ← buildPermutation spr trace nbVariables
  let s ← computePermutationPolynomials trace domain0
  some { trace with S1 := s.1, S2 := s.2.1, S3 := s.2.2 }

/-- The `j`-th sample point of the coset on which the prover evaluates: index `j = 4i + k` is
the point `u^(2k+1)·g^i`, with `u` the finer generator and `g` the generator of the small
domain. -/
def cosetPoint {F : Type} [Field F] (domain : Domain F) (j : Nat) : F :=
  domain.FinerGenerator ^ (2 * (j % 4) + 1) * domain.Generator ^ (j / 4)

/-- Component `k` of a quadruple indexed by the coset number `k = 0, 1, 2, 3`. -/
def cosetComponent {F : Type} (v : F × F × F × F) (k : Nat) : F :=
  if k = 0 then v.1 else if k = 1 then v.2.1 else if k = 2 then v.2.2.1 else v.2.2.2

/-! ## Example inputs for the prover -/

/-- The prime field with 17 elements, with the inverse computed as `x^15` so that every
operation evaluates. It has elements of order 8 (such as `2`), as the prover's domains need. -/
def F17 : Type := ZMod 17

instance instDecidableEqF17 : DecidableEq F17 := inferInstanceAs (DecidableEq (ZMod 17))

instance instFintypeF17 : Fintype F17 := inferInstanceAs (Fintype (ZMod 17))

instance instCommRingF17 : CommRing F17 := inferInstanceAs (CommRing (ZMod 17))

instance instFieldF17 : Field F17 :=
  { instCommRingF17 with
    inv := fun x => x ^ 15
    exists_pair_ne := ⟨0, 1, by decide⟩
    mul_inv_cancel := by decide
    inv_zero := by decide
    nnqsmul := _
    nnqsmul_def := fun _ _ => rfl
    qsmul := _
    qsmul_def := fun _ _ => rfl }

/-- Modelled from the spec: the forward transform of the FFT library, for the examples. The
values of the polynomial `a` on the coset `FinerGenerator^c · <Generator>`, in the natural
order, computed point by point. -/
def naiveFFT {F : Type} [Field F] (d : Domain F) (a : List F) (c : Nat) : List F :=
  (List.range d.Cardinality).map fun i => Poly.Eval a (d.FinerGenerator ^ c * d.Generator ^ i)

/-- Modelled from the spec: the inverse transform of the FFT library, for the examples. The
coefficients `(1/n)·Σ_j a[j]·x_j^(-k)` of the polynomial with the values `a` on the coset
`x_j = FinerGenerator^c · Generator^j`. -/
def naiveFFTInverse {F : Type} [Field F] (d : Domain F) (a : List F) (c : Nat) : List F :=
  (List.range d.Cardinality).map fun k =>
    ((d.Cardinality : Nat) : F)⁻¹ *
      ((List.range d.Cardinality).map fun j =>
        a[j]?.getD 0 * ((d.FinerGenerator ^ c * d.Generator ^ j) ^ k)⁻¹).sum

/-- Collaborators over `F17` whose solver accepts the witness: it returns the solution
`[5]`. The opening proofs are the opened polynomials themselves. -/
def env17 : ProverCollaborators F17 Unit String (List (List F17)) (List F17) :=
  { solve := fun _ _ => ([5], none)
    fft := naiveFFT, fftInverse := naiveFFTInverse
    BatchOpenSinglePoint := fun _ _ ps => ps
    Open := fun _ p => p }

/-- The same collaborators with a solver that reports an unsatisfied constraint. -/
def env17Unsolved : ProverCollaborators F17 Unit String (List (List F17)) (List F17) :=
  { env17 with solve := fun _ _ => ([5], some "constraint is not satisfied") }

/-- The same collaborators with a solver that returns the solution `[0]`. -/
def env17Zero : ProverCollaborators F17 Unit String (List (List F17)) (List F17) :=
  { env17 with solve := fun _ _ => ([0], none) }

/-- The prover's system with one public variable and no gate. -/
def spr17 : bls381.SparseR1CS :=
  { NbPublicVariables := 1, Constraints := [], Assertions := [] }

/-- The setup-side description of the same system. -/
def setupSpr17 : SparseR1CS F17 :=
  { Public := ["x"], Secret := [], NbInternalVariables := 0
    Constraints := [], Coefficients := [], CommitmentInfo := [] }

/-- Public data of `spr17` over `F17`: a small domain of one point with finer generator `2`
(of order 8), the large domain of four points generated by `4 = 2²`, the coset shift `3`, the
selectors `Ql = -1`, `Qr = Qm = Qo = Qk = 0`, and the permutation polynomials of the
permutation `[2, 0, 1]` that `buildPermutation` computes. -/
def pd17 : PublicRaw F17 :=
  { DomainNum := ⟨1, 1, 3, 2⟩, DomainH := ⟨4, 4, 3, 2⟩, Shifter := (3, 9)
    Ql := [-1], Qr := [0], Qm := [0], Qo := [0], Qk := [0]
    LS1 := [9], LS2 := [1], LS3 := [3], CS1 := [9], CS2 := [1], CS3 := [3] }

/-- Challenges for the examples. -/
def ch17 : Challenges F17 :=
  { zeta := 7, vBundle := 11, gamma := 2, alpha := 3 }

/-! ## Specification-side definitions for the commitments -/

/-- The error of the first commitment that fails among the polynomials `ps`, committed in
this order; `none` when every commitment succeeds. -/
def firstCommitError {F D G1 E : Type} (env : Collaborators F D G1 E) (kzgPk : KzgProvingKey G1)
    (ps : List (List F)) : Option E :=
  ps.findSome? fun p =>
    match env.commit p kzgPk with
    | Except.error e => some e
    | Except.ok _ => none

/-! ## Example inputs for `ComputeLRO` -/

/-- A prover's system with one public variable, one constraint and one assertion. -/
def exampleLroSpr : bls381.SparseR1CS :=
  { NbPublicVariables := 1, Constraints := [⟨1, 0, 2⟩], Assertions := [⟨2, 1, 0⟩] }

/-- Public data with a small domain of four points; `ComputeLRO` reads nothing else. -/
def exampleLroData : PublicRaw ℚ :=
  { exampleZData with DomainNum := ⟨4, 0, 0, 0⟩ }

/-! ## Example inputs for the grand product with a zero denominator -/

/-- Public data over `ℚ` with a domain of three points for which, with `γ = 0` and
`l = [1, 1, 1]`, the denominator of the first step of the grand product is zero:
`l_0 + LS1_0 + γ = 1 - 1 + 0`. -/
def zeroDenData : PublicRaw ℚ :=
  { DomainNum := ⟨3, -1, 2, 0⟩, DomainH := ⟨8, 0, 0, 0⟩, Shifter := (2, 4)
    Ql := [], Qr := [], Qm := [], Qo := [], Qk := []
    LS1 := [-1, 1, 1], LS2 := [2, 4, 1], LS3 := [-2, -4, 1]
    CS1 := [], CS2 := [], CS3 := [] }

/-! ## Further example inputs -/

/-- A system with one public input and no gate: its size is `n = 1`. -/
def oneInput : SparseR1CS ℚ :=
  { Public := ["x"], Secret := [], NbInternalVariables := 0
    Constraints := [], Coefficients := [], CommitmentInfo := [] }

/-- Public data over `F17` with a small domain of two points: the finer generator `u = 3` has
order `16 = 8N`, the generator is `g = u^8 = 16`, the large domain of `8` points is generated by
`u² = 9`, and the coset shift is `3`. -/
def pd17two : PublicRaw F17 :=
  { DomainNum := ⟨2, 16, 3, 3⟩, DomainH := ⟨8, 9, 3, 3⟩, Shifter := (3, 9)
    Ql := [-1, 1], Qr := [0, 1], Qm := [0, 0], Qo := [0, -1], Qk := [0, 0]
    LS1 := [3, 1], LS2 := [16, 14], LS3 := [9, 8], CS1 := [2, 1], CS2 := [15, 1], CS3 := [0, 9] }

/-- The prover's view of the example system: one public variable and the wires of its two
gates, no assertion. -/
def exampleProverSpr : bls381.SparseR1CS :=
  { NbPublicVariables := 1, Constraints := [⟨0, 1, 2⟩, ⟨2, 1, 3⟩], Assertions := [] }

/-! ## Slices and loops: basic facts -/

theorem store_eq_some {α : Type} {xs : List α} {i : Nat} (v : α) (h : i < xs.length) :
    store xs i v = some (xs.set i v) := by
  simp [store, h]

theorem store_eq_some_iff {α : Type} {xs ys : List α} {i : Nat} {v : α} :
    store xs i v = some ys ↔ i < xs.length ∧ ys = xs.set i v := by
  unfold store
  split <;> simp_all [eq_comm]

theorem forLoop_invariant {σ : Type} (body : Nat → σ → Option σ) (init : σ)
    (Inv : Nat → σ → Prop) (n : Nat) (h0 : Inv 0 init)
    (hstep : ∀ k s, k < n → Inv k s → ∃ s', body k s = some s' ∧ Inv (k + 1) s') :
    ∃ s, forLoop body init n = some s ∧ Inv n s := by
  induction n with
  | zero => exact ⟨init, rfl, h0⟩
  | succ m ih =>
    obtain ⟨s, hs, hinv⟩ := ih (fun k s hk => hstep k s (Nat.lt_succ_of_lt hk))
    obtain ⟨s', hs', hinv'⟩ := hstep m s (Nat.lt_succ_self m) hinv
    exact ⟨s', by simp [forLoop, hs, hs'], hinv'⟩

theorem forLoop_invariant_of_some {σ : Type} (body : Nat → σ → Option σ) (init : σ)
    (Inv : Nat → σ → Prop) (n : Nat) (h0 : Inv 0 init)
    (hstep : ∀ k s s', k < n → Inv k s → body k s = some s' → Inv (k + 1) s')
    {s : σ} (h : forLoop body init n = some s) : Inv n s := by
  induction n generalizing s with
  | zero => simp [forLoop] at h; subst h; exact h0
  | succ m ih =>
    simp only [forLoop, Option.bind_eq_some] at h
    obtain ⟨t, ht, hts⟩ := h
    exact hstep m t s (Nat.lt_succ_self m)
      (ih (fun k s s' hk => hstep k s s' (Nat.lt_succ_of_lt hk)) ht) hts

/-! ## The copy permutation: the loops of `buildPermutation` -/

theorem buildLRO_spec {F : Type} (spr : SparseR1CS F) (N : Nat)
    (hN : spr.Public.length + spr.Constraints.length ≤ N) :
    ∃ lro, buildLRO spr N = some lro ∧ lro.length = 3 * N ∧
      ∀ s, s < 3 * N → lro[s]? = some (wireAt spr N s) := by
  obtain ⟨l1, h1, hl1, hv1⟩ := forLoop_invariant (fun i lro => store lro i i)
    (List.replicate (3 * N) 0)
    (fun k lro => lro.length = 3 * N ∧ ∀ s, s < 3 * N → lro[s]? = some (if s < k then s else 0))
    spr.Public.length
    ⟨by simp, fun s hs => by simp [List.getElem?_replicate, hs]⟩ (by
      intro k s hk ⟨hlen, hv⟩
      refine ⟨s.set k k, store_eq_some _ (by omega), by simp [hlen], ?_⟩
      intro t ht
      rw [List.getElem?_set]
      by_cases hkt : k = t
      · subst hkt; simp [hlen, ht]
      · rw [if_neg hkt, hv t ht]
        by_cases h1 : t < k
        · simp [h1, Nat.lt_succ_of_lt h1]
        · have : ¬ t < k + 1 := by omega
          simp [h1, this])
  obtain ⟨l2, h2, hl2, hv2⟩ := forLoop_invariant (fun j lro => do
      let c ← spr.Constraints[j]?
      let lro ← store lro (spr.Public.length + j) c.XA
      let lro ← store lro (N + spr.Public.length + j) c.XB
      store lro (2 * N + spr.Public.length + j) c.XC) l1
    (fun k lro => lro.length = 3 * N ∧ ∀ s, s < 3 * N →
      lro[s]? = some (if slotRow N s < spr.Public.length + k then wireAt spr N s else 0))
    spr.Constraints.length (by
      refine ⟨hl1, ?_⟩
      intro s hs
      rw [hv1 s hs]
      simp only [slotRow, wireAt, Nat.add_zero]
      split_ifs <;> first | rfl | omega) (by
      intro k s hk ⟨hlen, hv⟩
      have hc : spr.Constraints[k]? = some spr.Constraints[k] := List.getElem?_eq_getElem hk
      refine ⟨((s.set (spr.Public.length + k) spr.Constraints[k].XA).set
        (N + spr.Public.length + k) spr.Constraints[k].XB).set
        (2 * N + spr.Public.length + k) spr.Constraints[k].XC, ?_, by simp [hlen], ?_⟩
      · simp only [hc, Option.bind_eq_bind, Option.some_bind]
        rw [store_eq_some _ (by omega), Option.some_bind,
          store_eq_some _ (by simp; omega), Option.some_bind,
          store_eq_some _ (by simp; omega)]
      · intro t ht
        simp only [List.getElem?_set, List.length_set, hlen]
        by_cases e3 : 2 * N + spr.Public.length + k = t
        · have r : slotRow N t = spr.Public.length + k := by
            simp only [slotRow]; split_ifs <;> omega
          have w : wireAt spr N t = spr.Constraints[k].XC := by
            have i1 : t - 2 * N - spr.Public.length = k := by omega
            simp only [wireAt, i1, hc]
            split_ifs <;> first | rfl | omega
          subst e3
          simp [ht, r, w]
        · rw [if_neg e3]
          by_cases e2 : N + spr.Public.length + k = t
          · have r : slotRow N t = spr.Public.length + k := by
              simp only [slotRow]; split_ifs <;> omega
            have w : wireAt spr N t = spr.Constraints[k].XB := by
              have i1 : t - N - spr.Public.length = k := by omega
              simp only [wireAt, i1, hc]
              split_ifs <;> first | rfl | omega
            subst e2
            simp [ht, r, w]
          · rw [if_neg e2]
            by_cases e1 : spr.Public.length + k = t
            · have r : slotRow N t = spr.Public.length + k := by
                simp only [slotRow]; split_ifs <;> omega
              have w : wireAt spr N t = spr.Constraints[k].XA := by
                have i1 : t - spr.Public.length = k := by omega
                simp only [wireAt, i1, hc]
                split_ifs <;> first | rfl | omega
              subst e1
              simp [ht, r, w]
            · rw [if_neg e1, hv t ht]
              have r : slotRow N t ≠ spr.Public.length + k := by
                simp only [slotRow]; split_ifs <;> omega
              by_cases q : slotRow N t < spr.Public.length + k
              · have : slotRow N t < spr.Public.length + (k + 1) := by omega
                simp [q, this]
              · have : ¬ slotRow N t < spr.Public.length + (k + 1) := by omega
                simp [q, this])
  refine ⟨l2, ?_, hl2, ?_⟩
  · simp only [buildLRO, Option.bind_eq_bind, h1, Option.some_bind]
    exact h2
  · intro s hs
    rw [hv2 s hs]
    by_cases q : slotRow N s < spr.Public.length + spr.Constraints.length
    · simp [q]
    · rw [if_neg q]
      simp only [slotRow] at q
      simp only [wireAt]
      have hnone : ∀ j, spr.Constraints.length ≤ j → spr.Constraints[j]? = none :=
        fun j hj => List.getElem?_eq_none hj
      split_ifs at q ⊢ <;> first | omega | rfl | rw [hnone _ (by omega)]

theorem lastBefore_some {lro : List Nat} {v k j : Nat} (h : lastBefore lro v k = some j) :
    j < k ∧ lro[j]? = some v ∧ ∀ m, j < m → m < k → lro[m]? ≠ some v := by
  induction k with
  | zero => simp [lastBefore] at h
  | succ k ih =>
    simp only [lastBefore] at h
    split at h
    · rename_i hk
      cases h
      exact ⟨Nat.lt_succ_self _, hk, fun m h1 h2 => by omega⟩
    · rename_i hk
      obtain ⟨h1, h2, h3⟩ := ih h
      refine ⟨by omega, h2, fun m hm1 hm2 => ?_⟩
      by_cases e : m = k
      · subst e; exact hk
      · exact h3 m hm1 (by omega)

theorem lastBefore_none {lro : List Nat} {v k : Nat} (h : lastBefore lro v k = none) :
    ∀ m, m < k → lro[m]? ≠ some v := by
  induction k with
  | zero => intro m hm; omega
  | succ k ih =>
    simp only [lastBefore] at h
    split at h
    · cases h
    · rename_i hk
      intro m hm
      by_cases e : m = k
      · subst e; exact hk
      · exact ih h m (by omega)

theorem lastBefore_of_mem {lro : List Nat} {v k m : Nat} (hm : m < k)
    (hv : lro[m]? = some v) : ∃ j, lastBefore lro v k = some j ∧ m ≤ j := by
  cases h : lastBefore lro v k with
  | none => exact absurd hv (lastBefore_none h m hm)
  | some j =>
    refine ⟨j, rfl, ?_⟩
    by_contra hlt
    exact (lastBefore_some h).2.2 m (by omega) hm hv

theorem firstPass_spec (lro : List Nat) (nbVariables : Nat)
    (hlab : ∀ i, i < lro.length → lro[i]?.getD 0 < nbVariables) :
    ∃ st, forLoop (firstPassBody lro)
        (List.replicate lro.length (-1), List.replicate nbVariables (-1)) lro.length = some st ∧
      st.1.length = lro.length ∧ st.2.length = nbVariables ∧
      (∀ v, v < nbVariables → st.2[v]? = some (enc (lastBefore lro v lro.length))) ∧
      (∀ i, i < lro.length → st.1[i]? = some (enc (lastBefore lro (lro[i]?.getD 0) i))) := by
  obtain ⟨st, hst, h1, h2, h3, h4⟩ := forLoop_invariant (firstPassBody lro)
    (List.replicate lro.length (-1), List.replicate nbVariables (-1))
    (fun k st => st.1.length = lro.length ∧ st.2.length = nbVariables ∧
      (∀ v, v < nbVariables → st.2[v]? = some (enc (lastBefore lro v k))) ∧
      (∀ i, i < lro.length →
        st.1[i]? = some (if i < k then enc (lastBefore lro (lro[i]?.getD 0) i) else -1)))
    lro.length
    ⟨by simp, by simp, fun v hv => by simp [List.getElem?_replicate, hv, lastBefore, enc],
      fun i hi => by simp [List.getElem?_replicate, hi]⟩ (by
      rintro k ⟨perm, cyc⟩ hk ⟨hp, hc, hcv, hpv⟩
      simp only at hp hc hcv hpv
      obtain ⟨v, hv⟩ : ∃ v, lro[k]? = some v := ⟨_, List.getElem?_eq_getElem hk⟩
      have hvd : lro[k]?.getD 0 = v := by rw [hv]; rfl
      have hlt : v < nbVariables := by have := hlab k hk; rwa [hvd] at this
      have hcyc := hcv _ hlt
      have hset := @store_eq_some _ cyc v (k : Int) (by omega)
      have hnew : ∀ p : List Int, p.length = lro.length →
          (∀ i, i < lro.length → p[i]? = some (if i < k + 1 then
            enc (lastBefore lro (lro[i]?.getD 0) i) else -1)) →
          ∃ s', some (p, cyc.set v (k : Int)) = some s' ∧
            s'.1.length = lro.length ∧ s'.2.length = nbVariables ∧
            (∀ w, w < nbVariables → s'.2[w]? = some (enc (lastBefore lro w (k + 1)))) ∧
            (∀ i, i < lro.length → s'.1[i]? = some (if i < k + 1 then
              enc (lastBefore lro (lro[i]?.getD 0) i) else -1)) := by
        intro p hpl hpp
        refine ⟨_, rfl, hpl, by simp [hc], ?_, hpp⟩
        intro w hwn
        simp only [List.getElem?_set, hc, lastBefore, hv]
        by_cases e : v = w
        · subst e; simp [hlt, enc]
        · have e' : ¬ some v = some w := by simpa using e
          rw [if_neg e, if_neg e']
          exact hcv w hwn
      simp only [firstPassBody, hv, hcyc, Option.bind_eq_bind, Option.some_bind, hset]
      by_cases hneg : enc (lastBefore lro v k) = -1
      · rw [if_neg (by simpa using hneg)]
        apply hnew perm hp
        intro i hi
        rw [hpv i hi]
        by_cases e : i = k
        · subst e; rw [hvd]; simp [hneg]
        · by_cases l : i < k
          · simp [l, Nat.lt_succ_of_lt l]
          · have : ¬ i < k + 1 := by omega
            simp [l, this]
      · rw [if_pos (by simpa using hneg), store_eq_some _ (by omega)]
        simp only [Option.some_bind]
        apply hnew _ (by simp [hp])
        intro i hi
        rw [List.getElem?_set]
        by_cases e : k = i
        · subst e; rw [hvd]; simp [hp, hk]
        · rw [if_neg e, hpv i hi]
          by_cases l : i < k
          · simp [l, Nat.lt_succ_of_lt l]
          · have : ¬ i < k + 1 := by omega
            simp [l, this])
  exact ⟨st, hst, h1, h2, h3, fun i hi => by rw [h4 i hi, if_pos hi]⟩

theorem secondPass_spec (lro : List Nat) (nbVariables : Nat) (perm cyc : List Int)
    (hlab : ∀ i, i < lro.length → lro[i]?.getD 0 < nbVariables)
    (hp : perm.length = lro.length)
    (hcv : ∀ v, v < nbVariables → cyc[v]? = some (enc (lastBefore lro v lro.length)))
    (hpv : ∀ i, i < lro.length → perm[i]? = some (enc (lastBefore lro (lro[i]?.getD 0) i))) :
    ∃ S, forLoop (secondPassBody lro cyc) perm lro.length = some S ∧
      S.length = lro.length ∧
      ∀ i, i < lro.length → S[i]? = some (nextSlot lro i : Int) := by
  obtain ⟨S, hS, h1, h2⟩ := forLoop_invariant (secondPassBody lro cyc) perm
    (fun k S => S.length = lro.length ∧ ∀ i, i < lro.length →
      S[i]? = some (if i < k then (nextSlot lro i : Int)
        else enc (lastBefore lro (lro[i]?.getD 0) i)))
    lro.length ⟨hp, fun i hi => by simp [hpv i hi]⟩ (by
      rintro k p hk ⟨hpl, hpp⟩
      obtain ⟨v, hv⟩ : ∃ v, lro[k]? = some v := ⟨_, List.getElem?_eq_getElem hk⟩
      have hvd : lro[k]?.getD 0 = v := by rw [hv]; rfl
      have hlt : v < nbVariables := by have := hlab k hk; rwa [hvd] at this
      have hx := hpp k hk
      rw [if_neg (Nat.lt_irrefl k), hvd] at hx
      have hkeep : ∀ q : List Int, q.length = lro.length → q[k]? = some (nextSlot lro k : Int) →
          (∀ i, i < lro.length → i ≠ k → q[i]? = p[i]?) →
          ∀ i, i < lro.length → q[i]? = some (if i < k + 1 then (nextSlot lro i : Int)
            else enc (lastBefore lro (lro[i]?.getD 0) i)) := by
        intro q _ hqk hqo i hi
        by_cases e : i = k
        · subst e; simp [hqk]
        · rw [hqo i hi e, hpp i hi]
          by_cases l : i < k
          · simp [l, Nat.lt_succ_of_lt l]
          · have : ¬ i < k + 1 := by omega
            simp [l, this]
      simp only [secondPassBody, hx, Option.bind_eq_bind, Option.some_bind]
      cases hlb : lastBefore lro v k with
      | none =>
        obtain ⟨j, hj, _⟩ := lastBefore_of_mem hk hv
        have hns : nextSlot lro k = j := by simp [nextSlot, hvd, hlb, hj]
        simp only [enc, if_true, hv, Option.some_bind, hcv v hlt, hj]
        rw [store_eq_some _ (by omega)]
        refine ⟨_, rfl, by simp [hpl], hkeep _ (by simp [hpl]) ?_ ?_⟩
        · simp [hpl, hk, hns]
        · intro i _ hik
          rw [List.getElem?_set_ne (Ne.symm hik)]
      | some j =>
        have hns : nextSlot lro k = j := by simp [nextSlot, hvd, hlb]
        have hne : ¬ ((j : Int) = -1) := by omega
        simp only [enc, hne, if_false]
        refine ⟨_, rfl, hpl, hkeep p hpl ?_ (fun _ _ _ => rfl)⟩
        rw [hx, hlb, hns]; rfl)
  exact ⟨S, hS, h1, fun i hi => by rw [h2 i hi, if_pos hi]⟩

theorem wireAt_lt {F : Type} (spr : SparseR1CS F) (N nbVariables : Nat)
    (hP : spr.Public.length ≤ nbVariables) (hpos : 1 ≤ nbVariables)
    (hw : ∀ c ∈ spr.Constraints, c.XA < nbVariables ∧ c.XB < nbVariables ∧ c.XC < nbVariables)
    (s : Nat) : wireAt spr N s < nbVariables := by
  have hg : ∀ (j : Nat) (c : SparseR1C), spr.Constraints[j]? = some c →
      c.XA < nbVariables ∧ c.XB < nbVariables ∧ c.XC < nbVariables := by
    intro j c hc
    obtain ⟨hj, rfl⟩ := List.getElem?_eq_some.mp hc
    exact hw _ (List.getElem_mem hj)
  simp only [wireAt]
  split_ifs
  · omega
  · split
    · rename_i c hc; exact (hg _ c hc).1
    · omega
  · omega
  · split
    · rename_i c hc; exact (hg _ c hc).2.1
    · omega
  · omega
  · split
    · rename_i c hc; exact (hg _ c hc).2.2
    · omega
  · omega

theorem permutationArray_spec {F : Type} (spr : SparseR1CS F) (N nbVariables : Nat)
    (hN : spr.Public.length + spr.Constraints.length ≤ N)
    (hP : spr.Public.length ≤ nbVariables) (hpos : 1 ≤ nbVariables)
    (hw : ∀ c ∈ spr.Constraints,
      c.XA < nbVariables ∧ c.XB < nbVariables ∧ c.XC < nbVariables) :
    ∃ lro S, buildLRO spr N = some lro ∧ permutationArray spr N nbVariables = some S ∧
      lro.length = 3 * N ∧ (∀ s, s < 3 * N → lro[s]? = some (wireAt spr N s)) ∧
      S.length = 3 * N ∧ ∀ i, i < 3 * N → S[i]? = some (nextSlot lro i : Int) := by
  obtain ⟨lro, hl, hlen, hlro⟩ := buildLRO_spec spr N hN
  have hlab : ∀ i, i < lro.length → lro[i]?.getD 0 < nbVariables := by
    intro i hi
    rw [hlro i (by omega)]
    exact wireAt_lt spr N nbVariables hP hpos hw i
  obtain ⟨st, hst, h1, h2, h3, h4⟩ := firstPass_spec lro nbVariables hlab
  obtain ⟨S, hS, hSl, hSv⟩ := secondPass_spec lro nbVariables st.1 st.2 hlab h1 h3 h4
  refine ⟨lro, S, hl, ?_, hlen, hlro, by omega, fun i hi => hSv i (by omega)⟩
  simp only [permutationArray, hl, Option.bind_eq_bind, Option.some_bind, ← hlen, hst]
  exact hS

/-! ## The copy permutation: cycles of the closed form -/

theorem nextSlot_cases {lro : List Nat} {i v : Nat} (hi : i < lro.length)
    (hv : lro[i]? = some v) :
    (∃ j, lastBefore lro v i = some j ∧ nextSlot lro i = j) ∨
    (lastBefore lro v i = none ∧
      ∃ j, lastBefore lro v lro.length = some j ∧ i ≤ j ∧ nextSlot lro i = j) := by
  have hvd : lro[i]?.getD 0 = v := by rw [hv]; rfl
  cases h : lastBefore lro v i with
  | some j => exact Or.inl ⟨j, rfl, by simp [nextSlot, hvd, h]⟩
  | none =>
    obtain ⟨j, hj, hij⟩ := lastBefore_of_mem hi hv
    exact Or.inr ⟨rfl, j, hj, hij, by simp [nextSlot, hvd, h, hj]⟩

theorem nextSlot_spec {lro : List Nat} {i : Nat} (hi : i < lro.length) :
    nextSlot lro i < lro.length ∧ lro[nextSlot lro i]? = lro[i]? := by
  obtain ⟨v, hv⟩ : ∃ v, lro[i]? = some v := ⟨_, List.getElem?_eq_getElem hi⟩
  rcases nextSlot_cases hi hv with ⟨j, hj, hn⟩ | ⟨_, j, hj, _, hn⟩
  · obtain ⟨h1, h2, _⟩ := lastBefore_some hj
    rw [hn, h2, hv]; exact ⟨by omega, rfl⟩
  · obtain ⟨h1, h2, _⟩ := lastBefore_some hj
    rw [hn, h2, hv]; exact ⟨h1, rfl⟩

theorem nextSlot_injective {lro : List Nat} {i j : Nat} (hi : i < lro.length)
    (hj : j < lro.length) (h : nextSlot lro i = nextSlot lro j) : i = j := by
  obtain ⟨v, hv⟩ : ∃ v, lro[i]? = some v := ⟨_, List.getElem?_eq_getElem hi⟩
  have hvj : lro[j]? = some v := by
    rw [← (nextSlot_spec hj).2, ← h, (nextSlot_spec hi).2, hv]
  rcases nextSlot_cases hi hv with ⟨a, ha, hna⟩ | ⟨ha, a, hla, hia, hna⟩ <;>
    rcases nextSlot_cases hj hvj with ⟨b, hb, hnb⟩ | ⟨hb, b, hlb, hjb, hnb⟩
  · have hab : a = b := by omega
    subst hab
    obtain ⟨a1, _, a3⟩ := lastBefore_some ha
    obtain ⟨b1, _, b3⟩ := lastBefore_some hb
    by_contra hne
    rcases Nat.lt_or_gt_of_ne hne with l | l
    · exact b3 i a1 l hv
    · exact a3 j b1 l hvj
  · have hab : a = b := by omega
    subst hab
    obtain ⟨a1, _, _⟩ := lastBefore_some ha
    obtain ⟨_, _, b3⟩ := lastBefore_some hlb
    exact absurd hv (b3 i a1 hi)
  · have hab : a = b := by omega
    subst hab
    obtain ⟨b1, _, _⟩ := lastBefore_some hb
    obtain ⟨_, _, a3⟩ := lastBefore_some hla
    exact absurd hvj (a3 j b1 hj)
  · by_contra hne
    rcases Nat.lt_or_gt_of_ne hne with l | l
    · exact lastBefore_none hb i l hv
    · exact lastBefore_none ha j l hvj

theorem nextSlot_iterate_spec {lro : List Nat} {i : Nat} (hi : i < lro.length) (n : Nat) :
    (nextSlot lro)^[n] i < lro.length ∧ lro[(nextSlot lro)^[n] i]? = lro[i]? := by
  induction n with
  | zero => exact ⟨hi, rfl⟩
  | succ n ih =>
    rw [Function.iterate_succ_apply']
    exact ⟨(nextSlot_spec ih.1).1, (nextSlot_spec ih.1).2.trans ih.2⟩

theorem nextSlot_reach_down {lro : List Nat} {v : Nat} (i : Nat) :
    i < lro.length → lro[i]? = some v → ∀ j, j ≤ i → lro[j]? = some v →
      ∃ n, (nextSlot lro)^[n] i = j := by
  induction i using Nat.strong_induction_on with
  | _ i ih =>
    intro hi hv j hji hvj
    by_cases e : j = i
    · exact ⟨0, e.symm⟩
    · obtain ⟨p, hp, hjp⟩ := lastBefore_of_mem (k := i) (by omega) hvj
      obtain ⟨p1, p2, _⟩ := lastBefore_some hp
      have hn : nextSlot lro i = p := by
        rcases nextSlot_cases hi hv with ⟨a, ha, hna⟩ | ⟨ha, _⟩
        · rw [hna]; rw [hp] at ha; exact (Option.some.inj ha).symm
        · rw [hp] at ha; cases ha
      obtain ⟨n, hn'⟩ := ih p p1 (by omega) p2 j hjp hvj
      exact ⟨n + 1, by rw [Function.iterate_succ_apply, hn, hn']⟩

theorem nextSlot_reach_last {lro : List Nat} {v l : Nat}
    (hl : lastBefore lro v lro.length = some l) (i : Nat) :
    i < lro.length → lro[i]? = some v → ∃ n, (nextSlot lro)^[n] i = l := by
  induction i using Nat.strong_induction_on with
  | _ i ih =>
    intro hi hv
    rcases nextSlot_cases hi hv with ⟨a, ha, hna⟩ | ⟨_, a, hla, _, hna⟩
    · obtain ⟨a1, a2, _⟩ := lastBefore_some ha
      obtain ⟨n, hn⟩ := ih a a1 (by omega) a2
      exact ⟨n + 1, by rw [Function.iterate_succ_apply, hna, hn]⟩
    · rw [hl] at hla
      exact ⟨1, by rw [Function.iterate_one, hna]; exact (Option.some.inj hla).symm⟩

theorem nextSlot_orbit {lro : List Nat} {i j : Nat} (hi : i < lro.length)
    (hj : j < lro.length) :
    (∃ n, (nextSlot lro)^[n] i = j) ↔ lro[j]? = lro[i]? := by
  constructor
  · rintro ⟨n, rfl⟩
    exact (nextSlot_iterate_spec hi n).2
  · intro h
    obtain ⟨v, hv⟩ : ∃ v, lro[i]? = some v := ⟨_, List.getElem?_eq_getElem hi⟩
    rw [hv] at h
    obtain ⟨l, hl, hjl⟩ := lastBefore_of_mem hj h
    obtain ⟨l1, l2, _⟩ := lastBefore_some hl
    obtain ⟨n, hn⟩ := nextSlot_reach_last hl i hi hv
    obtain ⟨m, hm⟩ := nextSlot_reach_down l l1 l2 j hjl h
    exact ⟨m + n, by rw [Function.iterate_add_apply, hn, hm]⟩

theorem nextSlot_two_cycle {lro : List Nat} {i j : Nat} (hij : i < j)
    (hj : j < lro.length) (hlab : lro[i]? = lro[j]?)
    (honly : ∀ k, k < lro.length → lro[k]? = lro[i]? → k = i ∨ k = j) :
    nextSlot lro i = j ∧ nextSlot lro j = i := by
  have hi : i < lro.length := by omega
  obtain ⟨v, hv⟩ : ∃ v, lro[i]? = some v := ⟨_, List.getElem?_eq_getElem hi⟩
  have hvj : lro[j]? = some v := by rw [← hlab, hv]
  rw [hv] at honly
  constructor
  · rcases nextSlot_cases hi hv with ⟨a, ha, hna⟩ | ⟨_, a, hla, hia, hna⟩
    · obtain ⟨a1, a2, _⟩ := lastBefore_some ha
      rcases honly a (by omega) a2 with h | h <;> omega
    · obtain ⟨a1, a2, a3⟩ := lastBefore_some hla
      rcases honly a a1 a2 with h | h
      · subst h; exact absurd hvj (a3 j hij hj)
      · omega
  · rcases nextSlot_cases hj hvj with ⟨a, ha, hna⟩ | ⟨ha, _⟩
    · obtain ⟨a1, a2, _⟩ := lastBefore_some ha
      rcases honly a (by omega) a2 with h | h <;> omega
    · exact absurd hv (lastBefore_none ha i hij)

/-! ## Domains: the next power of two -/

theorem nextPowerOfTwoFrom_eq (n : Nat) (fuel k : Nat)
    (hlow : ∀ j, j < k → 2 ^ j < n) (hup : n ≤ 2 ^ (k + fuel)) :
    nextPowerOfTwoFrom n fuel (2 ^ k) = 2 ^ Nat.clog 2 n := by
  have hdone : ∀ k, (∀ j, j < k → 2 ^ j < n) → n ≤ 2 ^ k → 2 ^ k = 2 ^ Nat.clog 2 n := by
    intro k hlow h
    have h1 : Nat.clog 2 n ≤ k := (Nat.le_pow_iff_clog_le (by decide)).mp h
    have h2 : k ≤ Nat.clog 2 n := by
      by_contra hc
      have := hlow (Nat.clog 2 n) (by omega)
      have := Nat.le_pow_clog (b := 2) (by decide) n
      omega
    rw [Nat.le_antisymm h1 h2]
  induction fuel generalizing k with
  | zero => exact hdone k hlow (by simpa using hup)
  | succ fuel ih =>
    simp only [nextPowerOfTwoFrom]
    split
    · rename_i h; exact hdone k hlow h
    · rename_i h
      rw [← pow_succ']
      apply ih
      · intro j hj
        by_cases e : j = k
        · subst e; omega
        · exact hlow j (by omega)
      · rw [show k + 1 + fuel = k + (fuel + 1) by omega]; exact hup

theorem nextPowerOfTwo_eq (n : Nat) : nextPowerOfTwo n = 2 ^ Nat.clog 2 n := by
  have := nextPowerOfTwoFrom_eq n n 0 (by intro j hj; omega)
    (by simpa using (Nat.lt_two_pow n).le)
  simpa [nextPowerOfTwo] using this

theorem le_nextPowerOfTwo (n : Nat) : n ≤ nextPowerOfTwo n := by
  rw [nextPowerOfTwo_eq]; exact Nat.le_pow_clog (by decide) n

theorem nextPowerOfTwo_pos (n : Nat) : 1 ≤ nextPowerOfTwo n := by
  rw [nextPowerOfTwo_eq]; exact Nat.one_le_two_pow

theorem nextPowerOfTwo_double (n : Nat) (hn : 1 ≤ n) :
    nextPowerOfTwo (2 * n) = 2 * nextPowerOfTwo n := by
  rw [nextPowerOfTwo_eq, nextPowerOfTwo_eq, Nat.clog_of_two_le (by decide) (by omega),
    show (2 * n + 2 - 1) / 2 = n by omega, pow_succ']

/-! ## The copy permutation: bijection, orbits, wire table (C1, C2, C3) -/

theorem slotNext_eq {S : List Int} {i j : Nat} (h : S[i]? = some (j : Int)) :
    slotNext S i = j := by
  simp [slotNext, h]

theorem slotNext_iterate {lro : List Nat} {S : List Int}
    (hS : ∀ i, i < lro.length → S[i]? = some (nextSlot lro i : Int))
    {i : Nat} (hi : i < lro.length) (n : Nat) :
    (slotNext S)^[n] i = (nextSlot lro)^[n] i := by
  induction n with
  | zero => rfl
  | succ n ih =>
    rw [Function.iterate_succ_apply', Function.iterate_succ_apply', ih]
    exact slotNext_eq (hS _ (nextSlot_iterate_spec hi n).1)

/-- C1. For a constraint system whose wire IDs are all below `nbVariables` (which counts the
public variables and is at least 1) and a trace of length `N = next_pow2(P + G)`,
`buildPermutation` returns, and the array it stores in `pt.S` has length exactly `3N`, all its
entries lie in `[0, 3N)` (no `-1` remains), they are pairwise distinct, and every slot of
`[0, 3N)` is hit: `S` is a bijection on the `3N` slots. -/
theorem buildPermutation_bijection {F : Type} (spr : SparseR1CS F) (pt : Trace F)
    (nbVariables : Nat)
    (hN : pt.Ql.length = nextPowerOfTwo (spr.GetNbConstraints + spr.Public.length))
    (hP : spr.Public.length ≤ nbVariables) (hpos : 1 ≤ nbVariables)
    (hw : ∀ c ∈ spr.Constraints,
      c.XA < nbVariables ∧ c.XB < nbVariables ∧ c.XC < nbVariables) :
    ∃ pt', buildPermutation spr pt nbVariables = some pt' ∧
      pt'.S.length = 3 * pt.Ql.length ∧
      (∀ x ∈ pt'.S, 0 ≤ x ∧ x < ((3 * pt.Ql.length : Nat) : Int)) ∧
      pt'.S.Nodup ∧
      (∀ y, y < 3 * pt.Ql.length → ∃ i, i < 3 * pt.Ql.length ∧ pt'.S[i]? = some (y : Int)) := by
  have hsize : spr.Public.length + spr.Constraints.length ≤ pt.Ql.length := by
    rw [hN, SparseR1CS.GetNbConstraints, Nat.add_comm]; exact le_nextPowerOfTwo _
  obtain ⟨lro, S, _, hS, hlen, _, hSlen, hSv⟩ :=
    permutationArray_spec spr pt.Ql.length nbVariables hsize hP hpos hw
  have hSv' : ∀ i, i < lro.length → S[i]? = some (nextSlot lro i : Int) :=
    fun i hi => hSv i (by omega)
  refine ⟨{ pt with S := S }, by simp [buildPermutation, hS], hSlen, ?_, ?_, ?_⟩
  · intro x hx
    obtain ⟨i, hi⟩ := List.mem_iff_getElem?.mp hx
    have hil : i < 3 * pt.Ql.length := by
      have := (List.getElem?_eq_some.mp hi).1
      simp only at this; omega
    have := (@nextSlot_spec lro i (by omega)).1
    have hx' : x = (nextSlot lro i : Int) := by
      have h2 := hSv i hil
      simp only at hi
      rw [hi] at h2; exact Option.some.inj h2
    omega
  · rw [List.nodup_iff_getElem?_ne_getElem?]
    intro i j hij hj heq
    simp only at hj heq
    rw [hSv i (by omega), hSv j (by omega)] at heq
    have := @nextSlot_injective lro i j (by omega) (by omega)
      (by exact_mod_cast Option.some.inj heq)
    omega
  · intro y hy
    have hyl : y < lro.length := by omega
    obtain ⟨n, hn⟩ := (nextSlot_orbit (nextSlot_spec hyl).1 hyl).mpr (nextSlot_spec hyl).2.symm
    rw [← Function.iterate_succ_apply, Function.iterate_succ_apply'] at hn
    refine ⟨(nextSlot lro)^[n] y, ?_, ?_⟩
    · have := (nextSlot_iterate_spec hyl n).1; omega
    · have := hSv' _ (nextSlot_iterate_spec hyl n).1
      simp only at this ⊢
      rw [this, hn]

theorem buildPermutation_bijection_witness :
    exampleTrace.Ql.length
        = nextPowerOfTwo (exampleSpr.GetNbConstraints + exampleSpr.Public.length) ∧
      ∃ pt', buildPermutation exampleSpr exampleTrace 4 = some pt' ∧
        pt'.S.length = 3 * exampleTrace.Ql.length ∧
        (∀ x ∈ pt'.S, 0 ≤ x ∧ x < ((3 * exampleTrace.Ql.length : Nat) : Int)) ∧
        pt'.S.Nodup ∧
        (∀ y, y < 3 * exampleTrace.Ql.length →
          ∃ i, i < 3 * exampleTrace.Ql.length ∧ pt'.S[i]? = some (y : Int)) :=
  ⟨by decide, buildPermutation_bijection exampleSpr exampleTrace 4 (by decide) (by decide)
    (by decide) (by decide)⟩

/-- C2. For a constraint system whose wire IDs are all below `nbVariables`, the orbits of the
permutation `S` built by `buildPermutation` are exactly the wire equivalence classes: slot `j`
is reached from slot `i` by iterating `S` if and only if `wireAt j = wireAt i`. In particular a
variable held by exactly two slots `i ≠ j` gives the 2-cycle `S[i] = j`, `S[j] = i`. -/
theorem buildPermutation_orbits {F : Type} (spr : SparseR1CS F) (pt : Trace F)
    (nbVariables : Nat)
    (hN : pt.Ql.length = nextPowerOfTwo (spr.GetNbConstraints + spr.Public.length))
    (hP : spr.Public.length ≤ nbVariables) (hpos : 1 ≤ nbVariables)
    (hw : ∀ c ∈ spr.Constraints,
      c.XA < nbVariables ∧ c.XB < nbVariables ∧ c.XC < nbVariables) :
    ∃ pt', buildPermutation spr pt nbVariables = some pt' ∧
      (∀ i j, i < 3 * pt.Ql.length → j < 3 * pt.Ql.length →
        ((∃ n, (slotNext pt'.S)^[n] i = j) ↔
          wireAt spr pt.Ql.length j = wireAt spr pt.Ql.length i)) ∧
      (∀ i j, i < 3 * pt.Ql.length → j < 3 * pt.Ql.length → i ≠ j →
        wireAt spr pt.Ql.length i = wireAt spr pt.Ql.length j →
        (∀ k, k < 3 * pt.Ql.length →
          wireAt spr pt.Ql.length k = wireAt spr pt.Ql.length i → k = i ∨ k = j) →
        pt'.S[i]? = some (j : Int) ∧ pt'.S[j]? = some (i : Int)) := by
  have hsize : spr.Public.length + spr.Constraints.length ≤ pt.Ql.length := by
    rw [hN, SparseR1CS.GetNbConstraints, Nat.add_comm]; exact le_nextPowerOfTwo _
  obtain ⟨lro, S, _, hS, hlen, hlro, hSlen, hSv⟩ :=
    permutationArray_spec spr pt.Ql.length nbVariables hsize hP hpos hw
  have hSv' : ∀ i, i < lro.length → S[i]? = some (nextSlot lro i : Int) :=
    fun i hi => hSv i (by omega)
  have hlab : ∀ i j, i < 3 * pt.Ql.length → j < 3 * pt.Ql.length →
      (lro[i]? = lro[j]? ↔ wireAt spr pt.Ql.length i = wireAt spr pt.Ql.length j) := by
    intro i j hi hj
    rw [hlro i hi, hlro j hj]
    exact ⟨fun h => Option.some.inj h, fun h => by rw [h]⟩
  refine ⟨{ pt with S := S }, by simp [buildPermutation, hS], ?_, ?_⟩
  · intro i j hi hj
    simp only [slotNext_iterate hSv' (show i < lro.length by omega)]
    rw [nextSlot_orbit (by omega) (by omega)]
    exact hlab j i hj hi
  · intro i j hi hj hij hw' honly
    have honly' : ∀ a b, (a = i ∧ b = j) ∨ (a = j ∧ b = i) → a < b →
        nextSlot lro a = b ∧ nextSlot lro b = a := by
      intro a b hab hlt
      apply nextSlot_two_cycle hlt
      · rcases hab with ⟨_, rfl⟩ | ⟨_, rfl⟩ <;> omega
      · rcases hab with ⟨rfl, rfl⟩ | ⟨rfl, rfl⟩
        · exact (hlab _ _ hi hj).mpr hw'
        · exact (hlab _ _ hj hi).mpr hw'.symm
      · intro k hk hka
        have hk' : k < 3 * pt.Ql.length := by omega
        rcases hab with ⟨rfl, rfl⟩ | ⟨rfl, rfl⟩
        · exact honly k hk' ((hlab _ _ hk' hi).mp hka)
        · exact (honly k hk' (((hlab _ _ hk' hj).mp hka).trans hw'.symm)).symm
    simp only
    rw [hSv i hi, hSv j hj]
    rcases Nat.lt_or_gt_of_ne hij with l | l
    · obtain ⟨h1, h2⟩ := honly' i j (Or.inl ⟨rfl, rfl⟩) l
      rw [h1, h2]; exact ⟨rfl, rfl⟩
    · obtain ⟨h1, h2⟩ := honly' j i (Or.inr ⟨rfl, rfl⟩) l
      rw [h1, h2]; exact ⟨rfl, rfl⟩

theorem buildPermutation_orbits_witness :
    ∃ pt', buildPermutation exampleSpr exampleTrace 4 = some pt' ∧
      (∀ i j, i < 3 * exampleTrace.Ql.length → j < 3 * exampleTrace.Ql.length →
        ((∃ n, (slotNext pt'.S)^[n] i = j) ↔
          wireAt exampleSpr exampleTrace.Ql.length j
            = wireAt exampleSpr exampleTrace.Ql.length i)) ∧
      (∀ i j, i < 3 * exampleTrace.Ql.length → j < 3 * exampleTrace.Ql.length → i ≠ j →
        wireAt exampleSpr exampleTrace.Ql.length i
          = wireAt exampleSpr exampleTrace.Ql.length j →
        (∀ k, k < 3 * exampleTrace.Ql.length →
          wireAt exampleSpr exampleTrace.Ql.length k
            = wireAt exampleSpr exampleTrace.Ql.length i → k = i ∨ k = j) →
        pt'.S[i]? = some (j : Int) ∧ pt'.S[j]? = some (i : Int)) :=
  buildPermutation_orbits exampleSpr exampleTrace 4 (by decide) (by decide) (by decide)
    (by decide)

/-- C3. The permutation `S` built by `buildPermutation` leaves the wire table `l‖r‖o`
unchanged: every slot `i` of `[0, 3N)` is sent to a slot `S[i]` of `[0, 3N)` that carries the
same label, in the table `lro` of the code as in the labelling `wireAt`; hence for every
assignment `value` of values to variables the table `tab[i] = value (wireAt i)` satisfies
`tab[S[i]] = tab[i]`. -/
theorem buildPermutation_preserves_wires {F : Type} (spr : SparseR1CS F) (pt : Trace F)
    (nbVariables : Nat)
    (hN : pt.Ql.length = nextPowerOfTwo (spr.GetNbConstraints + spr.Public.length))
    (hP : spr.Public.length ≤ nbVariables) (hpos : 1 ≤ nbVariables)
    (hw : ∀ c ∈ spr.Constraints,
      c.XA < nbVariables ∧ c.XB < nbVariables ∧ c.XC < nbVariables) :
    ∃ pt' lro, buildPermutation spr pt nbVariables = some pt' ∧
      buildLRO spr pt.Ql.length = some lro ∧
      (∀ i, i < 3 * pt.Ql.length → ∃ s : Nat, pt'.S[i]? = some (s : Int) ∧ s < 3 * pt.Ql.length ∧
        lro[s]? = lro[i]? ∧ wireAt spr pt.Ql.length s = wireAt spr pt.Ql.length i) ∧
      (∀ (α : Type) (value : Nat → α) (i : Nat), i < 3 * pt.Ql.length →
        value (wireAt spr pt.Ql.length (slotNext pt'.S i))
          = value (wireAt spr pt.Ql.length i)) := by
  have hsize : spr.Public.length + spr.Constraints.length ≤ pt.Ql.length := by
    rw [hN, SparseR1CS.GetNbConstraints, Nat.add_comm]; exact le_nextPowerOfTwo _
  obtain ⟨lro, S, hl, hS, hlen, hlro, hSlen, hSv⟩ :=
    permutationArray_spec spr pt.Ql.length nbVariables hsize hP hpos hw
  have key : ∀ i, i < 3 * pt.Ql.length → nextSlot lro i < 3 * pt.Ql.length ∧
      lro[nextSlot lro i]? = lro[i]? ∧
      wireAt spr pt.Ql.length (nextSlot lro i) = wireAt spr pt.Ql.length i := by
    intro i hi
    obtain ⟨h1, h2⟩ := @nextSlot_spec lro i (by omega)
    refine ⟨by omega, h2, ?_⟩
    rw [hlro _ (by omega), hlro i hi] at h2
    exact Option.some.inj h2
  refine ⟨{ pt with S := S }, lro, by simp [buildPermutation, hS], hl, ?_, ?_⟩
  · intro i hi
    exact ⟨nextSlot lro i, hSv i hi, key i hi⟩
  · intro α value i hi
    simp only
    rw [slotNext_eq (hSv i hi), (key i hi).2.2]

theorem buildPermutation_preserves_wires_witness :
    ∃ pt' lro, buildPermutation exampleSpr exampleTrace 4 = some pt' ∧
      buildLRO exampleSpr exampleTrace.Ql.length = some lro ∧
      (∀ i, i < 3 * exampleTrace.Ql.length →
        ∃ s : Nat, pt'.S[i]? = some (s : Int) ∧ s < 3 * exampleTrace.Ql.length ∧
          lro[s]? = lro[i]? ∧
          wireAt exampleSpr exampleTrace.Ql.length s
            = wireAt exampleSpr exampleTrace.Ql.length i) ∧
      (∀ (α : Type) (value : Nat → α) (i : Nat), i < 3 * exampleTrace.Ql.length →
        value (wireAt exampleSpr exampleTrace.Ql.length (slotNext pt'.S i))
          = value (wireAt exampleSpr exampleTrace.Ql.length i)) :=
  buildPermutation_preserves_wires exampleSpr exampleTrace 4 (by decide) (by decide)
    (by decide) (by decide)

/-! ## The grand product (C4, C5) -/

theorem getElem?_getD_of_lt {α : Type} {xs : List α} {i : Nat} (d : α) (h : i < xs.length) :
    xs[i]? = some (xs[i]?.getD d) := by
  rw [List.getElem?_eq_getElem h]; rfl

theorem ComputeZ_spec {F : Type} [Field F] (gamma : F) (l r o : List F) (pd : PublicRaw F)
    (hN : 1 ≤ pd.DomainNum.Cardinality)
    (hl : l.length = pd.DomainNum.Cardinality) (hr : r.length = pd.DomainNum.Cardinality)
    (ho : o.length = pd.DomainNum.Cardinality)
    (h1 : pd.LS1.length = pd.DomainNum.Cardinality)
    (h2 : pd.LS2.length = pd.DomainNum.Cardinality)
    (h3 : pd.LS3.length = pd.DomainNum.Cardinality) :
    ∃ z, ComputeZ gamma l r o pd = some z ∧ z.length = pd.DomainNum.Cardinality ∧
      ∀ i, i < pd.DomainNum.Cardinality →
        z[i]? = some (∏ k ∈ Finset.range i,
          zNum gamma pd.DomainNum.Generator pd.Shifter l r o k
            / zDen gamma l r o pd.LS1 pd.LS2 pd.LS3 k) := by
  obtain ⟨st, hst, hlen, _, _, _, hz⟩ := forLoop_invariant (ComputeZBody gamma l r o pd)
    ((List.replicate pd.DomainNum.Cardinality (0 : F)).set 0 1,
      (1 : F), pd.Shifter.1, pd.Shifter.2)
    (fun k st => st.1.length = pd.DomainNum.Cardinality ∧
      st.2.1 = pd.DomainNum.Generator ^ k ∧
      st.2.2.1 = pd.Shifter.1 * pd.DomainNum.Generator ^ k ∧
      st.2.2.2 = pd.Shifter.2 * pd.DomainNum.Generator ^ k ∧
      ∀ i, i ≤ k → st.1[i]? = some (∏ j ∈ Finset.range i,
          zNum gamma pd.DomainNum.Generator pd.Shifter l r o j
            / zDen gamma l r o pd.LS1 pd.LS2 pd.LS3 j))
    (pd.DomainNum.Cardinality - 1)
    ⟨by simp, by simp, by simp, by simp, fun i hi => by
      have : i = 0 := by omega
      subst this
      simp [List.getElem?_set]; omega⟩ (by
      rintro k ⟨z, u0, u1, u2⟩ hk ⟨hzl, hu0, hu1, hu2, hzv⟩
      simp only at hzl hu0 hu1 hu2 hzv
      have el := @getElem?_getD_of_lt _ l k 0 (by omega)
      have er := @getElem?_getD_of_lt _ r k 0 (by omega)
      have eo := @getElem?_getD_of_lt _ o k 0 (by omega)
      have e1 := @getElem?_getD_of_lt _ pd.LS1 k 0 (by omega)
      have e2 := @getElem?_getD_of_lt _ pd.LS2 k 0 (by omega)
      have e3 := @getElem?_getD_of_lt _ pd.LS3 k 0 (by omega)
      have ez := hzv k (Nat.le_refl k)
      refine ⟨(z.set (k + 1) ((∏ j ∈ Finset.range k,
          zNum gamma pd.DomainNum.Generator pd.Shifter l r o j
            / zDen gamma l r o pd.LS1 pd.LS2 pd.LS3 j)
          * zNum gamma pd.DomainNum.Generator pd.Shifter l r o k
          / zDen gamma l r o pd.LS1 pd.LS2 pd.LS3 k),
        u0 * pd.DomainNum.Generator, u1 * pd.DomainNum.Generator,
        u2 * pd.DomainNum.Generator), ?_, by simp [hzl], by simp [hu0, pow_succ],
        by simp [hu1, pow_succ, mul_assoc], by simp [hu2, pow_succ, mul_assoc], ?_⟩
      · unfold ComputeZBody
        rw [el, er, eo, e1, e2, e3]
        simp only [Option.bind_eq_bind, Option.some_bind, ez, hu0, hu1, hu2]
        rw [store_eq_some _ (by omega)]
        rfl
      · intro i hi
        simp only [List.getElem?_set]
        by_cases e : k + 1 = i
        · subst e
          rw [if_pos rfl, if_pos (by omega), Finset.prod_range_succ, mul_div_assoc]
        · rw [if_neg e]; exact hzv i (by omega))
  refine ⟨st.1, ?_, hlen, ?_⟩
  · simp only [ComputeZ, Option.bind_eq_bind]
    rw [store_eq_some _ (by simp; omega)]
    simp only [Option.some_bind, hst]
  · intro i hi
    exact hz i (by omega)

theorem getSupportPermutation_spec {F : Type} [Field F] (domain : Domain F)
    (hN : 1 ≤ domain.Cardinality) :
    ∃ sigma, getSupportPermutation domain = some sigma ∧
      sigma.length = 3 * domain.Cardinality ∧
      ∀ i, i < domain.Cardinality →
        sigma[i]? = some (domain.Generator ^ i) ∧
        sigma[domain.Cardinality + i]? = some (domain.FrMultiplicativeGen * domain.Generator ^ i) ∧
        sigma[2 * domain.Cardinality + i]?
          = some (domain.FrMultiplicativeGen ^ 2 * domain.Generator ^ i) := by
  obtain ⟨sigma, hs, hlen, hv⟩ := forLoop_invariant (fun k (res : List F) => do
      let i := k + 1
      let res ← store res i ((← res[i - 1]?) * domain.Generator)
      let res ← store res (domain.Cardinality + i)
        ((← res[domain.Cardinality + i - 1]?) * domain.Generator)
      store res (2 * domain.Cardinality + i)
        ((← res[2 * domain.Cardinality + i - 1]?) * domain.Generator))
    ((((List.replicate (3 * domain.Cardinality) (0 : F)).set 0 1).set domain.Cardinality
      domain.FrMultiplicativeGen).set (2 * domain.Cardinality)
      (domain.FrMultiplicativeGen * domain.FrMultiplicativeGen))
    (fun k res => res.length = 3 * domain.Cardinality ∧ ∀ i, i ≤ k →
        res[i]? = some (domain.Generator ^ i) ∧
        res[domain.Cardinality + i]? = some (domain.FrMultiplicativeGen * domain.Generator ^ i) ∧
        res[2 * domain.Cardinality + i]?
          = some (domain.FrMultiplicativeGen ^ 2 * domain.Generator ^ i))
    (domain.Cardinality - 1)
    ⟨by simp, fun i hi => by
      have : i = 0 := by omega
      subst this
      simp only [Nat.add_zero, pow_zero, mul_one, pow_two]
      refine ⟨?_, ?_, ?_⟩
      · rw [List.getElem?_set_ne (by omega), List.getElem?_set_ne (by omega),
          List.getElem?_set_self (by simp; omega)]
      · rw [List.getElem?_set_ne (by omega), List.getElem?_set_self (by simp; omega)]
      · rw [List.getElem?_set_self (by simp; omega)]⟩ (by
      intro k res hk ⟨hl, hv⟩
      obtain ⟨a1, a2, a3⟩ := hv k (Nat.le_refl k)
      refine ⟨((res.set (k + 1) (domain.Generator ^ k * domain.Generator)).set
          (domain.Cardinality + (k + 1))
          (domain.FrMultiplicativeGen * domain.Generator ^ k * domain.Generator)).set
          (2 * domain.Cardinality + (k + 1))
          (domain.FrMultiplicativeGen ^ 2 * domain.Generator ^ k * domain.Generator),
        ?_, by simp [hl], ?_⟩
      · simp only [Option.bind_eq_bind, Nat.add_sub_cancel, a1, Option.some_bind]
        rw [store_eq_some _ (by omega)]
        simp only [Option.some_bind, ← Nat.add_assoc, Nat.add_sub_cancel]
        rw [List.getElem?_set_ne (by omega), a2]
        simp only [Option.some_bind]
        rw [store_eq_some _ (by simp; omega)]
        simp only [Option.some_bind]
        rw [List.getElem?_set_ne (by omega), List.getElem?_set_ne (by omega), a3]
        simp only [Option.some_bind]
        rw [store_eq_some _ (by simp; omega)]
      · intro i hi
        simp only [List.getElem?_set, List.length_set, hl]
        by_cases e : i = k + 1
        · subst e
          refine ⟨?_, ?_, ?_⟩
          · rw [if_neg (by omega), if_neg (by omega), if_pos rfl, if_pos (by omega),
              pow_succ domain.Generator]
          · rw [if_neg (by omega), if_pos rfl, if_pos (by omega), pow_succ domain.Generator,
              mul_assoc]
          · rw [if_pos rfl, if_pos (by omega), pow_succ domain.Generator, mul_assoc]
        · obtain ⟨b1, b2, b3⟩ := hv i (by omega)
          refine ⟨?_, ?_, ?_⟩
          · rw [if_neg (by omega), if_neg (by omega), if_neg (by omega), b1]
          · rw [if_neg (by omega), if_neg (by omega), if_neg (by omega), b2]
          · rw [if_neg (by omega), if_neg (by omega), if_neg (by omega), b3])
  refine ⟨sigma, ?_, hlen, fun i hi => hv i (by omega)⟩
  simp only [getSupportPermutation, Option.bind_eq_bind]
  rw [store_eq_some _ (by simp; omega)]
  simp only [Option.some_bind]
  rw [store_eq_some _ (by simp; omega)]
  simp only [Option.some_bind]
  rw [store_eq_some _ (by simp; omega)]
  simp only [Option.some_bind]
  exact hs

theorem readAt_natCast {α : Type} (xs : List α) (s : Nat) : readAt xs (s : Int) = xs[s]? := by
  simp [readAt]

theorem getElem?_slotNext {S : List Int} {n i : Nat} (hlen : S.length = n)
    (hrange : ∀ x ∈ S, 0 ≤ x ∧ x < (n : Int)) (hi : i < n) :
    S[i]? = some (slotNext S i : Int) ∧ slotNext S i < n := by
  have h := List.getElem?_eq_getElem (l := S) (n := i) (by omega)
  have hr := hrange _ (List.getElem_mem (l := S) (n := i) (by omega))
  simp only [slotNext, h, Option.getD_some]
  constructor
  · rw [Int.toNat_of_nonneg hr.1]
  · omega

theorem computePermutationPolynomials_spec {F : Type} [Field F] (pt : Trace F)
    (domain : Domain F) (sigma : List F) (hN : 1 ≤ domain.Cardinality)
    (hsig : getSupportPermutation domain = some sigma)
    (hsiglen : sigma.length = 3 * domain.Cardinality)
    (hlen : pt.S.length = 3 * domain.Cardinality)
    (hrange : ∀ x ∈ pt.S, 0 ≤ x ∧ x < ((3 * domain.Cardinality : Nat) : Int)) :
    ∃ s1 s2 s3, computePermutationPolynomials pt domain = some (s1, s2, s3) ∧
      s1.length = domain.Cardinality ∧ s2.length = domain.Cardinality ∧
      s3.length = domain.Cardinality ∧
      ∀ i, i < domain.Cardinality →
        s1[i]? = sigma[slotNext pt.S i]? ∧
        s2[i]? = sigma[slotNext pt.S (domain.Cardinality + i)]? ∧
        s3[i]? = sigma[slotNext pt.S (2 * domain.Cardinality + i)]? := by
  obtain ⟨⟨s1, s2, s3⟩, hs, hl1, hl2, hl3, hv⟩ := forLoop_invariant
    (fun i (st : List F × List F × List F) => do
      let s1 ← store st.1 i (← readAt sigma (← pt.S[i]?))
      let s2 ← store st.2.1 i (← readAt sigma (← pt.S[domain.Cardinality + i]?))
      let s3 ← store st.2.2 i (← readAt sigma (← pt.S[2 * domain.Cardinality + i]?))
      some (s1, s2, s3))
    (List.replicate domain.Cardinality (0 : F), List.replicate domain.Cardinality (0 : F),
      List.replicate domain.Cardinality (0 : F))
    (fun k st => st.1.length = domain.Cardinality ∧ st.2.1.length = domain.Cardinality ∧
      st.2.2.length = domain.Cardinality ∧ ∀ i, i < k →
        st.1[i]? = sigma[slotNext pt.S i]? ∧
        st.2.1[i]? = sigma[slotNext pt.S (domain.Cardinality + i)]? ∧
        st.2.2[i]? = sigma[slotNext pt.S (2 * domain.Cardinality + i)]?)
    domain.Cardinality
    ⟨by simp, by simp, by simp, fun i hi => by omega⟩ (by
      rintro k ⟨s1, s2, s3⟩ hk ⟨hl1, hl2, hl3, hv⟩
      simp only at hl1 hl2 hl3 hv
      obtain ⟨p1, q1⟩ := getElem?_slotNext hlen hrange (i := k) (by omega)
      obtain ⟨p2, q2⟩ := getElem?_slotNext hlen hrange (i := domain.Cardinality + k) (by omega)
      obtain ⟨p3, q3⟩ :=
        getElem?_slotNext hlen hrange (i := 2 * domain.Cardinality + k) (by omega)
      obtain ⟨x1, r1⟩ : ∃ x, sigma[slotNext pt.S k]? = some x :=
        ⟨_, List.getElem?_eq_getElem (by omega)⟩
      obtain ⟨x2, r2⟩ : ∃ x, sigma[slotNext pt.S (domain.Cardinality + k)]? = some x :=
        ⟨_, List.getElem?_eq_getElem (by omega)⟩
      obtain ⟨x3, r3⟩ : ∃ x, sigma[slotNext pt.S (2 * domain.Cardinality + k)]? = some x :=
        ⟨_, List.getElem?_eq_getElem (by omega)⟩
      refine ⟨(s1.set k x1, s2.set k x2, s3.set k x3), ?_, by simp [hl1], by simp [hl2],
        by simp [hl3], ?_⟩
      · simp only [Option.bind_eq_bind, p1, p2, p3, Option.some_bind, readAt_natCast, r1, r2, r3]
        rw [store_eq_some _ (by omega), store_eq_some _ (by omega), store_eq_some _ (by omega)]
        rfl
      · intro i hi
        simp only [List.getElem?_set, hl1, hl2, hl3]
        by_cases e : k = i
        · subst e
          simp only [if_pos, hk, r1, r2, r3]
          exact ⟨trivial, trivial, trivial⟩
        · simp only [if_neg e]
          exact hv i (by omega))
  refine ⟨s1, s2, s3, ?_, hl1, hl2, hl3, hv⟩
  simp only [computePermutationPolynomials, hsig, Option.bind_eq_bind, Option.some_bind]
  exact hs

theorem prod_range_three {F : Type} [Field F] (f : Nat → F) (N : Nat) :
    ∏ j ∈ Finset.range (3 * N), f j
      = ∏ k ∈ Finset.range N, f k * f (N + k) * f (2 * N + k) := by
  rw [show 3 * N = N + N + N by omega, Finset.prod_range_add, Finset.prod_range_add,
    ← Finset.prod_mul_distrib, ← Finset.prod_mul_distrib]
  refine Finset.prod_congr rfl (fun x _ => ?_)
  rw [show N + N + x = 2 * N + x by omega]

theorem prod_range_comp_perm {F : Type} [Field F] (p : Nat → Nat) (n : Nat)
    (hmap : ∀ j, j < n → p j < n)
    (hinj : ∀ i j, i < n → j < n → p i = p j → i = j) (f : Nat → F) :
    ∏ j ∈ Finset.range n, f (p j) = ∏ j ∈ Finset.range n, f j := by
  have hinjOn : Set.InjOn p (Finset.range n : Set Nat) := by
    intro a ha b hb hab
    exact hinj a b (by simpa using ha) (by simpa using hb) hab
  have himg : (Finset.range n).image p = Finset.range n := by
    apply Finset.eq_of_subset_of_card_le
    · intro x hx
      obtain ⟨a, ha, rfl⟩ := Finset.mem_image.mp hx
      exact Finset.mem_range.mpr (hmap a (Finset.mem_range.mp ha))
    · rw [Finset.card_image_of_injOn hinjOn]
  conv_rhs => rw [← himg]
  rw [Finset.prod_image (fun a ha b hb hab => hinjOn ha hb hab)]

theorem slotNext_injective {S : List Int} {n : Nat} (hlen : S.length = n)
    (hrange : ∀ x ∈ S, 0 ≤ x ∧ x < (n : Int)) (hnd : S.Nodup)
    (i j : Nat) (hi : i < n) (hj : j < n) (h : slotNext S i = slotNext S j) : i = j := by
  have h1 := (getElem?_slotNext hlen hrange hi).1
  have h2 := (getElem?_slotNext hlen hrange hj).1
  rw [h] at h1
  by_contra hne
  rcases Nat.lt_or_gt_of_ne hne with l | l
  · exact (List.nodup_iff_getElem?_ne_getElem?.mp hnd) i j l (by omega) (h1.trans h2.symm)
  · exact (List.nodup_iff_getElem?_ne_getElem?.mp hnd) j i l (by omega) (h2.trans h1.symm)

theorem grand_product_balance {F : Type} [Field F] (gamma : F) (pt : Trace F)
    (pd : PublicRaw F) (l r o : List F)
    (hN : 1 ≤ pd.DomainNum.Cardinality)
    (hSlen : pt.S.length = 3 * pd.DomainNum.Cardinality)
    (hSrange : ∀ x ∈ pt.S, 0 ≤ x ∧ x < ((3 * pd.DomainNum.Cardinality : Nat) : Int))
    (hSnodup : pt.S.Nodup)
    (hl : l.length = pd.DomainNum.Cardinality) (hr : r.length = pd.DomainNum.Cardinality)
    (ho : o.length = pd.DomainNum.Cardinality)
    (hcopy : ∀ j, j < 3 * pd.DomainNum.Cardinality →
      (l ++ r ++ o)[slotNext pt.S j]? = (l ++ r ++ o)[j]?)
    (hperm : computePermutationPolynomials pt pd.DomainNum = some (pd.LS1, pd.LS2, pd.LS3))
    (hsh : pd.Shifter = (pd.DomainNum.FrMultiplicativeGen, pd.DomainNum.FrMultiplicativeGen ^ 2)) :
    pd.LS1.length = pd.DomainNum.Cardinality ∧ pd.LS2.length = pd.DomainNum.Cardinality ∧
    pd.LS3.length = pd.DomainNum.Cardinality ∧
    ∏ i ∈ Finset.range pd.DomainNum.Cardinality,
        zNum gamma pd.DomainNum.Generator pd.Shifter l r o i
      = ∏ i ∈ Finset.range pd.DomainNum.Cardinality,
        zDen gamma l r o pd.LS1 pd.LS2 pd.LS3 i := by
  obtain ⟨sigma, hsig, hsiglen, hsigv⟩ := getSupportPermutation_spec pd.DomainNum hN
  obtain ⟨s1, s2, s3, hs, hl1, hl2, hl3, hsv⟩ :=
    computePermutationPolynomials_spec pt pd.DomainNum sigma hN hsig hsiglen hSlen hSrange
  rw [hperm] at hs
  obtain ⟨rfl, rfl, rfl⟩ : pd.LS1 = s1 ∧ pd.LS2 = s2 ∧ pd.LS3 = s3 := by
    simpa using hs
  refine ⟨hl1, hl2, hl3, ?_⟩
  have hV1 : ∀ k, k < pd.DomainNum.Cardinality → l[k]? = (l ++ r ++ o)[k]? := by
    intro k hk
    rw [List.append_assoc, List.getElem?_append_left (by omega)]
  have hV2 : ∀ k, k < pd.DomainNum.Cardinality →
      r[k]? = (l ++ r ++ o)[pd.DomainNum.Cardinality + k]? := by
    intro k hk
    rw [List.append_assoc, List.getElem?_append_right (by omega),
      List.getElem?_append_left (by omega)]
    congr 1; omega
  have hV3 : ∀ k, k < pd.DomainNum.Cardinality →
      o[k]? = (l ++ r ++ o)[2 * pd.DomainNum.Cardinality + k]? := by
    intro k hk
    rw [List.getElem?_append_right (by simp; omega)]
    congr 1; simp; omega
  have hnum : ∀ k, k ∈ Finset.range pd.DomainNum.Cardinality →
      zNum gamma pd.DomainNum.Generator pd.Shifter l r o k
        = (fun j => (l ++ r ++ o)[j]?.getD 0 + sigma[j]?.getD 0 + gamma) k
          * (fun j => (l ++ r ++ o)[j]?.getD 0 + sigma[j]?.getD 0 + gamma)
              (pd.DomainNum.Cardinality + k)
          * (fun j => (l ++ r ++ o)[j]?.getD 0 + sigma[j]?.getD 0 + gamma)
              (2 * pd.DomainNum.Cardinality + k) := by
    intro k hk
    have hk' := Finset.mem_range.mp hk
    obtain ⟨a1, a2, a3⟩ := hsigv k hk'
    simp only [zNum, hsh, hV1 k hk', hV2 k hk', hV3 k hk', a1, a2, a3, Option.getD_some]
  have hden : ∀ k, k ∈ Finset.range pd.DomainNum.Cardinality →
      zDen gamma l r o pd.LS1 pd.LS2 pd.LS3 k
        = (fun j => (l ++ r ++ o)[j]?.getD 0 + sigma[slotNext pt.S j]?.getD 0 + gamma) k
          * (fun j => (l ++ r ++ o)[j]?.getD 0 + sigma[slotNext pt.S j]?.getD 0 + gamma)
              (pd.DomainNum.Cardinality + k)
          * (fun j => (l ++ r ++ o)[j]?.getD 0 + sigma[slotNext pt.S j]?.getD 0 + gamma)
              (2 * pd.DomainNum.Cardinality + k) := by
    intro k hk
    have hk' := Finset.mem_range.mp hk
    obtain ⟨a1, a2, a3⟩ := hsv k hk'
    simp only [zDen, hV1 k hk', hV2 k hk', hV3 k hk', a1, a2, a3]
  rw [Finset.prod_congr rfl hnum, Finset.prod_congr rfl hden, ← prod_range_three,
    ← prod_range_three]
  rw [← prod_range_comp_perm (slotNext pt.S) (3 * pd.DomainNum.Cardinality)
    (fun j hj => (getElem?_slotNext hSlen hSrange hj).2)
    (slotNext_injective hSlen hSrange hSnodup)]
  refine Finset.prod_congr rfl (fun j hj => ?_)
  simp only [hcopy j (Finset.mem_range.mp hj)]

/-- C5. For `l`, `r`, `o` (and the stored `LS1`, `LS2`, `LS3`) of length `N ≥ 1` and
`Shifter = (u, u²)`, `ComputeZ` returns a vector `z` of length `N` with `z[0] = 1` and, for
every `i` with `i + 1 < N`, `z[i+1] = z[i] · zNum i / zDen i`, where
`zNum i = (l_i + g^i + γ)(r_i + u·g^i + γ)(o_i + u²·g^i + γ)` and
`zDen i = (l_i + LS1_i + γ)(r_i + LS2_i + γ)(o_i + LS3_i + γ)`; equivalently `z[i]` is the
product over `k < i` of these ratios. -/
theorem ComputeZ_recurrence {F : Type} [Field F] (gamma u : F) (l r o : List F)
    (pd : PublicRaw F)
    (hN : 1 ≤ pd.DomainNum.Cardinality)
    (hl : l.length = pd.DomainNum.Cardinality) (hr : r.length = pd.DomainNum.Cardinality)
    (ho : o.length = pd.DomainNum.Cardinality)
    (h1 : pd.LS1.length = pd.DomainNum.Cardinality)
    (h2 : pd.LS2.length = pd.DomainNum.Cardinality)
    (h3 : pd.LS3.length = pd.DomainNum.Cardinality)
    (hsh : pd.Shifter = (u, u ^ 2)) :
    ∃ z, ComputeZ gamma l r o pd = some z ∧ z.length = pd.DomainNum.Cardinality ∧
      z[0]? = some 1 ∧
      (∀ i, i + 1 < pd.DomainNum.Cardinality → ∃ zi, z[i]? = some zi ∧
        z[i + 1]? = some (zi * zNum gamma pd.DomainNum.Generator (u, u ^ 2) l r o i
          / zDen gamma l r o pd.LS1 pd.LS2 pd.LS3 i)) ∧
      (∀ i, i < pd.DomainNum.Cardinality →
        z[i]? = some (∏ k ∈ Finset.range i,
          zNum gamma pd.DomainNum.Generator (u, u ^ 2) l r o k
            / zDen gamma l r o pd.LS1 pd.LS2 pd.LS3 k)) := by
  obtain ⟨z, hz, hlen, hv⟩ := ComputeZ_spec gamma l r o pd hN hl hr ho h1 h2 h3
  rw [hsh] at hv
  refine ⟨z, hz, hlen, ?_, ?_, hv⟩
  · rw [hv 0 (by omega)]; simp
  · intro i hi
    refine ⟨_, hv i (by omega), ?_⟩
    rw [hv (i + 1) hi, Finset.prod_range_succ, mul_div_assoc]

theorem ComputeZ_recurrence_witness :
    ∃ z, ComputeZ 10 [1, 1] [2, 3] [3, 5] exampleZData = some z ∧
      z.length = exampleZData.DomainNum.Cardinality ∧
      z[0]? = some 1 ∧
      (∀ i, i + 1 < exampleZData.DomainNum.Cardinality → ∃ zi, z[i]? = some zi ∧
        z[i + 1]? = some (zi
          * zNum 10 exampleZData.DomainNum.Generator (2, 2 ^ 2) [1, 1] [2, 3] [3, 5] i
          / zDen 10 [1, 1] [2, 3] [3, 5] exampleZData.LS1 exampleZData.LS2
              exampleZData.LS3 i)) ∧
      (∀ i, i < exampleZData.DomainNum.Cardinality →
        z[i]? = some (∏ k ∈ Finset.range i,
          zNum 10 exampleZData.DomainNum.Generator (2, 2 ^ 2) [1, 1] [2, 3] [3, 5] k
            / zDen 10 [1, 1] [2, 3] [3, 5] exampleZData.LS1 exampleZData.LS2
                exampleZData.LS3 k)) :=
  ComputeZ_recurrence 10 2 [1, 1] [2, 3] [3, 5] exampleZData (by decide) rfl rfl rfl rfl rfl
    rfl (by simp [exampleZData]; norm_num)

/-- C4. Closure of the grand product. Let `S` be a bijection on the `3N` slots, let
`v = l‖r‖o` satisfy `v[S[j]] = v[j]` for every slot `j`, let `LS1, LS2, LS3` be the vectors that
`computePermutationPolynomials` builds from `S` (so `LS1[i] = σ[S[i]]`, `LS2[i] = σ[S[N+i]]`,
`LS3[i] = σ[S[2N+i]]`), and let `Shifter = (u, u²)` with `u` the coset shift. If every
denominator `zDen i`, `i < N`, is non-zero, then `ComputeZ` returns `z` with `z[0] = 1`, and
one more step of the recurrence from `z[N-1]` with row `N-1` gives `1`; equivalently the
product of the `N` numerators equals the product of the `N` denominators. -/
theorem ComputeZ_closure {F : Type} [Field F] (gamma : F) (pt : Trace F)
    (pd : PublicRaw F) (l r o : List F)
    (hN : 1 ≤ pd.DomainNum.Cardinality)
    (hSlen : pt.S.length = 3 * pd.DomainNum.Cardinality)
    (hSrange : ∀ x ∈ pt.S, 0 ≤ x ∧ x < ((3 * pd.DomainNum.Cardinality : Nat) : Int))
    (hSnodup : pt.S.Nodup)
    (hl : l.length = pd.DomainNum.Cardinality) (hr : r.length = pd.DomainNum.Cardinality)
    (ho : o.length = pd.DomainNum.Cardinality)
    (hcopy : ∀ j, j < 3 * pd.DomainNum.Cardinality →
      (l ++ r ++ o)[slotNext pt.S j]? = (l ++ r ++ o)[j]?)
    (hperm : computePermutationPolynomials pt pd.DomainNum = some (pd.LS1, pd.LS2, pd.LS3))
    (hsh : pd.Shifter = (pd.DomainNum.FrMultiplicativeGen, pd.DomainNum.FrMultiplicativeGen ^ 2))
    (hden : ∀ i, i < pd.DomainNum.Cardinality →
      zDen gamma l r o pd.LS1 pd.LS2 pd.LS3 i ≠ 0) :
    ∃ z zlast, ComputeZ gamma l r o pd = some z ∧ z[0]? = some 1 ∧
      z[pd.DomainNum.Cardinality - 1]? = some zlast ∧
      zlast * zNum gamma pd.DomainNum.Generator pd.Shifter l r o (pd.DomainNum.Cardinality - 1)
        / zDen gamma l r o pd.LS1 pd.LS2 pd.LS3 (pd.DomainNum.Cardinality - 1) = 1 ∧
      ∏ i ∈ Finset.range pd.DomainNum.Cardinality,
          zNum gamma pd.DomainNum.Generator pd.Shifter l r o i
        = ∏ i ∈ Finset.range pd.DomainNum.Cardinality,
          zDen gamma l r o pd.LS1 pd.LS2 pd.LS3 i := by
  obtain ⟨h1, h2, h3, hprod⟩ := grand_product_balance gamma pt pd l r o hN hSlen hSrange
    hSnodup hl hr ho hcopy hperm hsh
  obtain ⟨z, hz, _, hv⟩ := ComputeZ_spec gamma l r o pd hN hl hr ho h1 h2 h3
  refine ⟨z, _, hz, ?_, hv (pd.DomainNum.Cardinality - 1) (by omega), ?_, hprod⟩
  · rw [hv 0 (by omega)]; simp
  · rw [mul_div_assoc, ← Finset.prod_range_succ
      (fun k => zNum gamma pd.DomainNum.Generator pd.Shifter l r o k
        / zDen gamma l r o pd.LS1 pd.LS2 pd.LS3 k),
      show pd.DomainNum.Cardinality - 1 + 1 = pd.DomainNum.Cardinality by omega,
      Finset.prod_div_distrib, hprod]
    exact div_self (Finset.prod_ne_zero_iff.mpr (fun i hi => hden i (Finset.mem_range.mp hi)))

theorem ComputeZ_closure_witness :
    ∃ z zlast, ComputeZ 10 [1, 1] [2, 3] [3, 5] exampleZData = some z ∧ z[0]? = some 1 ∧
      z[exampleZData.DomainNum.Cardinality - 1]? = some zlast ∧
      zlast * zNum 10 exampleZData.DomainNum.Generator exampleZData.Shifter [1, 1] [2, 3]
          [3, 5] (exampleZData.DomainNum.Cardinality - 1)
        / zDen 10 [1, 1] [2, 3] [3, 5] exampleZData.LS1 exampleZData.LS2 exampleZData.LS3
          (exampleZData.DomainNum.Cardinality - 1) = 1 ∧
      ∏ i ∈ Finset.range exampleZData.DomainNum.Cardinality,
          zNum 10 exampleZData.DomainNum.Generator exampleZData.Shifter [1, 1] [2, 3] [3, 5] i
        = ∏ i ∈ Finset.range exampleZData.DomainNum.Cardinality,
          zDen 10 [1, 1] [2, 3] [3, 5] exampleZData.LS1 exampleZData.LS2 exampleZData.LS3 i :=
  ComputeZ_closure 10 exampleZTrace exampleZData [1, 1] [2, 3] [3, 5] (by decide) rfl
    (by decide) (by decide) rfl rfl rfl
    (by
      intro j hj
      have hj' : j < 6 := hj
      interval_cases j <;> simp [slotNext, exampleZTrace])
    (by
      simp [computePermutationPolynomials, getSupportPermutation, forLoop, store, readAt,
        exampleZTrace, exampleZData]
      norm_num)
    (by simp [exampleZData]; norm_num)
    (by
      intro i hi
      have hi' : i < 2 := hi
      interval_cases i <;> norm_num [zDen, exampleZData])

/-! ## BuildTrace (C6, C7, C8) -/

theorem column_step {F : Type} [Field F] {q q' : List F} {size m : Nat} {a : F} {f : Nat → F}
    (hq : q.length = size) (hset : store q m a = some q')
    (hinv : ∀ i, i < size → q[i]? = some (if i < m then f i else 0)) (hf : f m = a) :
    q'.length = size ∧ ∀ i, i < size → q'[i]? = some (if i < m + 1 then f i else 0) := by
  obtain ⟨hm, rfl⟩ := store_eq_some_iff.mp hset
  refine ⟨by simp [hq], fun i hi => ?_⟩
  rw [List.getElem?_set]
  by_cases e : m = i
  · subst e; simp [hm, hf]
  · rw [if_neg e, hinv i hi]
    by_cases l : i < m
    · simp [l, Nat.lt_succ_of_lt l]
    · have : ¬ i < m + 1 := by omega
      simp [l, this]

theorem selectorRow_public {F : Type} [Field F] (spr : SparseR1CS F) (pub : F)
    (idx : SparseR1C → Nat) {i : Nat} (hi : i < spr.Public.length) :
    selectorRow spr pub idx i = pub := by
  simp [selectorRow, hi]

theorem selectorRow_gate {F : Type} [Field F] (spr : SparseR1CS F) (pub : F)
    (idx : SparseR1C → Nat) {k : Nat} {c : SparseR1C} {a : F}
    (hc : spr.Constraints[k]? = some c) (ha : spr.Coefficients[idx c]? = some a) :
    selectorRow spr pub idx (spr.Public.length + k) = a := by
  simp [selectorRow, hc, ha]

theorem buildSelectors_of_some {F : Type} [Field F] (spr : SparseR1CS F)
    {st : List F × List F × List F × List F × List F} (h : buildSelectors spr = some st) :
    SelectorsUpTo spr (nextPowerOfTwo (spr.GetNbConstraints + spr.Public.length))
      (spr.Public.length + spr.Constraints.length) st := by
  simp only [buildSelectors, Option.bind_eq_bind, Option.bind_eq_some] at h
  obtain ⟨st1, h1, h2⟩ := h
  have i1 := forLoop_invariant_of_some _ _
    (fun k st => SelectorsUpTo spr
      (nextPowerOfTwo (spr.GetNbConstraints + spr.Public.length)) k st)
    spr.Public.length
    (by
      have hz : ∀ i, i < nextPowerOfTwo (spr.GetNbConstraints + spr.Public.length) →
          (List.replicate (nextPowerOfTwo (spr.GetNbConstraints + spr.Public.length)) (0 : F))[i]?
            = some (0 : F) := fun i hi => by simp [List.getElem?_replicate, hi]
      simp only [SelectorsUpTo, List.length_replicate, Nat.not_lt_zero, if_false, true_and]
      exact ⟨hz, hz, hz, hz, hz⟩)
    (by
      rintro k ⟨ql, qr, qm, qo, qk⟩ s' hk ⟨⟨a1, a2⟩, ⟨b1, b2⟩, ⟨c1, c2⟩, ⟨d1, d2⟩, ⟨e1, e2⟩⟩ hb
      simp only [Option.bind_eq_bind, Option.bind_eq_some] at hb
      obtain ⟨ql', hql, qr', hqr, qm', hqm, qo', hqo, qk', hqk, hs'⟩ := hb
      cases hs'
      exact ⟨column_step a1 hql a2 (selectorRow_public spr _ _ hk),
        column_step b1 hqr b2 (selectorRow_public spr _ _ hk),
        column_step c1 hqm c2 (selectorRow_public spr _ _ hk),
        column_step d1 hqo d2 (selectorRow_public spr _ _ hk),
        column_step e1 hqk e2 (selectorRow_public spr _ _ hk)⟩) h1
  exact forLoop_invariant_of_some _ _
    (fun k st => SelectorsUpTo spr
      (nextPowerOfTwo (spr.GetNbConstraints + spr.Public.length)) (spr.Public.length + k) st)
    spr.Constraints.length i1
    (by
      rintro k ⟨ql, qr, qm, qo, qk⟩ s' hk ⟨⟨a1, a2⟩, ⟨b1, b2⟩, ⟨c1, c2⟩, ⟨d1, d2⟩, ⟨e1, e2⟩⟩ hb
      simp only [Option.bind_eq_bind, Option.bind_eq_some] at hb
      obtain ⟨c, hc, xl, hxl, ql', hql, xr, hxr, qr', hqr, xm, hxm, qm', hqm, xo, hxo, qo', hqo,
        xk, hxk, qk', hqk, hs'⟩ := hb
      cases hs'
      exact ⟨column_step a1 hql a2 (selectorRow_gate spr _ _ hc hxl),
        column_step b1 hqr b2 (selectorRow_gate spr _ _ hc hxr),
        column_step c1 hqm c2 (selectorRow_gate spr _ _ hc hxm),
        column_step d1 hqo d2 (selectorRow_gate spr _ _ hc hxo),
        column_step e1 hqk e2 (selectorRow_gate spr _ _ hc hxk)⟩) h2

theorem buildSelectors_isSome {F : Type} [Field F] (spr : SparseR1CS F)
    (hcoef : ∀ c ∈ spr.Constraints, c.QL < spr.Coefficients.length ∧
      c.QR < spr.Coefficients.length ∧ c.QM < spr.Coefficients.length ∧
      c.QO < spr.Coefficients.length ∧ c.QC < spr.Coefficients.length) :
    ∃ st, buildSelectors spr = some st := by
  have hsize := le_nextPowerOfTwo (spr.GetNbConstraints + spr.Public.length)
  simp only [SparseR1CS.GetNbConstraints] at hsize
  obtain ⟨st1, h1, hl1⟩ := forLoop_invariant
    (fun i (st : List F × List F × List F × List F × List F) => do
      let ql ← store st.1 i (-1)
      let qr ← store st.2.1 i 0
      let qm ← store st.2.2.1 i 0
      let qo ← store st.2.2.2.1 i 0
      let qk ← store st.2.2.2.2 i 0
      some (ql, qr, qm, qo, qk))
    (List.replicate (nextPowerOfTwo (spr.GetNbConstraints + spr.Public.length)) (0 : F),
      List.replicate (nextPowerOfTwo (spr.GetNbConstraints + spr.Public.length)) (0 : F),
      List.replicate (nextPowerOfTwo (spr.GetNbConstraints + spr.Public.length)) (0 : F),
      List.replicate (nextPowerOfTwo (spr.GetNbConstraints + spr.Public.length)) (0 : F),
      List.replicate (nextPowerOfTwo (spr.GetNbConstraints + spr.Public.length)) (0 : F))
    (fun _ st => st.1.length = nextPowerOfTwo (spr.GetNbConstraints + spr.Public.length) ∧
      st.2.1.length = nextPowerOfTwo (spr.GetNbConstraints + spr.Public.length) ∧
      st.2.2.1.length = nextPowerOfTwo (spr.GetNbConstraints + spr.Public.length) ∧
      st.2.2.2.1.length = nextPowerOfTwo (spr.GetNbConstraints + spr.Public.length) ∧
      st.2.2.2.2.length = nextPowerOfTwo (spr.GetNbConstraints + spr.Public.length))
    spr.Public.length (by simp) (by
      rintro k ⟨ql, qr, qm, qo, qk⟩ hk ⟨a, b, c, d, e⟩
      simp only [SparseR1CS.GetNbConstraints] at a b c d e
      simp only [Option.bind_eq_bind]
      rw [store_eq_some _ (by omega), Option.some_bind, store_eq_some _ (by omega),
        Option.some_bind, store_eq_some _ (by omega), Option.some_bind,
        store_eq_some _ (by omega), Option.some_bind, store_eq_some _ (by omega),
        Option.some_bind]
      exact ⟨_, rfl, by simp [a, b, c, d, e, SparseR1CS.GetNbConstraints]⟩)
  obtain ⟨st2, h2, _⟩ := forLoop_invariant
    (fun j (st : List F × List F × List F × List F × List F) => do
      let c ← spr.Constraints[j]?
      let ql ← store st.1 (spr.Public.length + j) (← spr.Coefficients[c.QL]?)
      let qr ← store st.2.1 (spr.Public.length + j) (← spr.Coefficients[c.QR]?)
      let qm ← store st.2.2.1 (spr.Public.length + j) (← spr.Coefficients[c.QM]?)
      let qo ← store st.2.2.2.1 (spr.Public.length + j) (← spr.Coefficients[c.QO]?)
      let qk ← store st.2.2.2.2 (spr.Public.length + j) (← spr.Coefficients[c.QC]?)
      some (ql, qr, qm, qo, qk))
    st1
    (fun _ st => st.1.length = nextPowerOfTwo (spr.GetNbConstraints + spr.Public.length) ∧
      st.2.1.length = nextPowerOfTwo (spr.GetNbConstraints + spr.Public.length) ∧
      st.2.2.1.length = nextPowerOfTwo (spr.GetNbConstraints + spr.Public.length) ∧
      st.2.2.2.1.length = nextPowerOfTwo (spr.GetNbConstraints + spr.Public.length) ∧
      st.2.2.2.2.length = nextPowerOfTwo (spr.GetNbConstraints + spr.Public.length))
    spr.Constraints.length hl1 (by
      rintro k ⟨ql, qr, qm, qo, qk⟩ hk ⟨a, b, c, d, e⟩
      simp only [SparseR1CS.GetNbConstraints] at a b c d e
      obtain ⟨g1, g2, g3, g4, g5⟩ := hcoef _ (List.getElem_mem hk)
      simp only [Option.bind_eq_bind, List.getElem?_eq_getElem hk, Option.some_bind,
        List.getElem?_eq_getElem g1, List.getElem?_eq_getElem g2, List.getElem?_eq_getElem g3,
        List.getElem?_eq_getElem g4, List.getElem?_eq_getElem g5]
      rw [store_eq_some _ (by omega), Option.some_bind, store_eq_some _ (by omega),
        Option.some_bind, store_eq_some _ (by omega), Option.some_bind,
        store_eq_some _ (by omega), Option.some_bind, store_eq_some _ (by omega),
        Option.some_bind]
      exact ⟨_, rfl, by simp [a, b, c, d, e, SparseR1CS.GetNbConstraints]⟩)
  simp only [Option.bind_eq_bind] at h1 h2
  exact ⟨st2, by simp only [buildSelectors, Option.bind_eq_bind, h1, Option.some_bind]; exact h2⟩

theorem buildQcpColumn_spec {F : Type} [Field F] (size offset : Nat) (committed : List Nat)
    (hin : ∀ w ∈ committed, offset + w < size) :
    ∃ q : List F, buildQcpColumn size offset committed = some q ∧ q.length = size ∧
      (∀ w ∈ committed, q[offset + w]? = some 1) ∧
      (∀ i, i < size → (∀ w ∈ committed, i ≠ offset + w) → q[i]? = some 0) := by
  obtain ⟨q, hq, hl, h1, h0⟩ := forLoop_invariant
    (fun t (q : List F) => do
      let w ← committed[t]?
      store q (offset + w) 1)
    (List.replicate size (0 : F))
    (fun k q => q.length = size ∧
      (∀ t, t < k → ∀ w, committed[t]? = some w → q[offset + w]? = some 1) ∧
      (∀ i, i < size → (∀ w ∈ committed, i ≠ offset + w) → q[i]? = some 0))
    committed.length
    ⟨by simp, fun t ht => by omega, fun i hi _ => by simp [List.getElem?_replicate, hi]⟩ (by
      intro k q hk ⟨hl, h1, h0⟩
      have hw := hin _ (List.getElem_mem hk)
      refine ⟨q.set (offset + committed[k]) 1, ?_, by simp [hl], ?_, ?_⟩
      · simp only [Option.bind_eq_bind, List.getElem?_eq_getElem hk, Option.some_bind]
        exact store_eq_some _ (by omega)
      · intro t ht w hwt
        rw [List.getElem?_set]
        by_cases e : offset + committed[k] = offset + w
        · rw [if_pos e, if_pos (by omega)]
        · rw [if_neg e]
          by_cases e2 : t = k
          · subst e2
            rw [List.getElem?_eq_getElem hk] at hwt
            exact absurd (by rw [Option.some.inj hwt]) e
          · exact h1 t (by omega) w hwt
      · intro i hi hne
        rw [List.getElem?_set_ne (Ne.symm (hne _ (List.getElem_mem hk)))]
        exact h0 i hi hne)
  refine ⟨q, hq, hl, ?_, h0⟩
  intro w hw
  obtain ⟨t, ht, rfl⟩ := List.mem_iff_getElem.mp hw
  exact h1 t ht _ (List.getElem?_eq_getElem ht)

theorem BuildTrace_of_some {F : Type} [Field F] (spr : SparseR1CS F) (pt pt' : Trace F)
    (h : BuildTrace spr pt = some pt') :
    ∃ sel, buildSelectors spr = some sel ∧
      pt'.Ql = sel.1 ∧ pt'.Qr = sel.2.1 ∧ pt'.Qm = sel.2.2.1 ∧ pt'.Qo = sel.2.2.2.1 ∧
      pt'.Qk = sel.2.2.2.2 ∧
      pt'.Qcp.length = spr.CommitmentInfo.length ∧
      ∀ (k : Nat) (info : Commitment), spr.CommitmentInfo[k]? = some info →
        ∃ q, buildQcpColumn (nextPowerOfTwo (spr.GetNbConstraints + spr.Public.length))
            spr.Public.length info.Committed = some q ∧ pt'.Qcp[k]? = some q := by
  simp only [BuildTrace, Option.bind_eq_bind, Option.bind_eq_some] at h
  obtain ⟨sel, hsel, hloop⟩ := h
  have inv := forLoop_invariant_of_some _ _
    (fun k (t : Trace F) => t.Ql = sel.1 ∧ t.Qr = sel.2.1 ∧ t.Qm = sel.2.2.1 ∧
      t.Qo = sel.2.2.2.1 ∧ t.Qk = sel.2.2.2.2 ∧
      t.Qcp.length = spr.CommitmentInfo.length ∧
      ∀ i, i < k → ∀ info : Commitment, spr.CommitmentInfo[i]? = some info →
        ∃ q, buildQcpColumn (nextPowerOfTwo (spr.GetNbConstraints + spr.Public.length))
            spr.Public.length info.Committed = some q ∧ t.Qcp[i]? = some q)
    spr.CommitmentInfo.length
    ⟨rfl, rfl, rfl, rfl, rfl, by simp, fun i hi => by omega⟩
    (by
      rintro k t t' hk ⟨a, b, c, d, e, hl, hv⟩ hb
      simp only [Option.bind_eq_bind, Option.bind_eq_some] at hb
      obtain ⟨info, hinfo, q, hq, Qcp, hQcp, ht'⟩ := hb
      cases ht'
      obtain ⟨hklt, rfl⟩ := store_eq_some_iff.mp hQcp
      refine ⟨a, b, c, d, e, by simp [hl], ?_⟩
      intro i hi info' hinfo'
      simp only [List.getElem?_set]
      by_cases e : k = i
      · subst e
        rw [hinfo] at hinfo'
        cases hinfo'
        exact ⟨q, hq, by simp [hklt]⟩
      · rw [if_neg e]
        exact hv i (by omega) info' hinfo')
    hloop
  obtain ⟨a, b, c, d, e, hl, hv⟩ := inv
  refine ⟨sel, hsel, a, b, c, d, e, hl, ?_⟩
  intro k info hinfo
  exact hv k (List.getElem?_eq_some.mp hinfo).1 info hinfo

theorem BuildTrace_isSome {F : Type} [Field F] (spr : SparseR1CS F) (pt : Trace F)
    (hcoef : ∀ c ∈ spr.Constraints, c.QL < spr.Coefficients.length ∧
      c.QR < spr.Coefficients.length ∧ c.QM < spr.Coefficients.length ∧
      c.QO < spr.Coefficients.length ∧ c.QC < spr.Coefficients.length)
    (hcom : ∀ info ∈ spr.CommitmentInfo, ∀ w ∈ info.Committed,
      spr.Public.length + w < nextPowerOfTwo (spr.GetNbConstraints + spr.Public.length)) :
    ∃ pt', BuildTrace spr pt = some pt' := by
  obtain ⟨sel, hsel⟩ := buildSelectors_isSome spr hcoef
  obtain ⟨t, ht, _⟩ := forLoop_invariant
    (fun i (pt : Trace F) => do
      let info ← spr.CommitmentInfo[i]?
      let q ← buildQcpColumn (nextPowerOfTwo (spr.GetNbConstraints + spr.Public.length))
        spr.Public.length info.Committed
      let Qcp ← store pt.Qcp i q
      some { pt with Qcp := Qcp })
    ({ pt with Ql := sel.1, Qr := sel.2.1, Qm := sel.2.2.1, Qo := sel.2.2.2.1,
               Qk := sel.2.2.2.2, Qcp := List.replicate spr.CommitmentInfo.length [] })
    (fun _ t => t.Qcp.length = spr.CommitmentInfo.length)
    spr.CommitmentInfo.length (by simp) (by
      intro k t hk hl
      obtain ⟨q, hq, _⟩ := buildQcpColumn_spec (F := F)
        (nextPowerOfTwo (spr.GetNbConstraints + spr.Public.length)) spr.Public.length
        spr.CommitmentInfo[k].Committed (hcom _ (List.getElem_mem hk))
      refine ⟨{ t with Qcp := t.Qcp.set k q }, ?_, by simp [hl]⟩
      simp only [Option.bind_eq_bind, List.getElem?_eq_getElem hk, Option.some_bind, hq]
      rw [store_eq_some _ (by omega)]
      rfl)
  simp only [Option.bind_eq_bind] at ht
  exact ⟨t, by simp only [BuildTrace, Option.bind_eq_bind, hsel, Option.some_bind]; exact ht⟩

/-- C6. Whenever `BuildTrace` returns (it does as soon as the coefficient indices and the
committed indices are in range), the Lagrange values of the selectors on the rows of the
public inputs are the placeholders: for every `i < P`, `Ql[i] = -1` and
`Qr[i] = Qm[i] = Qo[i] = Qk[i] = 0`; the gate loop does not overwrite these rows. -/
theorem BuildTrace_public_rows {F : Type} [Field F] (spr : SparseR1CS F) (pt : Trace F) :
    ((∀ c ∈ spr.Constraints, c.QL < spr.Coefficients.length ∧
        c.QR < spr.Coefficients.length ∧ c.QM < spr.Coefficients.length ∧
        c.QO < spr.Coefficients.length ∧ c.QC < spr.Coefficients.length) →
      (∀ info ∈ spr.CommitmentInfo, ∀ w ∈ info.Committed,
        spr.Public.length + w < nextPowerOfTwo (spr.GetNbConstraints + spr.Public.length)) →
      ∃ pt', BuildTrace spr pt = some pt') ∧
    ∀ pt', BuildTrace spr pt = some pt' → ∀ i, i < spr.Public.length →
      pt'.Ql[i]? = some (-1) ∧ pt'.Qr[i]? = some 0 ∧ pt'.Qm[i]? = some 0 ∧
      pt'.Qo[i]? = some 0 ∧ pt'.Qk[i]? = some 0 := by
  refine ⟨BuildTrace_isSome spr pt, ?_⟩
  intro pt' h i hi
  obtain ⟨sel, hsel, a, b, c, d, e, _⟩ := BuildTrace_of_some spr pt pt' h
  obtain ⟨⟨_, a2⟩, ⟨_, b2⟩, ⟨_, c2⟩, ⟨_, d2⟩, ⟨_, e2⟩⟩ := buildSelectors_of_some spr hsel
  have hsize := le_nextPowerOfTwo (spr.GetNbConstraints + spr.Public.length)
  have hiN : i < nextPowerOfTwo (spr.GetNbConstraints + spr.Public.length) := by omega
  have hlt : i < spr.Public.length + spr.Constraints.length := by omega
  rw [a, b, c, d, e, a2 i hiN, b2 i hiN, c2 i hiN, d2 i hiN, e2 i hiN]
  simp only [if_pos hlt, selectorRow_public spr _ _ hi, and_self]

theorem BuildTrace_public_rows_witness :
    BuildTrace exampleSpr exampleTrace = some exampleTrace ∧
    ∀ i, i < exampleSpr.Public.length →
      exampleTrace.Ql[i]? = some (-1) ∧ exampleTrace.Qr[i]? = some 0 ∧
      exampleTrace.Qm[i]? = some 0 ∧ exampleTrace.Qo[i]? = some 0 ∧
      exampleTrace.Qk[i]? = some 0 :=
  ⟨rfl, (BuildTrace_public_rows exampleSpr exampleTrace).2 exampleTrace rfl⟩

/-- C7. For a constraint system whose coefficient indices are in range, `BuildTrace` computes
selector columns `ql, qr, qm, qo, qk`, each of length `N = next_pow2(P + G)` with `N ≥ 1`, such
that row `P + j` holds the coefficients that gate `j` references through `QL_j`, `QR_j`,
`QM_j`, `QO_j`, `QC_j`, and every row `i` with `P + G ≤ i < N` is zero in all five. These are
the columns of the returned trace, and `BuildTrace` does return when moreover the committed
indices are in range. -/
theorem BuildTrace_selectors {F : Type} [Field F] (spr : SparseR1CS F) (pt : Trace F)
    (hcoef : ∀ c ∈ spr.Constraints, c.QL < spr.Coefficients.length ∧
      c.QR < spr.Coefficients.length ∧ c.QM < spr.Coefficients.length ∧
      c.QO < spr.Coefficients.length ∧ c.QC < spr.Coefficients.length) :
    ∃ ql qr qm qo qk, buildSelectors spr = some (ql, qr, qm, qo, qk) ∧
      1 ≤ nextPowerOfTwo (spr.GetNbConstraints + spr.Public.length) ∧
      ql.length = nextPowerOfTwo (spr.GetNbConstraints + spr.Public.length) ∧
      qr.length = nextPowerOfTwo (spr.GetNbConstraints + spr.Public.length) ∧
      qm.length = nextPowerOfTwo (spr.GetNbConstraints + spr.Public.length) ∧
      qo.length = nextPowerOfTwo (spr.GetNbConstraints + spr.Public.length) ∧
      qk.length = nextPowerOfTwo (spr.GetNbConstraints + spr.Public.length) ∧
      (∀ (j : Nat) (c : SparseR1C), spr.Constraints[j]? = some c →
        ql[spr.Public.length + j]? = spr.Coefficients[c.QL]? ∧
        qr[spr.Public.length + j]? = spr.Coefficients[c.QR]? ∧
        qm[spr.Public.length + j]? = spr.Coefficients[c.QM]? ∧
        qo[spr.Public.length + j]? = spr.Coefficients[c.QO]? ∧
        qk[spr.Public.length + j]? = spr.Coefficients[c.QC]?) ∧
      (∀ i, spr.Public.length + spr.GetNbConstraints ≤ i →
        i < nextPowerOfTwo (spr.GetNbConstraints + spr.Public.length) →
        ql[i]? = some 0 ∧ qr[i]? = some 0 ∧ qm[i]? = some 0 ∧ qo[i]? = some 0 ∧
        qk[i]? = some 0) ∧
      (∀ pt', BuildTrace spr pt = some pt' →
        pt'.Ql = ql ∧ pt'.Qr = qr ∧ pt'.Qm = qm ∧ pt'.Qo = qo ∧ pt'.Qk = qk) ∧
      ((∀ info ∈ spr.CommitmentInfo, ∀ w ∈ info.Committed,
          spr.Public.length + w < nextPowerOfTwo (spr.GetNbConstraints + spr.Public.length)) →
        ∃ pt', BuildTrace spr pt = some pt') := by
  obtain ⟨⟨ql, qr, qm, qo, qk⟩, hsel⟩ := buildSelectors_isSome spr hcoef
  obtain ⟨⟨a1, a2⟩, ⟨b1, b2⟩, ⟨c1, c2⟩, ⟨d1, d2⟩, ⟨e1, e2⟩⟩ := buildSelectors_of_some spr hsel
  simp only at a1 a2 b1 b2 c1 c2 d1 d2 e1 e2
  have hsize := le_nextPowerOfTwo (spr.GetNbConstraints + spr.Public.length)
  simp only [SparseR1CS.GetNbConstraints] at hsize
  refine ⟨ql, qr, qm, qo, qk, hsel, nextPowerOfTwo_pos _, a1, b1, c1, d1, e1, ?_, ?_, ?_,
    BuildTrace_isSome spr pt hcoef⟩
  · intro j c hc
    obtain ⟨hj, rfl⟩ := List.getElem?_eq_some.mp hc
    obtain ⟨g1, g2, g3, g4, g5⟩ := hcoef _ (List.getElem_mem hj)
    have hlt : spr.Public.length + j < spr.Public.length + spr.Constraints.length := by omega
    have hN : spr.Public.length + j
        < nextPowerOfTwo (spr.GetNbConstraints + spr.Public.length) := by
      simp only [SparseR1CS.GetNbConstraints]; omega
    rw [a2 _ hN, b2 _ hN, c2 _ hN, d2 _ hN, e2 _ hN]
    simp only [if_pos hlt]
    rw [selectorRow_gate spr _ _ hc (List.getElem?_eq_getElem g1),
      selectorRow_gate spr _ _ hc (List.getElem?_eq_getElem g2),
      selectorRow_gate spr _ _ hc (List.getElem?_eq_getElem g3),
      selectorRow_gate spr _ _ hc (List.getElem?_eq_getElem g4),
      selectorRow_gate spr _ _ hc (List.getElem?_eq_getElem g5)]
    exact ⟨(List.getElem?_eq_getElem g1).symm, (List.getElem?_eq_getElem g2).symm,
      (List.getElem?_eq_getElem g3).symm, (List.getElem?_eq_getElem g4).symm,
      (List.getElem?_eq_getElem g5).symm⟩
  · intro i hi hiN
    simp only [SparseR1CS.GetNbConstraints] at hi
    have hnl : ¬ i < spr.Public.length + spr.Constraints.length := by omega
    rw [a2 i hiN, b2 i hiN, c2 i hiN, d2 i hiN, e2 i hiN]
    simp only [if_neg hnl, and_self]
  · intro pt' h
    obtain ⟨sel, hsel', a, b, c, d, e, _⟩ := BuildTrace_of_some spr pt pt' h
    rw [hsel] at hsel'
    cases hsel'
    exact ⟨a, b, c, d, e⟩

theorem BuildTrace_selectors_witness :
    ∃ ql qr qm qo qk, buildSelectors exampleSpr = some (ql, qr, qm, qo, qk) ∧
      1 ≤ nextPowerOfTwo (exampleSpr.GetNbConstraints + exampleSpr.Public.length) ∧
      ql.length = nextPowerOfTwo (exampleSpr.GetNbConstraints + exampleSpr.Public.length) ∧
      qr.length = nextPowerOfTwo (exampleSpr.GetNbConstraints + exampleSpr.Public.length) ∧
      qm.length = nextPowerOfTwo (exampleSpr.GetNbConstraints + exampleSpr.Public.length) ∧
      qo.length = nextPowerOfTwo (exampleSpr.GetNbConstraints + exampleSpr.Public.length) ∧
      qk.length = nextPowerOfTwo (exampleSpr.GetNbConstraints + exampleSpr.Public.length) ∧
      (∀ (j : Nat) (c : SparseR1C), exampleSpr.Constraints[j]? = some c →
        ql[exampleSpr.Public.length + j]? = exampleSpr.Coefficients[c.QL]? ∧
        qr[exampleSpr.Public.length + j]? = exampleSpr.Coefficients[c.QR]? ∧
        qm[exampleSpr.Public.length + j]? = exampleSpr.Coefficients[c.QM]? ∧
        qo[exampleSpr.Public.length + j]? = exampleSpr.Coefficients[c.QO]? ∧
        qk[exampleSpr.Public.length + j]? = exampleSpr.Coefficients[c.QC]?) ∧
      (∀ i, exampleSpr.Public.length + exampleSpr.GetNbConstraints ≤ i →
        i < nextPowerOfTwo (exampleSpr.GetNbConstraints + exampleSpr.Public.length) →
        ql[i]? = some 0 ∧ qr[i]? = some 0 ∧ qm[i]? = some 0 ∧ qo[i]? = some 0 ∧
        qk[i]? = some 0) ∧
      (∀ pt', BuildTrace exampleSpr exampleTrace = some pt' →
        pt'.Ql = ql ∧ pt'.Qr = qr ∧ pt'.Qm = qm ∧ pt'.Qo = qo ∧ pt'.Qk = qk) ∧
      ((∀ info ∈ exampleSpr.CommitmentInfo, ∀ w ∈ info.Committed,
          exampleSpr.Public.length + w
            < nextPowerOfTwo (exampleSpr.GetNbConstraints + exampleSpr.Public.length)) →
        ∃ pt', BuildTrace exampleSpr exampleTrace = some pt') :=
  BuildTrace_selectors exampleSpr exampleTrace (by decide)

/-- C8. `BuildTrace` returns as soon as the coefficient indices and the committed indices are
in range, and whenever it returns, the number of `Qcp` polynomials equals the number of
commitment-info entries and, for every entry `k` whose committed indices `w` satisfy
`P + w < N`, `Qcp[k]` has length `N` with `Qcp[k][P + w] = 1` for every committed `w` and
`Qcp[k][i] = 0` at every other index `i`. -/
theorem BuildTrace_qcp {F : Type} [Field F] (spr : SparseR1CS F) (pt : Trace F) :
    ((∀ c ∈ spr.Constraints, c.QL < spr.Coefficients.length ∧
        c.QR < spr.Coefficients.length ∧ c.QM < spr.Coefficients.length ∧
        c.QO < spr.Coefficients.length ∧ c.QC < spr.Coefficients.length) →
      (∀ info ∈ spr.CommitmentInfo, ∀ w ∈ info.Committed,
        spr.Public.length + w < nextPowerOfTwo (spr.GetNbConstraints + spr.Public.length)) →
      ∃ pt', BuildTrace spr pt = some pt') ∧
    ∀ pt', BuildTrace spr pt = some pt' →
      pt'.Qcp.length = spr.CommitmentInfo.length ∧
      ∀ (k : Nat) (info : Commitment), spr.CommitmentInfo[k]? = some info →
        (∀ w ∈ info.Committed,
          spr.Public.length + w < nextPowerOfTwo (spr.GetNbConstraints + spr.Public.length)) →
        ∃ q, pt'.Qcp[k]? = some q ∧
          q.length = nextPowerOfTwo (spr.GetNbConstraints + spr.Public.length) ∧
          (∀ w ∈ info.Committed, q[spr.Public.length + w]? = some 1) ∧
          (∀ i, i < nextPowerOfTwo (spr.GetNbConstraints + spr.Public.length) →
            (∀ w ∈ info.Committed, i ≠ spr.Public.length + w) → q[i]? = some 0) := by
  refine ⟨BuildTrace_isSome spr pt, ?_⟩
  intro pt' h
  obtain ⟨_, _, _, _, _, _, _, hlen, hv⟩ := BuildTrace_of_some spr pt pt' h
  refine ⟨hlen, fun k info hinfo hin => ?_⟩
  obtain ⟨q, hq, hk⟩ := hv k info hinfo
  obtain ⟨q', hq', hl, h1, h0⟩ := buildQcpColumn_spec (F := F)
    (nextPowerOfTwo (spr.GetNbConstraints + spr.Public.length)) spr.Public.length
    info.Committed hin
  rw [hq] at hq'
  cases hq'
  exact ⟨q, hk, hl, h1, h0⟩

theorem BuildTrace_qcp_witness :
    (∃ pt', BuildTrace exampleSpr exampleTrace = some pt') ∧
    (exampleTrace.Qcp.length = exampleSpr.CommitmentInfo.length ∧
      ∀ (k : Nat) (info : Commitment), exampleSpr.CommitmentInfo[k]? = some info →
        (∀ w ∈ info.Committed, exampleSpr.Public.length + w
          < nextPowerOfTwo (exampleSpr.GetNbConstraints + exampleSpr.Public.length)) →
        ∃ q, exampleTrace.Qcp[k]? = some q ∧
          q.length = nextPowerOfTwo (exampleSpr.GetNbConstraints + exampleSpr.Public.length) ∧
          (∀ w ∈ info.Committed, q[exampleSpr.Public.length + w]? = some 1) ∧
          (∀ i, i < nextPowerOfTwo (exampleSpr.GetNbConstraints + exampleSpr.Public.length) →
            (∀ w ∈ info.Committed, i ≠ exampleSpr.Public.length + w) → q[i]? = some 0)) :=
  ⟨(BuildTrace_qcp exampleSpr exampleTrace).1 (by decide) (by decide),
    (BuildTrace_qcp exampleSpr exampleTrace).2 exampleTrace rfl⟩

/-! ## Domains and Setup (C9, C10) -/

theorem nextPowerOfTwo_four_mul (n : Nat) (hn : 1 ≤ n) :
    nextPowerOfTwo (4 * n) = 4 * nextPowerOfTwo n := by
  rw [show 4 * n = 2 * (2 * n) by omega, nextPowerOfTwo_double _ (by omega),
    nextPowerOfTwo_double _ hn]
  omega

theorem nextPowerOfTwo_eight_mul (n : Nat) (hn : 1 ≤ n) :
    nextPowerOfTwo (8 * n) = 8 * nextPowerOfTwo n := by
  rw [show 8 * n = 2 * (4 * n) by omega, nextPowerOfTwo_double _ (by omega),
    nextPowerOfTwo_four_mul _ hn]
  omega

/-- C9, as stated, fails. With five public inputs and no gate the small domain has `N = 8 ≥ 6`
points but the large one has `64 = 8N`, not `4N`; and for the empty system `N = 1 < 6` but the
large domain has `1` point, not `8N`. -/
theorem initDomains_cardinality_counterexample :
    ¬ ((6 ≤ (initDomains exampleGens fiveInputs).1.Cardinality →
          (initDomains exampleGens fiveInputs).2.Cardinality
            = 4 * (initDomains exampleGens fiveInputs).1.Cardinality) ∧
        ((initDomains exampleGens fiveInputs).1.Cardinality < 6 →
          (initDomains exampleGens fiveInputs).2.Cardinality
            = 8 * (initDomains exampleGens fiveInputs).1.Cardinality)) ∧
    ¬ ((6 ≤ (initDomains exampleGens emptySystem).1.Cardinality →
          (initDomains exampleGens emptySystem).2.Cardinality
            = 4 * (initDomains exampleGens emptySystem).1.Cardinality) ∧
        ((initDomains exampleGens emptySystem).1.Cardinality < 6 →
          (initDomains exampleGens emptySystem).2.Cardinality
            = 8 * (initDomains exampleGens emptySystem).1.Cardinality)) := by
  decide

/-- C9, amended. After `initDomains` the small domain has `N = next_pow2(n)` points, where
`n = gate_count + public_count` is the size of the system, and the large domain has `M = 4N`
points when `n ≥ 6` and `M = 8N` points when `1 ≤ n < 6`: the threshold is on `n`, not on `N`. -/
theorem initDomains_cardinality {F : Type} (gens : Nat → F × F × F) (spr : SparseR1CS F) :
    (initDomains gens spr).1.Cardinality
        = nextPowerOfTwo (spr.GetNbConstraints + spr.Public.length) ∧
    (6 ≤ spr.GetNbConstraints + spr.Public.length →
      (initDomains gens spr).2.Cardinality = 4 * (initDomains gens spr).1.Cardinality) ∧
    (1 ≤ spr.GetNbConstraints + spr.Public.length →
      spr.GetNbConstraints + spr.Public.length < 6 →
      (initDomains gens spr).2.Cardinality = 8 * (initDomains gens spr).1.Cardinality) := by
  refine ⟨?_, ?_, ?_⟩
  · simp only [initDomains]; split <;> rfl
  · intro h
    simp only [initDomains, if_neg (Nat.not_lt.mpr h), NewDomain]
    exact nextPowerOfTwo_four_mul _ (by omega)
  · intro h1 h6
    simp only [initDomains, if_pos h6, NewDomain]
    exact nextPowerOfTwo_eight_mul _ h1

theorem initDomains_cardinality_witness :
    (initDomains exampleGens exampleSpr).2.Cardinality
        = 8 * (initDomains exampleGens exampleSpr).1.Cardinality ∧
    (initDomains exampleGens fiveInputs).2.Cardinality
        = 8 * (initDomains exampleGens fiveInputs).1.Cardinality :=
  ⟨(initDomains_cardinality exampleGens exampleSpr).2.2 (by decide) (by decide),
    (initDomains_cardinality exampleGens fiveInputs).2.2 (by decide) (by decide)⟩

/-- C10. `Setup` fails with the SRS-too-small error exactly when the SRS holds fewer than `N`
group-1 elements, `N` the cardinality of the small domain: if `len(kzgSrs.Pk.G1) < N` it returns
that error with a nil proving key and a nil verifying key, and if `len(kzgSrs.Pk.G1) ≥ N` it
never returns that error. Whenever `Setup` returns an error, both keys are nil. -/
theorem Setup_srsTooSmall {F D G1 KV E : Type} [Field F] [Inhabited D]
    (env : Collaborators F D G1 E) (spr : SparseR1CS F) (kzgSrs : SRS G1 KV) :
    (kzgSrs.Pk.G1.length < (initDomains env.gens spr).1.Cardinality →
      Setup env spr kzgSrs = some (none, none, some SetupError.srsTooSmall)) ∧
    ((initDomains env.gens spr).1.Cardinality ≤ kzgSrs.Pk.G1.length →
      ∀ r, Setup env spr kzgSrs = some r → r.2.2 ≠ some SetupError.srsTooSmall) ∧
    (∀ r, Setup env spr kzgSrs = some r → r.2.2 ≠ none → r.1 = none ∧ r.2.1 = none) := by
  refine ⟨?_, ?_, ?_⟩
  · intro h
    simp only [Setup, if_pos h]
  · intro h r hr
    simp only [Setup, if_neg (Nat.not_lt.mpr h), Option.bind_eq_bind, Option.bind_eq_some] at hr
    obtain ⟨t1, _, t2, _, s, _, hm⟩ := hr
    split at hm
    · cases hm; simp
    · simp only [Option.bind_eq_some] at hm
      obtain ⟨pk, _, hpk⟩ := hm
      cases hpk; simp
  · intro r hr hne
    simp only [Setup, Option.bind_eq_bind] at hr
    split at hr
    · cases hr; exact ⟨rfl, rfl⟩
    · simp only [Option.bind_eq_some] at hr
      obtain ⟨t1, _, t2, _, s, _, hm⟩ := hr
      split at hm
      · cases hm; exact ⟨rfl, rfl⟩
      · simp only [Option.bind_eq_some] at hm
        obtain ⟨pk, _, hpk⟩ := hm
        cases hpk
        exact absurd rfl hne

theorem Setup_srsTooSmall_witness :
    Setup exampleEnv exampleSpr smallSrs = some (none, none, some SetupError.srsTooSmall) ∧
    (∀ r, Setup exampleEnv exampleSpr fullSrs = some r →
      r.2.2 ≠ some SetupError.srsTooSmall) ∧
    (∃ pk vk, Setup exampleEnv exampleSpr fullSrs = some (some pk, some vk, none)) :=
  ⟨(Setup_srsTooSmall exampleEnv exampleSpr smallSrs).1 (by decide),
    (Setup_srsTooSmall exampleEnv exampleSpr fullSrs).2.1 (by decide), ⟨_, _, rfl⟩⟩

/-! ## The commitments of the verifying key (C11) -/

theorem firstCommitError_cons_ok {F D G1 E : Type} (env : Collaborators F D G1 E)
    (kzgPk : KzgProvingKey G1) (p : List F) (ps : List (List F)) (d : D)
    (h : env.commit p kzgPk = Except.ok d) :
    firstCommitError env kzgPk (p :: ps) = firstCommitError env kzgPk ps := by
  simp [firstCommitError, List.findSome?, h]

theorem firstCommitError_cons_error {F D G1 E : Type} (env : Collaborators F D G1 E)
    (kzgPk : KzgProvingKey G1) (p : List F) (ps : List (List F)) (e : E)
    (h : env.commit p kzgPk = Except.error e) :
    firstCommitError env kzgPk (p :: ps) = some e := by
  simp [firstCommitError, List.findSome?, h]

theorem firstCommitError_eq_none {F D G1 E : Type} (env : Collaborators F D G1 E)
    (kzgPk : KzgProvingKey G1) (ps : List (List F)) :
    firstCommitError env kzgPk ps = none ↔ ∀ p ∈ ps, ∃ d, env.commit p kzgPk = Except.ok d := by
  induction ps with
  | nil => simp [firstCommitError]
  | cons p ps ih =>
    cases h : env.commit p kzgPk with
    | error e => simp [firstCommitError_cons_error env kzgPk p ps e h, h]
    | ok d => simp [firstCommitError_cons_ok env kzgPk p ps d h, h, ih]

/-- The loop of `commitTrace` over `Qcp`: on success the canonical forms and their digests, row
by row; on failure the error of the first commitment that fails. -/
theorem commitQcp_spec {F D G1 E : Type} (env : Collaborators F D G1 E) (domain0 : Domain F)
    (kzgPk : KzgProvingKey G1) (qs : List (List F)) :
    match qs.mapM (fun q => (do
        let c := env.toCanonical domain0 q
        let d ← env.commit c kzgPk
        pure (c, d) : Except E (List F × D))) with
    | Except.ok r =>
        r.map Prod.fst = qs.map (env.toCanonical domain0) ∧
        (r.map Prod.snd).length = qs.length ∧
        (∀ (i : Nat) q, qs[i]? = some q → ∃ d, (r.map Prod.snd)[i]? = some d ∧
          env.commit (env.toCanonical domain0 q) kzgPk = Except.ok d) ∧
        firstCommitError env kzgPk (qs.map (env.toCanonical domain0)) = none
    | Except.error e =>
        firstCommitError env kzgPk (qs.map (env.toCanonical domain0)) = some e := by
  induction qs with
  | nil =>
    rw [List.mapM_nil]
    simp [firstCommitError, pure, Except.pure]
  | cons q qs ih =>
    rw [List.mapM_cons]
    generalize @List.mapM (Except E) _ _ _ _ qs = res at ih ⊢
    cases h : env.commit (env.toCanonical domain0 q) kzgPk with
    | error e =>
      simp only [h, bind, Except.bind, List.map_cons]
      exact firstCommitError_cons_error env kzgPk _ _ e h
    | ok d =>
      cases res with
      | error e =>
        simp only [h, bind, Except.bind, pure, Except.pure, List.map_cons] at ih ⊢
        rw [firstCommitError_cons_ok env kzgPk _ _ d h]
        exact ih
      | ok r =>
        simp only [h, bind, Except.bind, pure, Except.pure, List.map_cons] at ih ⊢
        obtain ⟨i1, i2, i3, i4⟩ := ih
        refine ⟨by simp [i1], by simpa using i2, ?_, ?_⟩
        · intro i q0 hq
          cases i with
          | zero =>
            simp only [List.getElem?_cons_zero, Option.some.injEq] at hq
            subst hq
            exact ⟨d, by simp, h⟩
          | succ j =>
            simp only [List.getElem?_cons_succ] at hq
            simpa using i3 j q0 hq
        · rw [firstCommitError_cons_ok env kzgPk _ _ d h]
          exact i4

theorem firstCommitError_append {F D G1 E : Type} (env : Collaborators F D G1 E)
    (kzgPk : KzgProvingKey G1) (ps qs : List (List F)) :
    firstCommitError env kzgPk (ps ++ qs)
      = (firstCommitError env kzgPk ps).or (firstCommitError env kzgPk qs) := by
  simp [firstCommitError, List.findSome?_append]

/-- What `commitTrace` returns: on success the trace in canonical form and the verifying key
with the digest of each canonical form; on failure the error of the first commitment that
fails, in the order of `commitOrder`. -/
theorem commitTrace_spec {F D G1 KV E : Type} (env : Collaborators F D G1 E) (trace : Trace F)
    (domain0 : Domain F) (kzgPk : KzgProvingKey G1) (vk : VerifyingKey F D KV) :
    match commitTrace env trace domain0 kzgPk vk with
    | Except.ok (t, v) =>
        (t.Ql = env.toCanonical domain0 trace.Ql ∧ t.Qr = env.toCanonical domain0 trace.Qr ∧
          t.Qm = env.toCanonical domain0 trace.Qm ∧ t.Qo = env.toCanonical domain0 trace.Qo ∧
          t.Qk = env.toCanonical domain0 trace.Qk ∧ t.S1 = env.toCanonical domain0 trace.S1 ∧
          t.S2 = env.toCanonical domain0 trace.S2 ∧ t.S3 = env.toCanonical domain0 trace.S3 ∧
          t.Qcp = trace.Qcp.map (env.toCanonical domain0)) ∧
        (env.commit (env.toCanonical domain0 trace.Ql) kzgPk = Except.ok v.Ql ∧
          env.commit (env.toCanonical domain0 trace.Qr) kzgPk = Except.ok v.Qr ∧
          env.commit (env.toCanonical domain0 trace.Qm) kzgPk = Except.ok v.Qm ∧
          env.commit (env.toCanonical domain0 trace.Qo) kzgPk = Except.ok v.Qo ∧
          env.commit (env.toCanonical domain0 trace.Qk) kzgPk = Except.ok v.Qk ∧
          env.commit (env.toCanonical domain0 trace.S1) kzgPk = Except.ok v.S.1 ∧
          env.commit (env.toCanonical domain0 trace.S2) kzgPk = Except.ok v.S.2.1 ∧
          env.commit (env.toCanonical domain0 trace.S3) kzgPk = Except.ok v.S.2.2) ∧
        v.Qcp.length = trace.Qcp.length ∧
        (∀ (i : Nat) q, trace.Qcp[i]? = some q → ∃ d, v.Qcp[i]? = some d ∧
          env.commit (env.toCanonical domain0 q) kzgPk = Except.ok d) ∧
        firstCommitError env kzgPk (commitOrder env trace domain0) = none
    | Except.error e => firstCommitError env kzgPk (commitOrder env trace domain0) = some e := by
  have hq := commitQcp_spec env domain0 kzgPk trace.Qcp
  unfold commitTrace commitOrder
  rw [firstCommitError_append]
  dsimp only at hq ⊢
  generalize @List.mapM (Except E) _ _ _ _ trace.Qcp = res at hq ⊢
  cases res with
  | error e => simp only [bind, Except.bind] at hq ⊢; simp [hq]
  | ok r =>
    obtain ⟨q1, q2, q3, q4⟩ := hq
    simp only [bind, Except.bind, q4, Option.none_or]
    cases h1 : env.commit (env.toCanonical domain0 trace.Ql) kzgPk with
    | error e => simp [firstCommitError_cons_error env kzgPk _ _ e h1]
    | ok d1 =>
    rw [firstCommitError_cons_ok env kzgPk _ _ d1 h1]
    cases h2 : env.commit (env.toCanonical domain0 trace.Qr) kzgPk with
    | error e => simp [firstCommitError_cons_error env kzgPk _ _ e h2]
    | ok d2 =>
    rw [firstCommitError_cons_ok env kzgPk _ _ d2 h2]
    cases h3 : env.commit (env.toCanonical domain0 trace.Qm) kzgPk with
    | error e => simp [firstCommitError_cons_error env kzgPk _ _ e h3]
    | ok d3 =>
    rw [firstCommitError_cons_ok env kzgPk _ _ d3 h3]
    cases h4 : env.commit (env.toCanonical domain0 trace.Qo) kzgPk with
    | error e => simp [firstCommitError_cons_error env kzgPk _ _ e h4]
    | ok d4 =>
    rw [firstCommitError_cons_ok env kzgPk _ _ d4 h4]
    cases h5 : env.commit (env.toCanonical domain0 trace.Qk) kzgPk with
    | error e => simp [firstCommitError_cons_error env kzgPk _ _ e h5]
    | ok d5 =>
    rw [firstCommitError_cons_ok env kzgPk _ _ d5 h5]
    cases h6 : env.commit (env.toCanonical domain0 trace.S1) kzgPk with
    | error e => simp [firstCommitError_cons_error env kzgPk _ _ e h6]
    | ok d6 =>
    rw [firstCommitError_cons_ok env kzgPk _ _ d6 h6]
    cases h7 : env.commit (env.toCanonical domain0 trace.S2) kzgPk with
    | error e => simp [firstCommitError_cons_error env kzgPk _ _ e h7]
    | ok d7 =>
    rw [firstCommitError_cons_ok env kzgPk _ _ d7 h7]
    cases h8 : env.commit (env.toCanonical domain0 trace.S3) kzgPk with
    | error e => simp [firstCommitError_cons_error env kzgPk _ _ e h8]
    | ok d8 =>
    rw [firstCommitError_cons_ok env kzgPk _ _ d8 h8]
    simp only [pure, Except.pure, and_self, true_and]
    exact ⟨q1, q2, q3, by simp [firstCommitError]⟩

theorem computeLagrangeCosetPolys_keeps {F D G1 KV E : Type} [Field F]
    (env : Collaborators F D G1 E) (pk pk2 : ProvingKey F D G1 KV)
    (h : computeLagrangeCosetPolys env pk = some pk2) :
    pk2.Vk = pk.Vk ∧ pk2.trace = pk.trace := by
  simp only [computeLagrangeCosetPolys, Option.bind_eq_bind, Option.bind_eq_some] at h
  obtain ⟨_, _, _, _, _, _, h⟩ := h
  cases h
  exact ⟨rfl, rfl⟩

/-- C11. Whenever `Setup` succeeds, with `t` the trace in Lagrange form that steps 2 and 3
build and `canonical` the basis change to the canonical regular form over the small domain:
the proving key holds `canonical(t.Ql)`, …, `canonical(t.S3)`, `canonical(t.Qcp[i])`, and
`vk.Ql`, `vk.Qr`, `vk.Qm`, `vk.Qo`, `vk.Qk` are the commitments of the canonical forms of `Ql`,
`Qr`, `Qm`, `Qo`, `Qk`, `vk.S[0]`, `vk.S[1]`, `vk.S[2]` those of `S1`, `S2`, `S3`, and
`vk.Qcp[i]` that of `Qcp[i]` for every `i`, with `len(vk.Qcp) = len(trace.Qcp)`. And
`commitTrace` returns no error exactly when every one of these commitments succeeds; otherwise
it returns the error of the first commitment that fails, in the order in which it commits. -/
theorem Setup_digests {F D G1 KV E : Type} [Field F] [Inhabited D]
    (env : Collaborators F D G1 E) (spr : SparseR1CS F) (kzgSrs : SRS G1 KV) :
    (∀ pk vk, Setup env spr kzgSrs = some (some pk, some vk, none) →
      ∃ t, lagrangeTrace spr (initDomains env.gens spr).1 = some t ∧ pk.Vk = vk ∧
        (pk.trace.Ql = env.toCanonical (initDomains env.gens spr).1 t.Ql ∧
          pk.trace.Qr = env.toCanonical (initDomains env.gens spr).1 t.Qr ∧
          pk.trace.Qm = env.toCanonical (initDomains env.gens spr).1 t.Qm ∧
          pk.trace.Qo = env.toCanonical (initDomains env.gens spr).1 t.Qo ∧
          pk.trace.Qk = env.toCanonical (initDomains env.gens spr).1 t.Qk ∧
          pk.trace.S1 = env.toCanonical (initDomains env.gens spr).1 t.S1 ∧
          pk.trace.S2 = env.toCanonical (initDomains env.gens spr).1 t.S2 ∧
          pk.trace.S3 = env.toCanonical (initDomains env.gens spr).1 t.S3 ∧
          pk.trace.Qcp = t.Qcp.map (env.toCanonical (initDomains env.gens spr).1)) ∧
        (env.commit (env.toCanonical (initDomains env.gens spr).1 t.Ql) kzgSrs.Pk
            = Except.ok vk.Ql ∧
          env.commit (env.toCanonical (initDomains env.gens spr).1 t.Qr) kzgSrs.Pk
            = Except.ok vk.Qr ∧
          env.commit (env.toCanonical (initDomains env.gens spr).1 t.Qm) kzgSrs.Pk
            = Except.ok vk.Qm ∧
          env.commit (env.toCanonical (initDomains env.gens spr).1 t.Qo) kzgSrs.Pk
            = Except.ok vk.Qo ∧
          env.commit (env.toCanonical (initDomains env.gens spr).1 t.Qk) kzgSrs.Pk
            = Except.ok vk.Qk ∧
          env.commit (env.toCanonical (initDomains env.gens spr).1 t.S1) kzgSrs.Pk
            = Except.ok vk.S.1 ∧
          env.commit (env.toCanonical (initDomains env.gens spr).1 t.S2) kzgSrs.Pk
            = Except.ok vk.S.2.1 ∧
          env.commit (env.toCanonical (initDomains env.gens spr).1 t.S3) kzgSrs.Pk
            = Except.ok vk.S.2.2) ∧
        vk.Qcp.length = t.Qcp.length ∧
        (∀ (i : Nat) q, t.Qcp[i]? = some q → ∃ d, vk.Qcp[i]? = some d ∧
          env.commit (env.toCanonical (initDomains env.gens spr).1 q) kzgSrs.Pk
            = Except.ok d)) ∧
    (∀ (trace : Trace F) (domain0 : Domain F) (kzgPk : KzgProvingKey G1)
        (vk0 : VerifyingKey F D KV),
      ((∃ r, commitTrace env trace domain0 kzgPk vk0 = Except.ok r) ↔
        ∀ p ∈ commitOrder env trace domain0, ∃ d, env.commit p kzgPk = Except.ok d) ∧
      (∀ e, commitTrace env trace domain0 kzgPk vk0 = Except.error e ↔
        firstCommitError env kzgPk (commitOrder env trace domain0) = some e)) := by
  refine ⟨?_, ?_⟩
  · intro pk vk h
    simp only [Setup, Option.bind_eq_bind] at h
    split at h
    · cases h
    · simp only [Option.bind_eq_some] at h
      obtain ⟨t1, h1, t2, h2, s, h3, hm⟩ := h
      refine ⟨{ t2 with S1 := s.1, S2 := s.2.1, S3 := s.2.2 }, ?_, ?_⟩
      · simp [lagrangeTrace, h1, h2, h3]
      · have hc := commitTrace_spec env { t2 with S1 := s.1, S2 := s.2.1, S3 := s.2.2 }
          (initDomains env.gens spr).1 kzgSrs.Pk
          ({ Size := (initDomains env.gens spr).1.Cardinality
             SizeInv := (((initDomains env.gens spr).1.Cardinality : Nat) : F)⁻¹
             Generator := (initDomains env.gens spr).1.Generator
             NbPublicVariables := spr.Public.length
             Kzg := kzgSrs.Vk
             CosetShift := (initDomains env.gens spr).1.FrMultiplicativeGen
             S := (default, default, default)
             Ql := default, Qr := default, Qm := default, Qo := default, Qk := default
             Qcp := []
             CommitmentConstraintIndexes := env.commitmentWireIndexes spr.CommitmentInfo } :
            VerifyingKey F D KV)
        split at hm
        · cases hm
        · rename_i tr vk2 heq
          rw [heq] at hc
          simp only [Option.bind_eq_some] at hm
          obtain ⟨pk2, hpk, hr⟩ := hm
          obtain ⟨k1, k2⟩ := computeLagrangeCosetPolys_keeps env _ pk2 hpk
          simp only [Option.some.injEq, Prod.mk.injEq, and_true] at hr
          obtain ⟨r1, r2⟩ := hr
          subst r1
          simp only [k1] at r2
          subst r2
          rw [k1, k2]
          obtain ⟨c1, c2, c3, c4, _⟩ := hc
          exact ⟨rfl, c1, c2, c3, c4⟩
  · intro trace domain0 kzgPk vk0
    have hc := commitTrace_spec env trace domain0 kzgPk vk0
    rw [← firstCommitError_eq_none]
    cases hr : commitTrace env trace domain0 kzgPk vk0 with
    | error e =>
      rw [hr] at hc
      simp [hc]
    | ok r =>
      rw [hr] at hc
      simp [hc.2.2.2.2]

theorem Setup_digests_witness :
    ∃ pk vk, Setup exampleEnv exampleSpr fullSrs = some (some pk, some vk, none) ∧
      ∃ t, lagrangeTrace exampleSpr (initDomains exampleEnv.gens exampleSpr).1 = some t ∧
        exampleEnv.commit
            (exampleEnv.toCanonical (initDomains exampleEnv.gens exampleSpr).1 t.Ql) fullSrs.Pk
          = Except.ok vk.Ql ∧
        vk.Qcp.length = t.Qcp.length :=
  ⟨_, _, rfl, ((Setup_digests exampleEnv exampleSpr fullSrs).1 _ _ rfl).imp
    fun _ h => ⟨h.1, h.2.2.2.1.1, h.2.2.2.2.1⟩⟩

/-! ## The permutation polynomials (C12) -/

theorem sigmaAt_block {F : Type} [Field F] (domain : Domain F) (hN : 1 ≤ domain.Cardinality)
    (i : Nat) (hi : i < domain.Cardinality) :
    sigmaAt domain i = domain.Generator ^ i ∧
    sigmaAt domain (domain.Cardinality + i) = domain.FrMultiplicativeGen * domain.Generator ^ i ∧
    sigmaAt domain (2 * domain.Cardinality + i)
      = domain.FrMultiplicativeGen ^ 2 * domain.Generator ^ i := by
  have h0 : i / domain.Cardinality = 0 := Nat.div_eq_of_lt hi
  have hm : i % domain.Cardinality = i := Nat.mod_eq_of_lt hi
  refine ⟨?_, ?_, ?_⟩
  · simp [sigmaAt, h0, hm]
  · have h1 : (domain.Cardinality + i) / domain.Cardinality = 1 := by
      rw [Nat.add_div_left _ (by omega), h0]
    have h2 : (domain.Cardinality + i) % domain.Cardinality = i := by
      rw [Nat.add_mod_left, hm]
    simp [sigmaAt, h1, h2]
  · have h1 : (2 * domain.Cardinality + i) / domain.Cardinality = 2 := by
      rw [Nat.mul_comm, Nat.mul_add_div (by omega), h0]
    have h2 : (2 * domain.Cardinality + i) % domain.Cardinality = i := by
      rw [Nat.mul_comm, Nat.mul_add_mod, hm]
    simp [sigmaAt, h1, h2]

theorem getSupportPermutation_sigmaAt {F : Type} [Field F] (domain : Domain F)
    (hN : 1 ≤ domain.Cardinality) (sigma : List F)
    (hv : ∀ i, i < domain.Cardinality →
      sigma[i]? = some (domain.Generator ^ i) ∧
      sigma[domain.Cardinality + i]? = some (domain.FrMultiplicativeGen * domain.Generator ^ i) ∧
      sigma[2 * domain.Cardinality + i]?
        = some (domain.FrMultiplicativeGen ^ 2 * domain.Generator ^ i))
    (s : Nat) (hs : s < 3 * domain.Cardinality) : sigma[s]? = some (sigmaAt domain s) := by
  by_cases h1 : s < domain.Cardinality
  · rw [(hv s h1).1, (sigmaAt_block domain hN s h1).1]
  · by_cases h2 : s < 2 * domain.Cardinality
    · obtain ⟨i, rfl⟩ : ∃ i, s = domain.Cardinality + i := ⟨s - domain.Cardinality, by omega⟩
      rw [(hv i (by omega)).2.1, (sigmaAt_block domain hN i (by omega)).2.1]
    · obtain ⟨i, rfl⟩ : ∃ i, s = 2 * domain.Cardinality + i :=
        ⟨s - 2 * domain.Cardinality, by omega⟩
      rw [(hv i (by omega)).2.2, (sigmaAt_block domain hN i (by omega)).2.2]

/-- C12. For a domain of cardinality `N ≥ 1` with generator `g` and coset shift `u`, and `S`
of length `3N` with entries in `[0, 3N)`, `computePermutationPolynomials` returns three vectors
of length `N` with `S1[i] = σ[S[i]]`, `S2[i] = σ[S[N+i]]`, `S3[i] = σ[S[2N+i]]`, where
`σ = getSupportPermutation(domain)` has length `3N` and `σ[i] = g^i`, `σ[N+i] = u·g^i`,
`σ[2N+i] = u²·g^i`; each value is `u^(s div N)·g^(s mod N)` for the matching entry `s` of
`S`. -/
theorem computePermutationPolynomials_values {F : Type} [Field F] (pt : Trace F)
    (domain : Domain F) (hN : 1 ≤ domain.Cardinality)
    (hlen : pt.S.length = 3 * domain.Cardinality)
    (hrange : ∀ x ∈ pt.S, 0 ≤ x ∧ x < ((3 * domain.Cardinality : Nat) : Int)) :
    ∃ sigma s1 s2 s3, getSupportPermutation domain = some sigma ∧
      computePermutationPolynomials pt domain = some (s1, s2, s3) ∧
      sigma.length = 3 * domain.Cardinality ∧
      s1.length = domain.Cardinality ∧ s2.length = domain.Cardinality ∧
      s3.length = domain.Cardinality ∧
      (∀ i, i < domain.Cardinality →
        sigma[i]? = some (domain.Generator ^ i) ∧
        sigma[domain.Cardinality + i]?
          = some (domain.FrMultiplicativeGen * domain.Generator ^ i) ∧
        sigma[2 * domain.Cardinality + i]?
          = some (domain.FrMultiplicativeGen ^ 2 * domain.Generator ^ i)) ∧
      (∀ i, i < domain.Cardinality →
        s1[i]? = sigma[slotNext pt.S i]? ∧
        s2[i]? = sigma[slotNext pt.S (domain.Cardinality + i)]? ∧
        s3[i]? = sigma[slotNext pt.S (2 * domain.Cardinality + i)]?) ∧
      (∀ i, i < domain.Cardinality →
        s1[i]? = some (sigmaAt domain (slotNext pt.S i)) ∧
        s2[i]? = some (sigmaAt domain (slotNext pt.S (domain.Cardinality + i))) ∧
        s3[i]? = some (sigmaAt domain (slotNext pt.S (2 * domain.Cardinality + i)))) := by
  obtain ⟨sigma, hsig, hsiglen, hsigv⟩ := getSupportPermutation_spec domain hN
  obtain ⟨s1, s2, s3, hs, hl1, hl2, hl3, hsv⟩ :=
    computePermutationPolynomials_spec pt domain sigma hN hsig hsiglen hlen hrange
  refine ⟨sigma, s1, s2, s3, hsig, hs, hsiglen, hl1, hl2, hl3, hsigv, hsv, ?_⟩
  intro i hi
  obtain ⟨a1, a2, a3⟩ := hsv i hi
  rw [a1, a2, a3]
  exact ⟨getSupportPermutation_sigmaAt domain hN sigma hsigv _
      (getElem?_slotNext hlen hrange (by omega)).2,
    getSupportPermutation_sigmaAt domain hN sigma hsigv _
      (getElem?_slotNext hlen hrange (by omega)).2,
    getSupportPermutation_sigmaAt domain hN sigma hsigv _
      (getElem?_slotNext hlen hrange (by omega)).2⟩

theorem computePermutationPolynomials_values_witness :
    ∃ sigma s1 s2 s3, getSupportPermutation exampleZData.DomainNum = some sigma ∧
      computePermutationPolynomials exampleZTrace exampleZData.DomainNum
        = some (s1, s2, s3) ∧
      sigma.length = 3 * exampleZData.DomainNum.Cardinality ∧
      s1.length = exampleZData.DomainNum.Cardinality ∧
      s2.length = exampleZData.DomainNum.Cardinality ∧
      s3.length = exampleZData.DomainNum.Cardinality ∧
      (∀ i, i < exampleZData.DomainNum.Cardinality →
        sigma[i]? = some (exampleZData.DomainNum.Generator ^ i) ∧
        sigma[exampleZData.DomainNum.Cardinality + i]?
          = some (exampleZData.DomainNum.FrMultiplicativeGen
              * exampleZData.DomainNum.Generator ^ i) ∧
        sigma[2 * exampleZData.DomainNum.Cardinality + i]?
          = some (exampleZData.DomainNum.FrMultiplicativeGen ^ 2
              * exampleZData.DomainNum.Generator ^ i)) ∧
      (∀ i, i < exampleZData.DomainNum.Cardinality →
        s1[i]? = sigma[slotNext exampleZTrace.S i]? ∧
        s2[i]? = sigma[slotNext exampleZTrace.S (exampleZData.DomainNum.Cardinality + i)]? ∧
        s3[i]? = sigma[slotNext exampleZTrace.S
          (2 * exampleZData.DomainNum.Cardinality + i)]?) ∧
      (∀ i, i < exampleZData.DomainNum.Cardinality →
        s1[i]? = some (sigmaAt exampleZData.DomainNum (slotNext exampleZTrace.S i)) ∧
        s2[i]? = some (sigmaAt exampleZData.DomainNum
          (slotNext exampleZTrace.S (exampleZData.DomainNum.Cardinality + i))) ∧
        s3[i]? = some (sigmaAt exampleZData.DomainNum
          (slotNext exampleZTrace.S (2 * exampleZData.DomainNum.Cardinality + i)))) :=
  computePermutationPolynomials_values exampleZTrace exampleZData.DomainNum (by decide) rfl
    (by decide)

/-! ## The wire columns of `ComputeLRO` (C13) -/

/-- One row of `ComputeLRO`: with the columns of length `N` and the rows below `m` written, a
write of row `m` succeeds and leaves the rows below `m + 1` written. -/
theorem ComputeLRORow_spec {F : Type} (solution : List F) (N m a b c : Nat)
    (withPartial : Bool) (fl fr fo : Nat → Nat) (st : List F × List F × List F × List F)
    (hm : m < N) (ha : a < solution.length) (hb : b < solution.length)
    (hc : c < solution.length) (hfa : fl m = a) (hfb : fr m = b) (hfc : fo m = c)
    (hlen : st.1.length = N ∧ st.2.1.length = N ∧ st.2.2.1.length = N ∧ st.2.2.2.length = N)
    (hrows : ∀ i, i < m → st.1[i]? = solution[fl i]? ∧ st.2.1[i]? = solution[fr i]? ∧
      st.2.2.1[i]? = solution[fo i]?) :
    ∃ st2, ComputeLRORow solution m a b c withPartial st = some st2 ∧
      (st2.1.length = N ∧ st2.2.1.length = N ∧ st2.2.2.1.length = N ∧ st2.2.2.2.length = N) ∧
      ∀ i, i < m + 1 → st2.1[i]? = solution[fl i]? ∧ st2.2.1[i]? = solution[fr i]? ∧
        st2.2.2.1[i]? = solution[fo i]? := by
  obtain ⟨l, r, o, p⟩ := st
  obtain ⟨h1, h2, h3, h4⟩ := hlen
  simp only at h1 h2 h3 h4 hrows
  have ea : solution[a]? = some solution[a] := List.getElem?_eq_getElem ha
  have eb : solution[b]? = some solution[b] := List.getElem?_eq_getElem hb
  have ec : solution[c]? = some solution[c] := List.getElem?_eq_getElem hc
  have key : ∀ i, i < m + 1 → (l.set m solution[a])[i]? = solution[fl i]? ∧
      (r.set m solution[b])[i]? = solution[fr i]? ∧
      (o.set m solution[c])[i]? = solution[fo i]? := by
    intro i hi
    by_cases e : i = m
    · subst e
      simp [List.getElem?_set, h1, h2, h3, hm, hfa, hfb, hfc, ea, eb, ec]
    · have hlt : i < m := by omega
      have hne : ¬ m = i := fun h => e h.symm
      simp only [List.getElem?_set, if_neg hne]
      exact hrows i hlt
  cases withPartial with
  | false =>
    refine ⟨(l.set m solution[a], r.set m solution[b], o.set m solution[c], p), ?_, ?_, key⟩
    · simp [ComputeLRORow, ea, eb, ec, store, h1, h2, h3, hm]
    · simp [h1, h2, h3, h4]
  | true =>
    refine ⟨(l.set m solution[a], r.set m solution[b], o.set m solution[c],
      p.set m solution[a]), ?_, ?_, key⟩
    · simp [ComputeLRORow, ea, eb, ec, store, h1, h2, h3, h4, hm]
    · simp [h1, h2, h3, h4]

theorem wireID_public (spr : bls381.SparseR1CS) (pub : Nat → Nat)
    (pick : bls381.SparseR1C → Nat) {i : Nat} (hi : i < spr.NbPublicVariables) :
    wireID spr pub pick i = pub i := by
  simp [wireID, hi]

theorem wireID_gate (spr : bls381.SparseR1CS) (pub : Nat → Nat)
    (pick : bls381.SparseR1C → Nat) {j : Nat} {g : bls381.SparseR1C}
    (hg : (spr.Constraints ++ spr.Assertions)[j]? = some g) :
    wireID spr pub pick (spr.NbPublicVariables + j) = pick g := by
  simp [wireID, hg]

theorem wireID_padding (spr : bls381.SparseR1CS) (pub : Nat → Nat)
    (pick : bls381.SparseR1C → Nat) {i : Nat}
    (hi : spr.NbPublicVariables + spr.Constraints.length + spr.Assertions.length ≤ i) :
    wireID spr pub pick i = 0 := by
  have h1 : ¬ i < spr.NbPublicVariables := by omega
  have h2 : (spr.Constraints ++ spr.Assertions)[i - spr.NbPublicVariables]? = none := by
    rw [List.getElem?_eq_none_iff, List.length_append]
    omega
  simp [wireID, h1, h2]

/-- One loop of `ComputeLRO`: `n` rows written from row `off` on. -/
theorem ComputeLRO_loop {F : Type} (solution : List F) (N off n : Nat) (withPartial : Bool)
    (fl fr fo : Nat → Nat)
    (body : Nat → List F × List F × List F × List F → Option (List F × List F × List F × List F))
    (hbody : ∀ k st, k < n → body k st
      = ComputeLRORow solution (off + k) (fl (off + k)) (fr (off + k)) (fo (off + k))
          withPartial st)
    (hb : ∀ k, k < n → fl (off + k) < solution.length ∧ fr (off + k) < solution.length ∧
      fo (off + k) < solution.length)
    (hoff : off + n ≤ N) (st : List F × List F × List F × List F)
    (hlen : st.1.length = N ∧ st.2.1.length = N ∧ st.2.2.1.length = N ∧ st.2.2.2.length = N)
    (hrows : ∀ i, i < off → st.1[i]? = solution[fl i]? ∧ st.2.1[i]? = solution[fr i]? ∧
      st.2.2.1[i]? = solution[fo i]?) :
    ∃ st2, forLoop body st n = some st2 ∧
      (st2.1.length = N ∧ st2.2.1.length = N ∧ st2.2.2.1.length = N ∧ st2.2.2.2.length = N) ∧
      ∀ i, i < off + n → st2.1[i]? = solution[fl i]? ∧ st2.2.1[i]? = solution[fr i]? ∧
        st2.2.2.1[i]? = solution[fo i]? := by
  have := forLoop_invariant body st
    (fun k s => (s.1.length = N ∧ s.2.1.length = N ∧ s.2.2.1.length = N ∧ s.2.2.2.length = N) ∧
      ∀ i, i < off + k → s.1[i]? = solution[fl i]? ∧ s.2.1[i]? = solution[fr i]? ∧
        s.2.2.1[i]? = solution[fo i]?)
    n ⟨hlen, hrows⟩
    (fun k s hk hinv => by
      rw [hbody k s hk]
      have hk2 : off + k < N := by omega
      exact ComputeLRORow_spec solution N (off + k) _ _ _ withPartial fl fr fo s hk2
        (hb k hk).1 (hb k hk).2.1 (hb k hk).2.2 rfl rfl rfl hinv.1 hinv.2)
  exact this

/-- The rows of `ComputeLRO` in one statement: it returns columns of length `N` whose row `i`
holds the solution at the variable IDs of `wireID`. -/
theorem ComputeLRO_spec {F : Type} [Field F] (spr : bls381.SparseR1CS) (pd : PublicRaw F)
    (solution : List F)
    (hN : spr.NbPublicVariables + spr.Constraints.length + spr.Assertions.length
      ≤ pd.DomainNum.Cardinality)
    (h0 : 0 < solution.length) (hP : spr.NbPublicVariables ≤ solution.length)
    (hG : ∀ g ∈ spr.Constraints ++ spr.Assertions,
      g.L < solution.length ∧ g.R < solution.length ∧ g.O < solution.length) :
    ∃ st, ComputeLRO spr pd solution = some st ∧
      (st.1.length = pd.DomainNum.Cardinality ∧ st.2.1.length = pd.DomainNum.Cardinality ∧
        st.2.2.1.length = pd.DomainNum.Cardinality ∧
        st.2.2.2.length = pd.DomainNum.Cardinality) ∧
      ∀ i, i < pd.DomainNum.Cardinality →
        st.1[i]? = solution[wireID spr (fun i => i) (fun g => g.L) i]? ∧
        st.2.1[i]? = solution[wireID spr (fun _ => 0) (fun g => g.R) i]? ∧
        st.2.2.1[i]? = solution[wireID spr (fun _ => 0) (fun g => g.O) i]? := by
  have hlast : ∀ i, i < pd.DomainNum.Cardinality → i < spr.NbPublicVariables
      + spr.Constraints.length + spr.Assertions.length + (pd.DomainNum.Cardinality
        - (spr.NbPublicVariables + spr.Constraints.length + spr.Assertions.length)) := by
    intro i hi
    omega
  have hC : ∀ k, k < spr.Constraints.length → ∃ g, spr.Constraints[k]? = some g ∧
      (spr.Constraints ++ spr.Assertions)[k]? = some g := by
    intro k hk
    exact ⟨_, List.getElem?_eq_getElem hk, by
      rw [List.getElem?_append_left hk, List.getElem?_eq_getElem hk]⟩
  have hA : ∀ k, k < spr.Assertions.length → ∃ g, spr.Assertions[k]? = some g ∧
      (spr.Constraints ++ spr.Assertions)[spr.Constraints.length + k]? = some g := by
    intro k hk
    exact ⟨_, List.getElem?_eq_getElem hk, by
      rw [List.getElem?_append_right (by omega), Nat.add_sub_cancel_left,
        List.getElem?_eq_getElem hk]⟩
  obtain ⟨s1, e1, l1, r1⟩ := ComputeLRO_loop solution pd.DomainNum.Cardinality 0
    spr.NbPublicVariables false
    (wireID spr (fun i => i) (fun g => g.L)) (wireID spr (fun _ => 0) (fun g => g.R))
    (wireID spr (fun _ => 0) (fun g => g.O))
    (fun i st => ComputeLRORow solution i i 0 0 false st)
    (fun k st hk => by
      rw [Nat.zero_add, wireID_public spr _ _ hk, wireID_public spr _ _ hk,
        wireID_public spr _ _ hk])
    (fun k hk => by
      rw [Nat.zero_add, wireID_public spr _ _ hk, wireID_public spr _ _ hk,
        wireID_public spr _ _ hk]
      exact ⟨by omega, h0, h0⟩)
    (by omega)
    (List.replicate pd.DomainNum.Cardinality (0 : F), List.replicate pd.DomainNum.Cardinality 0,
      List.replicate pd.DomainNum.Cardinality 0, List.replicate pd.DomainNum.Cardinality 0)
    (by simp) (fun i hi => absurd hi (Nat.not_lt_zero i))
  obtain ⟨s2, e2, l2, r2⟩ := ComputeLRO_loop solution pd.DomainNum.Cardinality
    spr.NbPublicVariables spr.Constraints.length true
    (wireID spr (fun i => i) (fun g => g.L)) (wireID spr (fun _ => 0) (fun g => g.R))
    (wireID spr (fun _ => 0) (fun g => g.O))
    (fun i st => do
      let g ← spr.Constraints[i]?
      ComputeLRORow solution (spr.NbPublicVariables + i) g.L g.R g.O true st)
    (fun k st hk => by
      obtain ⟨g, hg, hg2⟩ := hC k hk
      rw [wireID_gate spr _ _ hg2, wireID_gate spr _ _ hg2,
        wireID_gate spr _ _ hg2]
      simp [hg])
    (fun k hk => by
      obtain ⟨g, hg, hg2⟩ := hC k hk
      rw [wireID_gate spr _ _ hg2, wireID_gate spr _ _ hg2,
        wireID_gate spr _ _ hg2]
      exact hG _ (List.getElem?_mem hg2))
    (by omega) s1 l1 (fun i hi => r1 i (by omega))
  obtain ⟨s3, e3, l3, r3⟩ := ComputeLRO_loop solution pd.DomainNum.Cardinality
    (spr.NbPublicVariables + spr.Constraints.length) spr.Assertions.length true
    (wireID spr (fun i => i) (fun g => g.L)) (wireID spr (fun _ => 0) (fun g => g.R))
    (wireID spr (fun _ => 0) (fun g => g.O))
    (fun i st => do
      let g ← spr.Assertions[i]?
      ComputeLRORow solution (spr.NbPublicVariables + spr.Constraints.length + i)
        g.L g.R g.O true st)
    (fun k st hk => by
      obtain ⟨g, hg, hg2⟩ := hA k hk
      rw [Nat.add_assoc, wireID_gate spr _ _ hg2,
        wireID_gate spr _ _ hg2, wireID_gate spr _ _ hg2]
      simp [hg, Nat.add_assoc])
    (fun k hk => by
      obtain ⟨g, hg, hg2⟩ := hA k hk
      rw [Nat.add_assoc, wireID_gate spr _ _ hg2,
        wireID_gate spr _ _ hg2, wireID_gate spr _ _ hg2]
      exact hG _ (List.getElem?_mem hg2))
    (by omega) s2 l2 r2
  obtain ⟨s4, e4, l4, r4⟩ := ComputeLRO_loop solution pd.DomainNum.Cardinality
    (spr.NbPublicVariables + spr.Constraints.length + spr.Assertions.length)
    (pd.DomainNum.Cardinality
      - (spr.NbPublicVariables + spr.Constraints.length + spr.Assertions.length)) true
    (wireID spr (fun i => i) (fun g => g.L)) (wireID spr (fun _ => 0) (fun g => g.R))
    (wireID spr (fun _ => 0) (fun g => g.O))
    (fun i st => ComputeLRORow solution
      (spr.NbPublicVariables + spr.Constraints.length + spr.Assertions.length + i) 0 0 0 true st)
    (fun k st hk => by
      rw [wireID_padding spr _ _ (Nat.le_add_right _ k),
        wireID_padding spr _ _ (Nat.le_add_right _ k),
        wireID_padding spr _ _ (Nat.le_add_right _ k)])
    (fun k hk => by
      rw [wireID_padding spr _ _ (Nat.le_add_right _ k),
        wireID_padding spr _ _ (Nat.le_add_right _ k),
        wireID_padding spr _ _ (Nat.le_add_right _ k)]
      exact ⟨h0, h0, h0⟩)
    (by omega) s3 l3 r3
  refine ⟨s4, ?_, l4, fun i hi => r4 i (hlast i hi)⟩
  unfold ComputeLRO
  simp only [Option.bind_eq_bind] at e2 e3 ⊢
  rw [e1, Option.some_bind, e2, Option.some_bind, e3, Option.some_bind, e4]

/-- C13. For a constraint system with `P` public variables, `C` constraints and `A` assertions
with `P + C + A ≤ N` (`N` the cardinality of the small domain) and a non-empty solution `w` that
contains every referenced variable ID (the IDs `0..P-1` of the public variables and the `L`, `R`,
`O` IDs of every gate), `ComputeLRO` returns `l`, `r`, `o` of length `N` such that: for `i < P`,
`l[i] = w[i]` and `r[i] = o[i] = w[0]`; for each gate row `P + j` (constraints followed by
assertions), `l`, `r`, `o` hold `w` at the gate's `L`, `R`, `O` variable IDs; and for every row
beyond the last gate, `l = r = o = w[0]`. -/
theorem ComputeLRO_rows {F : Type} [Field F] (spr : bls381.SparseR1CS) (pd : PublicRaw F)
    (solution : List F)
    (hN : spr.NbPublicVariables + spr.Constraints.length + spr.Assertions.length
      ≤ pd.DomainNum.Cardinality)
    (h0 : solution ≠ []) (hP : spr.NbPublicVariables ≤ solution.length)
    (hG : ∀ g ∈ spr.Constraints ++ spr.Assertions,
      g.L < solution.length ∧ g.R < solution.length ∧ g.O < solution.length) :
    ∃ w0 l r o partialL, solution[0]? = some w0 ∧
      ComputeLRO spr pd solution = some (l, r, o, partialL) ∧
      l.length = pd.DomainNum.Cardinality ∧ r.length = pd.DomainNum.Cardinality ∧
      o.length = pd.DomainNum.Cardinality ∧
      (∀ i, i < spr.NbPublicVariables →
        (∃ wi, solution[i]? = some wi ∧ l[i]? = some wi) ∧ r[i]? = some w0 ∧ o[i]? = some w0) ∧
      (∀ j g, (spr.Constraints ++ spr.Assertions)[j]? = some g →
        ∃ a b c, solution[g.L]? = some a ∧ solution[g.R]? = some b ∧ solution[g.O]? = some c ∧
          l[spr.NbPublicVariables + j]? = some a ∧ r[spr.NbPublicVariables + j]? = some b ∧
          o[spr.NbPublicVariables + j]? = some c) ∧
      (∀ i, spr.NbPublicVariables + spr.Constraints.length + spr.Assertions.length ≤ i →
        i < pd.DomainNum.Cardinality → l[i]? = some w0 ∧ r[i]? = some w0 ∧ o[i]? = some w0) := by
  have hpos : 0 < solution.length := List.length_pos.mpr h0
  obtain ⟨⟨l, r, o, p⟩, hst, hlen, hrows⟩ := ComputeLRO_spec spr pd solution hN hpos hP hG
  simp only at hlen hrows
  have hw : solution[0]? = some solution[0] := List.getElem?_eq_getElem hpos
  refine ⟨solution[0], l, r, o, p, hw, hst, hlen.1, hlen.2.1, hlen.2.2.1, ?_, ?_, ?_⟩
  · intro i hi
    have h := hrows i (by omega)
    rw [wireID_public spr _ _ hi, wireID_public spr _ _ hi, wireID_public spr _ _ hi, hw] at h
    have hi2 : i < solution.length := by omega
    exact ⟨⟨solution[i], List.getElem?_eq_getElem hi2,
      h.1.trans (List.getElem?_eq_getElem hi2)⟩, h.2⟩
  · intro j g hg
    have hj : j < (spr.Constraints ++ spr.Assertions).length :=
      (List.getElem?_eq_some_iff.mp hg).1
    rw [List.length_append] at hj
    have h := hrows (spr.NbPublicVariables + j) (by omega)
    rw [wireID_gate spr _ _ hg, wireID_gate spr _ _ hg, wireID_gate spr _ _ hg] at h
    have hb := hG g (List.getElem?_mem hg)
    exact ⟨solution[g.L], solution[g.R], solution[g.O], List.getElem?_eq_getElem hb.1,
      List.getElem?_eq_getElem hb.2.1, List.getElem?_eq_getElem hb.2.2,
      h.1.trans (List.getElem?_eq_getElem hb.1), h.2.1.trans (List.getElem?_eq_getElem hb.2.1),
      h.2.2.trans (List.getElem?_eq_getElem hb.2.2)⟩
  · intro i hi hiN
    have h := hrows i hiN
    rw [wireID_padding spr _ _ hi, wireID_padding spr _ _ hi, wireID_padding spr _ _ hi, hw] at h
    exact h

theorem ComputeLRO_rows_witness :
    ∃ w0 l r o partialL, [(10 : ℚ), 20, 30][0]? = some w0 ∧
      ComputeLRO exampleLroSpr exampleLroData [10, 20, 30] = some (l, r, o, partialL) ∧
      l.length = exampleLroData.DomainNum.Cardinality ∧
      r.length = exampleLroData.DomainNum.Cardinality ∧
      o.length = exampleLroData.DomainNum.Cardinality ∧
      (∀ i, i < exampleLroSpr.NbPublicVariables →
        (∃ wi, [(10 : ℚ), 20, 30][i]? = some wi ∧ l[i]? = some wi) ∧ r[i]? = some w0 ∧
          o[i]? = some w0) ∧
      (∀ j g, (exampleLroSpr.Constraints ++ exampleLroSpr.Assertions)[j]? = some g →
        ∃ a b c, [(10 : ℚ), 20, 30][g.L]? = some a ∧ [(10 : ℚ), 20, 30][g.R]? = some b ∧
          [(10 : ℚ), 20, 30][g.O]? = some c ∧
          l[exampleLroSpr.NbPublicVariables + j]? = some a ∧
          r[exampleLroSpr.NbPublicVariables + j]? = some b ∧
          o[exampleLroSpr.NbPublicVariables + j]? = some c) ∧
      (∀ i, exampleLroSpr.NbPublicVariables + exampleLroSpr.Constraints.length
          + exampleLroSpr.Assertions.length ≤ i →
        i < exampleLroData.DomainNum.Cardinality →
        l[i]? = some w0 ∧ r[i]? = some w0 ∧ o[i]? = some w0) :=
  ComputeLRO_rows exampleLroSpr exampleLroData [10, 20, 30] (by decide) (by simp) (by decide)
    (by decide)

/-! ## The shifted grand product (C14) -/

theorem shiftZ_spec {F : Type} (z : List F) (hz : 1 ≤ z.length) :
    ∃ res, shiftZ z = some res ∧ res.length = z.length ∧
      ∀ i, i < z.length → res[i]? = z[(i + 1) % z.length]? := by
  obtain ⟨b, hb⟩ : ∃ b, z[0]? = some b := ⟨_, List.getElem?_eq_getElem (by omega)⟩
  obtain ⟨r, hr, hlen, hv⟩ := forLoop_invariant
    (fun i (res : List F) => do
      let x ← res[i + 1]?
      store res i x)
    z
    (fun k res => res.length = z.length ∧
      ∀ i, i < z.length → res[i]? = if i < k then z[i + 1]? else z[i]?)
    (z.length - 1) ⟨rfl, fun i _ => by simp⟩ (by
      intro k res hk ⟨hl, hv⟩
      obtain ⟨x, hx⟩ : ∃ x, z[k + 1]? = some x := ⟨_, List.getElem?_eq_getElem (by omega)⟩
      have hr : res[k + 1]? = some x := by
        rw [hv (k + 1) (by omega), if_neg (by omega), hx]
      refine ⟨res.set k x, ?_, by simp [hl], ?_⟩
      · simp only [Option.bind_eq_bind, hr, Option.some_bind]
        exact store_eq_some _ (by omega)
      · intro i hi
        rw [List.getElem?_set]
        by_cases e : k = i
        · subst e
          rw [if_pos rfl, if_pos (by omega), if_pos (by omega), hx]
        · rw [if_neg e, hv i hi]
          by_cases l : i < k
          · rw [if_pos l, if_pos (by omega)]
          · rw [if_neg l, if_neg (by omega)])
  simp only [Option.bind_eq_bind] at hr
  refine ⟨r.set (z.length - 1) b, ?_, by simp [hlen], ?_⟩
  · simp only [shiftZ, Option.bind_eq_bind, hb, Option.some_bind, hr, hlen]
    exact store_eq_some _ (by omega)
  · intro i hi
    rw [List.getElem?_set]
    by_cases e : z.length - 1 = i
    · rw [if_pos e, if_pos (by omega)]
      have : (i + 1) % z.length = 0 := by
        rw [show i + 1 = z.length by omega, Nat.mod_self]
      rw [this, hb]
    · rw [if_neg e, hv i hi, if_pos (by omega), Nat.mod_eq_of_lt (by omega)]

/-- C14. For every non-empty `z` of length `N`, `shiftZ` returns a vector of length `N` with
`shiftZ(z)[i] = z[(i+1) mod N]` for every `i` (the rotation to the left by one slot; the
result is a fresh copy, `z` itself is a value and is not changed). Consequently, if
`z[i] = Z(g^i)` for a function `Z` of the field, in particular the evaluation of a polynomial,
and `g^N = 1`, then `shiftZ(z)[i] = Z(g·g^i)` for every `i < N`, the wrap-around index `N-1`
included. -/
theorem shiftZ_rotation {F : Type} [Field F] (z : List F) (hz : 1 ≤ z.length) :
    ∃ res, shiftZ z = some res ∧ res.length = z.length ∧
      (∀ i, i < z.length → res[i]? = z[(i + 1) % z.length]?) ∧
      (∀ (Z : F → F) (g : F), g ^ z.length = 1 →
        (∀ i, i < z.length → z[i]? = some (Z (g ^ i))) →
        ∀ i, i < z.length → res[i]? = some (Z (g * g ^ i))) := by
  obtain ⟨res, hres, hlen, hv⟩ := shiftZ_spec z hz
  refine ⟨res, hres, hlen, hv, ?_⟩
  intro Z g hg hZ i hi
  rw [hv i hi, hZ _ (Nat.mod_lt _ (by omega))]
  congr 2
  rw [← pow_succ', ← Nat.mod_add_div (i + 1) z.length, pow_add, pow_mul, hg, one_pow, mul_one,
    Nat.mod_add_div]

theorem shiftZ_rotation_witness :
    ∃ res, shiftZ [(1 : ℚ), -1, 1, -1] = some res ∧
      res.length = [(1 : ℚ), -1, 1, -1].length ∧
      (∀ i, i < [(1 : ℚ), -1, 1, -1].length →
        res[i]? = [(1 : ℚ), -1, 1, -1][(i + 1) % [(1 : ℚ), -1, 1, -1].length]?) ∧
      (∀ i, i < [(1 : ℚ), -1, 1, -1].length → res[i]? = some (id ((-1 : ℚ) * (-1) ^ i))) :=
  (shiftZ_rotation [(1 : ℚ), -1, 1, -1] (by decide)).imp fun _ h =>
    ⟨h.1, h.2.1, h.2.2.1, h.2.2.2 id (-1) (by norm_num) (by
      intro i hi
      have hi' : i < 4 := hi
      interval_cases i <;> norm_num)⟩

/-! ## The quotient (C15, C16) and division by zero in the grand product (C18) -/

theorem storeFour_eq_some {F : Type} (res : List F) (i : Nat) (a b c d : F)
    (h : 4 * i + 3 < res.length) :
    storeFour res i a b c d
      = some ((((res.set (4 * i) a).set (4 * i + 1) b).set (4 * i + 2) c).set (4 * i + 3) d) := by
  simp only [storeFour, Option.bind_eq_bind]
  rw [store_eq_some _ (by omega), Option.some_bind, store_eq_some _ (by simp; omega),
    Option.some_bind, store_eq_some _ (by simp; omega), Option.some_bind,
    store_eq_some _ (by simp; omega)]

theorem getElem?_setFour {F : Type} (res : List F) (i j : Nat) (a b c d : F)
    (h : 4 * i + 3 < res.length) :
    ((((res.set (4 * i) a).set (4 * i + 1) b).set (4 * i + 2) c).set (4 * i + 3) d)[j]?
      = if j / 4 = i then some (cosetComponent (a, b, c, d) (j % 4)) else res[j]? := by
  simp only [List.getElem?_set, List.length_set, cosetComponent]
  by_cases e : j / 4 = i
  · rw [if_pos e]
    by_cases e3 : 4 * i + 3 = j
    · rw [if_pos e3, if_pos h, if_neg (by omega), if_neg (by omega), if_neg (by omega)]
    · rw [if_neg e3]
      by_cases e2 : 4 * i + 2 = j
      · rw [if_pos e2, if_pos (by omega), if_neg (by omega), if_neg (by omega),
          if_pos (by omega)]
      · rw [if_neg e2]
        by_cases e1 : 4 * i + 1 = j
        · rw [if_pos e1, if_pos (by omega), if_neg (by omega), if_pos (by omega)]
        · rw [if_neg e1, if_pos (by omega), if_pos (by omega), if_pos (by omega)]
  · rw [if_neg e, if_neg (by omega), if_neg (by omega), if_neg (by omega), if_neg (by omega)]

theorem scaleFour_eq_some {F : Type} [Field F] (h : List F) (i : Nat) (c0 c1 c2 c3 : F)
    (hi : 4 * i + 3 < h.length) :
    ∃ h', scaleFour h h i c0 c1 c2 c3 = some h' ∧ h'.length = h.length ∧
      ∀ j, h'[j]? = if j / 4 = i then
          some (h[j]?.getD 0 * cosetComponent (c0, c1, c2, c3) (j % 4))
        else h[j]? := by
  obtain ⟨a0, e0⟩ : ∃ a, h[4 * i]? = some a := ⟨_, List.getElem?_eq_getElem (by omega)⟩
  obtain ⟨a1, e1⟩ : ∃ a, h[4 * i + 1]? = some a := ⟨_, List.getElem?_eq_getElem (by omega)⟩
  obtain ⟨a2, e2⟩ : ∃ a, h[4 * i + 2]? = some a := ⟨_, List.getElem?_eq_getElem (by omega)⟩
  obtain ⟨a3, e3⟩ : ∃ a, h[4 * i + 3]? = some a := ⟨_, List.getElem?_eq_getElem (by omega)⟩
  refine ⟨(((h.set (4 * i) (a0 * c0)).set (4 * i + 1) (a1 * c1)).set (4 * i + 2)
    (a2 * c2)).set (4 * i + 3) (a3 * c3), ?_, ?_, ?_⟩
  · simp only [scaleFour, Option.bind_eq_bind, e0, e1, e2, e3, Option.some_bind]
    exact storeFour_eq_some _ _ _ _ _ _ hi
  · simp
  · intro j
    rw [getElem?_setFour _ _ _ _ _ _ _ hi]
    by_cases e : j / 4 = i
    · rw [if_pos e, if_pos e]
      have hj : j % 4 = 0 ∨ j % 4 = 1 ∨ j % 4 = 2 ∨ j % 4 = 3 := by omega
      rcases hj with q | q | q | q
      · have : j = 4 * i := by omega
        subst this; simp [cosetComponent, e0, q]
      · have : j = 4 * i + 1 := by omega
        subst this; simp [cosetComponent, e1, q]
      · have : j = 4 * i + 2 := by omega
        subst this; simp [cosetComponent, e2, q]
      · have : j = 4 * i + 3 := by omega
        subst this; simp [cosetComponent, e3, q]
    · rw [if_neg e, if_neg e]

theorem computeHEvals_spec {F : Type} [Field F] (alpha : F) (pd : PublicRaw F)
    (G P B : List F)
    (hG : G.length = 4 * pd.DomainNum.Cardinality)
    (hP : P.length = 4 * pd.DomainNum.Cardinality)
    (hB : B.length = 4 * pd.DomainNum.Cardinality) :
    ∃ h, computeHEvals alpha pd G P B = some h ∧ h.length = 4 * pd.DomainNum.Cardinality ∧
      ∀ j, j < 4 * pd.DomainNum.Cardinality →
        h[j]? = some (((B[j]?.getD 0 * alpha + P[j]?.getD 0) * alpha + G[j]?.getD 0)
          * (cosetComponent (vanishingOnCosets pd) (j % 4))⁻¹) := by
  obtain ⟨h1, hh1, hl1, hv1⟩ := forLoop_invariant (computeHCombine alpha G P B)
    (List.replicate (4 * pd.DomainNum.Cardinality) (0 : F))
    (fun m h => h.length = 4 * pd.DomainNum.Cardinality ∧
      ∀ j, j < 4 * pd.DomainNum.Cardinality →
        h[j]? = some (if j < m then
          (fun j => (B[j]?.getD 0 * alpha + P[j]?.getD 0) * alpha + G[j]?.getD 0) j else 0))
    (4 * pd.DomainNum.Cardinality)
    ⟨by simp, fun j hj => by simp [List.getElem?_replicate, hj]⟩ (by
      intro m h hm ⟨hl, hv⟩
      have eB := List.getElem?_eq_getElem (l := B) (n := m) (by omega)
      have eP := List.getElem?_eq_getElem (l := P) (n := m) (by omega)
      have eG := List.getElem?_eq_getElem (l := G) (n := m) (by omega)
      refine ⟨h.set m ((B[m]?.getD 0 * alpha + P[m]?.getD 0) * alpha + G[m]?.getD 0), ?_, ?_⟩
      · simp only [computeHCombine, Option.bind_eq_bind, eB, eP, eG, Option.some_bind,
          Option.getD_some]
        exact store_eq_some _ (by omega)
      · exact column_step hl (store_eq_some _ (by omega)) hv rfl)
  obtain ⟨h2, hh2, hl2, hv2⟩ := forLoop_invariant
    (fun i (h : List F) => scaleFour h h i (vanishingOnCosets pd).1⁻¹
      (vanishingOnCosets pd).2.1⁻¹ (vanishingOnCosets pd).2.2.1⁻¹
      (vanishingOnCosets pd).2.2.2⁻¹)
    h1
    (fun m h => h.length = 4 * pd.DomainNum.Cardinality ∧
      ∀ j, j < 4 * pd.DomainNum.Cardinality →
        h[j]? = some (if j / 4 < m then
          ((B[j]?.getD 0 * alpha + P[j]?.getD 0) * alpha + G[j]?.getD 0)
            * (cosetComponent (vanishingOnCosets pd) (j % 4))⁻¹
          else (B[j]?.getD 0 * alpha + P[j]?.getD 0) * alpha + G[j]?.getD 0))
    pd.DomainNum.Cardinality
    ⟨hl1, fun j hj => by rw [hv1 j hj, if_pos hj, if_neg (Nat.not_lt_zero _)]⟩ (by
      intro m h hm ⟨hl, hv⟩
      obtain ⟨h', hh', hl', hv'⟩ := scaleFour_eq_some h m (vanishingOnCosets pd).1⁻¹
        (vanishingOnCosets pd).2.1⁻¹ (vanishingOnCosets pd).2.2.1⁻¹
        (vanishingOnCosets pd).2.2.2⁻¹ (by omega)
      refine ⟨h', hh', by omega, ?_⟩
      intro j hj
      rw [hv' j]
      by_cases e : j / 4 = m
      · rw [if_pos e, if_pos (by omega), hv j hj, if_neg (by omega)]
        congr 2
        simp only [cosetComponent]
        split_ifs <;> rfl
      · rw [if_neg e, hv j hj]
        by_cases l : j / 4 < m
        · rw [if_pos l, if_pos (by omega)]
        · rw [if_neg l, if_neg (by omega)])
  refine ⟨h2, ?_, hl2, ?_⟩
  · simp only [computeHEvals, Option.bind_eq_bind, hh1, Option.some_bind]
    exact hh2
  · intro j hj
    rw [hv2 j hj, if_pos (by omega)]

theorem pow_odd_mul_ne_one {F : Type} [Field F] (u : F) (N : Nat) (hN : 1 ≤ N)
    (hu : orderOf u = 8 * N) (k : Nat) : (u ^ (2 * k + 1)) ^ N ≠ 1 := by
  intro h
  rw [← pow_mul] at h
  have hd := orderOf_dvd_of_pow_eq_one h
  rw [hu] at hd
  have h8 : 8 ∣ 2 * k + 1 := Nat.dvd_of_mul_dvd_mul_right (by omega) hd
  omega

theorem vanishingOnCosets_eq {F : Type} [Field F] (pd : PublicRaw F) (k : Nat) (hk : k < 4) :
    cosetComponent (vanishingOnCosets pd) k
      = (pd.DomainNum.FinerGenerator ^ (2 * k + 1)) ^ pd.DomainNum.Cardinality - 1 := by
  have h3 : pd.DomainNum.FinerGenerator
      * (pd.DomainNum.FinerGenerator * pd.DomainNum.FinerGenerator)
      = pd.DomainNum.FinerGenerator ^ 3 := by ring
  have h5 : pd.DomainNum.FinerGenerator ^ 3
      * (pd.DomainNum.FinerGenerator * pd.DomainNum.FinerGenerator)
      = pd.DomainNum.FinerGenerator ^ 5 := by ring
  have h7 : pd.DomainNum.FinerGenerator ^ 5
      * (pd.DomainNum.FinerGenerator * pd.DomainNum.FinerGenerator)
      = pd.DomainNum.FinerGenerator ^ 7 := by ring
  interval_cases k <;> simp [cosetComponent, vanishingOnCosets, h3, h5, h7]

/-- C16. The vanishing polynomial `X^N - 1` is non-zero at every sample point of the coset:
if the finer generator `u` has multiplicative order `8N` (with `N ≥ 1` the cardinality of the
small domain), the four values that `computeH` inverts are `(u^(2k+1))^N - 1`, `k = 0, 1, 2, 3`,
none of them is zero, and so none of the four inverses is zero. -/
theorem vanishingOnCosets_ne_zero {F : Type} [Field F] (pd : PublicRaw F)
    (hN : 1 ≤ pd.DomainNum.Cardinality)
    (hu : orderOf pd.DomainNum.FinerGenerator = 8 * pd.DomainNum.Cardinality) :
    ∀ k, k < 4 →
      cosetComponent (vanishingOnCosets pd) k
        = (pd.DomainNum.FinerGenerator ^ (2 * k + 1)) ^ pd.DomainNum.Cardinality - 1 ∧
      (pd.DomainNum.FinerGenerator ^ (2 * k + 1)) ^ pd.DomainNum.Cardinality - 1 ≠ 0 ∧
      (cosetComponent (vanishingOnCosets pd) k)⁻¹ ≠ 0 := by
  intro k hk
  have hne : (pd.DomainNum.FinerGenerator ^ (2 * k + 1)) ^ pd.DomainNum.Cardinality - 1 ≠ 0 :=
    sub_ne_zero.mpr (pow_odd_mul_ne_one _ _ hN hu k)
  refine ⟨vanishingOnCosets_eq pd k hk, hne, ?_⟩
  rw [vanishingOnCosets_eq pd k hk]
  exact inv_ne_zero hne

theorem orderOf_two_F17 : orderOf (2 : F17) = 8 := by
  rw [orderOf_eq_iff (by norm_num)]
  refine ⟨by decide, ?_⟩
  intro m hm hpos
  interval_cases m <;> decide

theorem vanishingOnCosets_ne_zero_witness :
    (cosetComponent (vanishingOnCosets pd17) 0 = 1 ∧
      (cosetComponent (vanishingOnCosets pd17) 0)⁻¹ ≠ 0) ∧
    (cosetComponent (vanishingOnCosets pd17) 1 = 7 ∧
      (cosetComponent (vanishingOnCosets pd17) 1)⁻¹ ≠ 0) ∧
    (cosetComponent (vanishingOnCosets pd17) 2 = 14 ∧
      (cosetComponent (vanishingOnCosets pd17) 2)⁻¹ ≠ 0) ∧
    (cosetComponent (vanishingOnCosets pd17) 3 = 8 ∧
      (cosetComponent (vanishingOnCosets pd17) 3)⁻¹ ≠ 0) :=
  ⟨⟨by decide, (vanishingOnCosets_ne_zero pd17 (by decide) orderOf_two_F17 0 (by decide)).2.2⟩,
    ⟨by decide, (vanishingOnCosets_ne_zero pd17 (by decide) orderOf_two_F17 1 (by decide)).2.2⟩,
    ⟨by decide, (vanishingOnCosets_ne_zero pd17 (by decide) orderOf_two_F17 2 (by decide)).2.2⟩,
    ⟨by decide, (vanishingOnCosets_ne_zero pd17 (by decide) orderOf_two_F17 3 (by decide)).2.2⟩⟩

theorem cosetPoint_pow {F : Type} [Field F] (domain : Domain F)
    (hg : domain.Generator ^ domain.Cardinality = 1) (j : Nat) :
    cosetPoint domain j ^ domain.Cardinality
      = (domain.FinerGenerator ^ (2 * (j % 4) + 1)) ^ domain.Cardinality := by
  rw [cosetPoint, mul_pow, ← pow_mul domain.Generator, Nat.mul_comm (j / 4),
    pow_mul domain.Generator, hg, one_pow, mul_one]

/-- C15. For inputs `constraintsInd` (`G`), `constraintOrdering` (`P`), `startsAtOne` (`B`) of
length `4N`, when the finer generator `u` has multiplicative order `8N` and the generator `g`
satisfies `g^N = 1`, the values that `computeH` hands to the inverse FFT satisfy, at every
index `j < 4N`, `h[j]·(x_j^N - 1) = G[j] + α·P[j] + α²·B[j]`, where
`x_j = u^(2(j mod 4)+1)·g^(j div 4)` is the `j`-th coset point. Hence, when the inverse FFT
interpolates these values exactly on the coset, the returned `H` satisfies
`H(x_j)·(x_j^N - 1) = G[j] + α·P[j] + α²·B[j]` at every coset point. -/
theorem computeH_quotient {F W E BO OP : Type} [Field F]
    (env : ProverCollaborators F W E BO OP) (alpha : F) (pd : PublicRaw F) (G P B : List F)
    (hN : 1 ≤ pd.DomainNum.Cardinality)
    (hG : G.length = 4 * pd.DomainNum.Cardinality)
    (hP : P.length = 4 * pd.DomainNum.Cardinality)
    (hB : B.length = 4 * pd.DomainNum.Cardinality)
    (hu : orderOf pd.DomainNum.FinerGenerator = 8 * pd.DomainNum.Cardinality)
    (hg : pd.DomainNum.Generator ^ pd.DomainNum.Cardinality = 1) :
    ∃ h, computeHEvals alpha pd G P B = some h ∧
      computeH env alpha pd G P B = some (env.fftInverse pd.DomainH h 1) ∧
      h.length = 4 * pd.DomainNum.Cardinality ∧
      (∀ j, j < 4 * pd.DomainNum.Cardinality → ∃ hj, h[j]? = some hj ∧
        hj * (cosetPoint pd.DomainNum j ^ pd.DomainNum.Cardinality - 1)
          = G[j]?.getD 0 + alpha * P[j]?.getD 0 + alpha ^ 2 * B[j]?.getD 0) ∧
      ((∀ j, j < 4 * pd.DomainNum.Cardinality →
          some (Poly.Eval (env.fftInverse pd.DomainH h 1) (cosetPoint pd.DomainNum j)) = h[j]?) →
        ∀ j, j < 4 * pd.DomainNum.Cardinality →
          Poly.Eval (env.fftInverse pd.DomainH h 1) (cosetPoint pd.DomainNum j)
              * (cosetPoint pd.DomainNum j ^ pd.DomainNum.Cardinality - 1)
            = G[j]?.getD 0 + alpha * P[j]?.getD 0 + alpha ^ 2 * B[j]?.getD 0) := by
  obtain ⟨h, hh, hl, hv⟩ := computeHEvals_spec alpha pd G P B hG hP hB
  have key : ∀ j, j < 4 * pd.DomainNum.Cardinality → ∃ hj, h[j]? = some hj ∧
      hj * (cosetPoint pd.DomainNum j ^ pd.DomainNum.Cardinality - 1)
        = G[j]?.getD 0 + alpha * P[j]?.getD 0 + alpha ^ 2 * B[j]?.getD 0 := by
    intro j hj
    refine ⟨_, hv j hj, ?_⟩
    have e1 := vanishingOnCosets_eq pd (j % 4) (Nat.mod_lt _ (by omega))
    have e2 : (pd.DomainNum.FinerGenerator ^ (2 * (j % 4) + 1)) ^ pd.DomainNum.Cardinality - 1
        ≠ 0 := sub_ne_zero.mpr (pow_odd_mul_ne_one _ _ hN hu (j % 4))
    rw [cosetPoint_pow _ hg, e1, mul_assoc, inv_mul_cancel₀ e2]
    ring
  refine ⟨h, hh, by simp [computeH, hh], hl, key, ?_⟩
  intro hint j hj
  obtain ⟨x, hx, hxe⟩ := key j hj
  have := hint j hj
  rw [hx] at this
  rw [Option.some.inj this]
  exact hxe

theorem computeH_quotient_witness :
    ∃ h, computeHEvals 3 pd17 [1, 2, 3, 4] [0, 5, 6, 7] [0, 0, 1, 2] = some h ∧
      computeH env17 3 pd17 [1, 2, 3, 4] [0, 5, 6, 7] [0, 0, 1, 2]
        = some (env17.fftInverse pd17.DomainH h 1) ∧
      h.length = 4 * pd17.DomainNum.Cardinality ∧
      (∀ j, j < 4 * pd17.DomainNum.Cardinality → ∃ hj, h[j]? = some hj ∧
        hj * (cosetPoint pd17.DomainNum j ^ pd17.DomainNum.Cardinality - 1)
          = [(1 : F17), 2, 3, 4][j]?.getD 0 + 3 * [(0 : F17), 5, 6, 7][j]?.getD 0
            + 3 ^ 2 * [(0 : F17), 0, 1, 2][j]?.getD 0) ∧
      (∀ j, j < 4 * pd17.DomainNum.Cardinality →
        Poly.Eval (env17.fftInverse pd17.DomainH h 1) (cosetPoint pd17.DomainNum j)
            * (cosetPoint pd17.DomainNum j ^ pd17.DomainNum.Cardinality - 1)
          = [(1 : F17), 2, 3, 4][j]?.getD 0 + 3 * [(0 : F17), 5, 6, 7][j]?.getD 0
            + 3 ^ 2 * [(0 : F17), 0, 1, 2][j]?.getD 0) :=
  (computeH_quotient env17 3 pd17 [1, 2, 3, 4] [0, 5, 6, 7] [0, 0, 1, 2] (by decide) rfl rfl
    rfl orderOf_two_F17 (by decide)).imp fun h hh =>
    ⟨hh.1, hh.2.1, hh.2.2.1, hh.2.2.2.1, hh.2.2.2.2 (by
      have hc : computeHEvals 3 pd17 [1, 2, 3, 4] [0, 5, 6, 7] [0, 0, 1, 2]
          = some [1, 0, 7, 16] := by decide
      have he : h = [1, 0, 7, 16] := Option.some.inj (hh.1.symm.trans hc)
      subst he
      intro j hj
      have hj' : j < 4 := hj
      interval_cases j <;> decide)⟩

/-- C18, as stated, fails. Over `ℚ` with `γ = 0`, `l = [1, 1, 1]` and `LS1 = [-1, 1, 1]` the
denominator of step `0` is zero (`l_0 + LS1_0 + γ = 0`), and `ComputeZ` still returns a value
for `Z`, namely `[1, 0, 0]`: no failure is surfaced. -/
theorem ComputeZ_zero_denominator_counterexample :
    zDen (0 : ℚ) [1, 1, 1] [2, 3, 1] [3, 5, 1] zeroDenData.LS1 zeroDenData.LS2 zeroDenData.LS3 0
      = 0 ∧
    ComputeZ (0 : ℚ) [1, 1, 1] [2, 3, 1] [3, 5, 1] zeroDenData = some [1, 0, 0] := by
  refine ⟨by norm_num [zDen, zeroDenData], ?_⟩
  simp [ComputeZ, ComputeZBody, forLoop, store, zeroDenData]

/-- C18, amended. `ComputeZ` has no failure path: for `l`, `r`, `o`, `LS1`, `LS2`, `LS3` of
length `N ≥ 1` it returns a value for `Z` whatever the denominators are, and when the
denominator of a step `i` with `i + 1 < N` is zero, `z[j] = 0` for every `j > i` (the inverse of
`0` in the field library is `0`). -/
theorem ComputeZ_zero_denominator {F : Type} [Field F] (gamma : F) (l r o : List F)
    (pd : PublicRaw F)
    (hN : 1 ≤ pd.DomainNum.Cardinality)
    (hl : l.length = pd.DomainNum.Cardinality) (hr : r.length = pd.DomainNum.Cardinality)
    (ho : o.length = pd.DomainNum.Cardinality)
    (h1 : pd.LS1.length = pd.DomainNum.Cardinality)
    (h2 : pd.LS2.length = pd.DomainNum.Cardinality)
    (h3 : pd.LS3.length = pd.DomainNum.Cardinality) :
    ∃ z, ComputeZ gamma l r o pd = some z ∧ z.length = pd.DomainNum.Cardinality ∧
      ∀ i, i + 1 < pd.DomainNum.Cardinality →
        zDen gamma l r o pd.LS1 pd.LS2 pd.LS3 i = 0 →
        ∀ j, i < j → j < pd.DomainNum.Cardinality → z[j]? = some 0 := by
  obtain ⟨z, hz, hlen, hv⟩ := ComputeZ_spec gamma l r o pd hN hl hr ho h1 h2 h3
  refine ⟨z, hz, hlen, ?_⟩
  intro i _ hden j hij hj
  rw [hv j hj]
  congr 1
  exact Finset.prod_eq_zero (Finset.mem_range.mpr hij) (by rw [hden, div_zero])

theorem ComputeZ_zero_denominator_witness :
    ∃ z, ComputeZ 0 [1, 1, 1] [2, 3, 1] [3, 5, 1] zeroDenData = some z ∧
      z.length = zeroDenData.DomainNum.Cardinality ∧ z[1]? = some 0 ∧ z[2]? = some 0 :=
  (ComputeZ_zero_denominator 0 [1, 1, 1] [2, 3, 1] [3, 5, 1] zeroDenData (by decide) rfl rfl
    rfl rfl rfl rfl).imp fun _ h =>
    ⟨h.1, h.2.1,
      h.2.2 0 (by decide) (by norm_num [zDen, zeroDenData]) 1 (by decide) (by decide),
      h.2.2 0 (by decide) (by norm_num [zDen, zeroDenData]) 2 (by decide) (by decide)⟩

/-! ## The proof record (C17, C19) and the quotient without gates (C20) -/

/-- C17, as stated, fails. The solver of `env17Unsolved` reports an unsatisfied constraint for
the system `spr17`, and `ProveRaw` still returns a proof, with the claimed values
`(0, 5, 5, 7, 1)`: no failure is surfaced. -/
theorem ProveRaw_unsolved_counterexample :
    (env17Unsolved.solve spr17 ()).2 = some "constraint is not satisfied" ∧
    ∃ proof, ProveRaw env17Unsolved ch17 spr17 pd17 () = some proof ∧
      proof.LROHZ = (0, 5, 5, 7, 1) :=
  ⟨rfl, _, rfl, by decide⟩

/-- C17, amended. `ProveRaw` discards the error of the solver (`solution, _ := spr.Solve(...)`)
and has no error result: whatever the solver reports, `ProveRaw` returns what it returns for
the same solution without an error, and it returns a proof exactly when the computation of the
polynomials from the solution the solver handed back does not panic. -/
theorem ProveRaw_ignores_solver_error {F W E BO OP : Type} [Field F]
    (env : ProverCollaborators F W E BO OP) (err : bls381.SparseR1CS → W → Option E)
    (ch : Challenges F) (spr : bls381.SparseR1CS) (pd : PublicRaw F) (witness : W) :
    ProveRaw { env with solve := fun s w => ((env.solve s w).1, err s w) } ch spr pd witness
      = ProveRaw env ch spr pd witness ∧
    (ProveRaw env ch spr pd witness).isSome
      = (proverPolynomials env ch spr pd (env.solve spr witness).1).isSome := by
  refine ⟨rfl, ?_⟩
  simp only [ProveRaw, Option.bind_eq_bind]
  cases h : proverPolynomials env ch spr pd (env.solve spr witness).1 <;> simp

/-- The fields of the proof that `ProveRaw` returns, in terms of the polynomials computed on
the way: the first claimed value is the evaluation of `partialL`, the first polynomial of the
batch opening is `l`. -/
theorem ProveRaw_fields {F W E BO OP : Type} [Field F]
    (env : ProverCollaborators F W E BO OP) (ch : Challenges F) (spr : bls381.SparseR1CS)
    (pd : PublicRaw F) (witness : W) (proof : ProofRaw F BO OP)
    (h : ProveRaw env ch spr pd witness = some proof) :
    ∃ p, proverPolynomials env ch spr pd (env.solve spr witness).1 = some p ∧
      proof.LROHZ = (Poly.Eval p.partialL ch.zeta, Poly.Eval p.r ch.zeta,
        Poly.Eval p.o ch.zeta, Poly.Eval p.h ch.zeta, Poly.Eval p.z ch.zeta) ∧
      proof.ZShift = Poly.Eval p.z (ch.zeta * pd.DomainNum.Generator) ∧
      proof.BatchOpenings
        = env.BatchOpenSinglePoint ch.zeta ch.vBundle [p.l, p.r, p.o, p.h, p.z] ∧
      proof.OpeningZShift = env.Open (ch.zeta * pd.DomainNum.Generator) p.z := by
  simp only [ProveRaw, Option.bind_eq_bind, Option.bind_eq_some] at h
  obtain ⟨p, hp, hq⟩ := h
  cases hq
  exact ⟨p, hp, rfl, rfl, rfl, rfl⟩

/-- C19 at a concrete input: the system `spr17` with one public variable and no gate, the
solution `[5]`. The polynomials are `l = r = o = 5`, `partialL = 0`, `h = 5 + 12X + 15X² + 11X³`,
`z = 1`; the batch opening is for `l, r, o, h, z`, and the claimed values are
`(0, 5, 5, 7, 1)`: the first one is `partialL(ζ) = 0`, not `l(ζ) = 5`. The other four are the
values of `r`, `o`, `h`, `z` at `ζ`, and `ZShift` is `z(g·ζ)`. -/
theorem ProveRaw_claimed_values_example :
    ∃ p proof, proverPolynomials env17 ch17 spr17 pd17 (env17.solve spr17 ()).1 = some p ∧
      ProveRaw env17 ch17 spr17 pd17 () = some proof ∧
      proof.BatchOpenings
        = env17.BatchOpenSinglePoint ch17.zeta ch17.vBundle [p.l, p.r, p.o, p.h, p.z] ∧
      p.l = [5] ∧ p.partialL = [0] ∧
      proof.LROHZ = (0, 5, 5, 7, 1) ∧
      Poly.Eval p.l ch17.zeta = 5 ∧ Poly.Eval p.partialL ch17.zeta = 0 ∧
      proof.LROHZ.1 ≠ Poly.Eval p.l ch17.zeta ∧
      proof.LROHZ.2 = (Poly.Eval p.r ch17.zeta, Poly.Eval p.o ch17.zeta,
        Poly.Eval p.h ch17.zeta, Poly.Eval p.z ch17.zeta) ∧
      proof.ZShift = Poly.Eval p.z (ch17.zeta * pd17.DomainNum.Generator) :=
  ⟨_, _, rfl, rfl, rfl, by decide, by decide, by decide, by decide, by decide, by decide,
    by decide, by decide⟩

/-- C20, as stated, fails. The system `spr17` has no gate and one public input; `pd17` holds
the selectors and permutation polynomials that the setup computes for it. For the solution
`[0]` the gate and boundary identities vanish on the coset, the permutation identity does not,
and the quotient is `H = 5 + 8X + 4X²`, which is not the zero polynomial. -/
theorem computeH_no_gates_counterexample :
    spr17.NbPublicVariables = 1 ∧ spr17.Constraints = [] ∧ spr17.Assertions = [] ∧
    (∃ t, lagrangeTrace setupSpr17 pd17.DomainNum = some t ∧
      (t.Ql, t.Qr, t.Qm, t.Qo, t.Qk) = (pd17.Ql, pd17.Qr, pd17.Qm, pd17.Qo, pd17.Qk) ∧
      (t.S1, t.S2, t.S3) = (pd17.LS1, pd17.LS2, pd17.LS3) ∧
      (env17Zero.fftInverse pd17.DomainNum t.S1 0, env17Zero.fftInverse pd17.DomainNum t.S2 0,
        env17Zero.fftInverse pd17.DomainNum t.S3 0) = (pd17.CS1, pd17.CS2, pd17.CS3)) ∧
    ∃ p, proverPolynomials env17Zero ch17 spr17 pd17 (env17Zero.solve spr17 ()).1 = some p ∧
      p.h = [5, 8, 4, 0] ∧ Poly.Eval p.h 0 = 5 ∧ ¬ ∀ c ∈ p.h, c = 0 :=
  ⟨rfl, rfl, rfl, ⟨_, rfl, by decide, by decide, by decide⟩,
    ⟨_, rfl, by decide, by decide, by decide⟩⟩

/-- C20, amended. For a circuit with no gates and only public inputs, as for every circuit,
`computeH` returns the inverse FFT `H` of the values `h_j = (G_j + α·P_j + α²·B_j)/(x_j^N - 1)`
on the coset (`G`, `P`, `B` the values of the gate, permutation and boundary identities, of
length `4N`, `N ≥ 1`, the finer generator of order `8N`). All the `h_j` are zero exactly when
`G_j + α·P_j + α²·B_j = 0` at every sample point `j`, and so, for an inverse FFT that sends only
the zero vector to the zero polynomial, `H` is the zero polynomial exactly in that case. -/
theorem computeH_zero_iff {F W E BO OP : Type} [Field F]
    (env : ProverCollaborators F W E BO OP) (alpha : F) (pd : PublicRaw F) (G P B : List F)
    (hN : 1 ≤ pd.DomainNum.Cardinality)
    (hG : G.length = 4 * pd.DomainNum.Cardinality)
    (hP : P.length = 4 * pd.DomainNum.Cardinality)
    (hB : B.length = 4 * pd.DomainNum.Cardinality)
    (hu : orderOf pd.DomainNum.FinerGenerator = 8 * pd.DomainNum.Cardinality) :
    ∃ h H, computeHEvals alpha pd G P B = some h ∧ computeH env alpha pd G P B = some H ∧
      H = env.fftInverse pd.DomainH h 1 ∧
      ((∀ c ∈ h, c = 0) ↔ ∀ j, j < 4 * pd.DomainNum.Cardinality →
        G[j]?.getD 0 + alpha * P[j]?.getD 0 + alpha ^ 2 * B[j]?.getD 0 = 0) ∧
      (((∀ c ∈ H, c = 0) ↔ ∀ c ∈ h, c = 0) →
        ((∀ c ∈ H, c = 0) ↔ ∀ j, j < 4 * pd.DomainNum.Cardinality →
          G[j]?.getD 0 + alpha * P[j]?.getD 0 + alpha ^ 2 * B[j]?.getD 0 = 0)) := by
  obtain ⟨h, hh, hl, hv⟩ := computeHEvals_spec alpha pd G P B hG hP hB
  have hinv : ∀ j, (cosetComponent (vanishingOnCosets pd) (j % 4))⁻¹ ≠ 0 := by
    intro j
    rw [vanishingOnCosets_eq pd (j % 4) (Nat.mod_lt _ (by omega))]
    exact inv_ne_zero (sub_ne_zero.mpr (pow_odd_mul_ne_one _ _ hN hu (j % 4)))
  have key : (∀ c ∈ h, c = 0) ↔ ∀ j, j < 4 * pd.DomainNum.Cardinality →
      G[j]?.getD 0 + alpha * P[j]?.getD 0 + alpha ^ 2 * B[j]?.getD 0 = 0 := by
    constructor
    · intro hz j hj
      have h0 := hz _ (List.getElem?_mem (hv j hj))
      rcases mul_eq_zero.mp h0 with h1 | h1
      · linear_combination h1
      · exact absurd h1 (hinv j)
    · intro hz c hc
      obtain ⟨j, hj⟩ := List.mem_iff_getElem?.mp hc
      have hjl : j < 4 * pd.DomainNum.Cardinality := by
        rw [← hl]; exact (List.getElem?_eq_some_iff.mp hj).1
      have e := hv j hjl
      rw [hj] at e
      rw [Option.some.inj e]
      have h1 := hz j hjl
      have h2 : (B[j]?.getD 0 * alpha + P[j]?.getD 0) * alpha + G[j]?.getD 0 = 0 := by
        linear_combination h1
      rw [h2, zero_mul]
  exact ⟨h, _, hh, by simp [computeH, hh], rfl, key, fun hf => hf.trans key⟩

theorem computeH_zero_iff_witness :
    ∃ h H, computeHEvals 3 pd17 [0, 0, 0, 0] [1, 16, 12, 4] [0, 0, 0, 0] = some h ∧
      computeH env17 3 pd17 [0, 0, 0, 0] [1, 16, 12, 4] [0, 0, 0, 0] = some H ∧
      H = env17.fftInverse pd17.DomainH h 1 ∧
      ((∀ c ∈ H, c = 0) ↔ ∀ j, j < 4 * pd17.DomainNum.Cardinality →
        [(0 : F17), 0, 0, 0][j]?.getD 0 + 3 * [(1 : F17), 16, 12, 4][j]?.getD 0
          + 3 ^ 2 * [(0 : F17), 0, 0, 0][j]?.getD 0 = 0) :=
  (computeH_zero_iff env17 3 pd17 [0, 0, 0, 0] [1, 16, 12, 4] [0, 0, 0, 0] (by decide) rfl rfl
    rfl orderOf_two_F17).imp fun h hh => hh.imp fun H hH =>
    ⟨hH.1, hH.2.1, hH.2.2.1, hH.2.2.2.2 (by
      have hc : computeHEvals 3 pd17 [0, 0, 0, 0] [1, 16, 12, 4] [0, 0, 0, 0]
          = some [3, 2, 5, 10] := by decide
      have he : h = [3, 2, 5, 10] := Option.some.inj (hH.1.symm.trans hc)
      have hE : H = [5, 8, 4, 0] := by rw [hH.2.2.1, he]; decide
      subst he hE
      decide)⟩

/-! ## The placeholder rows in the keys (C21) -/

/-- What a successful `Setup` has computed: the trace `t1` of `BuildTrace`, the Lagrange trace
`t` of steps 2 and 3 with the selectors of `t1`, the canonical forms stored in the proving key
and the digests of `Ql`, `Qr`, `Qm`, `Qo`, `Qk` in the verifying key. -/
theorem Setup_success_trace {F D G1 KV E : Type} [Field F] [Inhabited D]
    (env : Collaborators F D G1 E) (spr : SparseR1CS F) (kzgSrs : SRS G1 KV)
    (pk : ProvingKey F D G1 KV) (vk : VerifyingKey F D KV)
    (h : Setup env spr kzgSrs = some (some pk, some vk, none)) :
    ∃ t1 t, BuildTrace spr ⟨[], [], [], [], [], [], [], [], [], []⟩ = some t1 ∧
      lagrangeTrace spr (initDomains env.gens spr).1 = some t ∧
      (t.Ql = t1.Ql ∧ t.Qr = t1.Qr ∧ t.Qm = t1.Qm ∧ t.Qo = t1.Qo ∧ t.Qk = t1.Qk) ∧
      (pk.trace.Ql = env.toCanonical (initDomains env.gens spr).1 t.Ql ∧
        pk.trace.Qr = env.toCanonical (initDomains env.gens spr).1 t.Qr ∧
        pk.trace.Qm = env.toCanonical (initDomains env.gens spr).1 t.Qm ∧
        pk.trace.Qo = env.toCanonical (initDomains env.gens spr).1 t.Qo ∧
        pk.trace.Qk = env.toCanonical (initDomains env.gens spr).1 t.Qk) ∧
      (env.commit pk.trace.Ql kzgSrs.Pk = Except.ok vk.Ql ∧
        env.commit pk.trace.Qr kzgSrs.Pk = Except.ok vk.Qr ∧
        env.commit pk.trace.Qm kzgSrs.Pk = Except.ok vk.Qm ∧
        env.commit pk.trace.Qo kzgSrs.Pk = Except.ok vk.Qo ∧
        env.commit pk.trace.Qk kzgSrs.Pk = Except.ok vk.Qk) := by
  simp only [Setup, Option.bind_eq_bind] at h
  split at h
  · cases h
  · simp only [Option.bind_eq_some] at h
    obtain ⟨t1, h1, t2, h2, s, h3, hm⟩ := h
    have h2' : ∃ S, t2 = { t1 with S := S } := by
      simp only [buildPermutation, Option.bind_eq_bind, Option.bind_eq_some] at h2
      obtain ⟨S, _, hS⟩ := h2
      exact ⟨S, (Option.some.inj hS).symm⟩
    obtain ⟨S, rfl⟩ := h2'
    refine ⟨t1, { ({ t1 with S := S } : Trace F) with S1 := s.1, S2 := s.2.1, S3 := s.2.2 },
      h1, ?_, ⟨rfl, rfl, rfl, rfl, rfl⟩, ?_⟩
    · simp [lagrangeTrace, h1, h2, h3]
    · have hc := commitTrace_spec env
        { ({ t1 with S := S } : Trace F) with S1 := s.1, S2 := s.2.1, S3 := s.2.2 }
        (initDomains env.gens spr).1 kzgSrs.Pk
        ({ Size := (initDomains env.gens spr).1.Cardinality
           SizeInv := (((initDomains env.gens spr).1.Cardinality : Nat) : F)⁻¹
           Generator := (initDomains env.gens spr).1.Generator
           NbPublicVariables := spr.Public.length
           Kzg := kzgSrs.Vk
           CosetShift := (initDomains env.gens spr).1.FrMultiplicativeGen
           S := (default, default, default)
           Ql := default, Qr := default, Qm := default, Qo := default, Qk := default
           Qcp := []
           CommitmentConstraintIndexes := env.commitmentWireIndexes spr.CommitmentInfo } :
          VerifyingKey F D KV)
      split at hm
      · cases hm
      · rename_i tr vk2 heq
        rw [heq] at hc
        simp only [Option.bind_eq_some] at hm
        obtain ⟨pk2, hpk, hr⟩ := hm
        obtain ⟨k1, k2⟩ := computeLagrangeCosetPolys_keeps env _ pk2 hpk
        simp only [Option.some.injEq, Prod.mk.injEq, and_true] at hr
        obtain ⟨r1, r2⟩ := hr
        subst r1
        simp only [k1] at r2
        subst r2
        rw [k2]
        obtain ⟨⟨a1, a2, a3, a4, a5, _⟩, ⟨b1, b2, b3, b4, b5, _⟩, _⟩ := hc
        simp only at a1 a2 a3 a4 a5 b1 b2 b3 b4 b5 ⊢
        exact ⟨⟨a1, a2, a3, a4, a5⟩, by rw [a1]; exact b1, by rw [a2]; exact b2,
          by rw [a3]; exact b3, by rw [a4]; exact b4, by rw [a5]; exact b5⟩

/-- The rows of the public inputs in the selectors that `BuildTrace` returns. -/
theorem BuildTrace_placeholders {F : Type} [Field F] (spr : SparseR1CS F) (pt pt' : Trace F)
    (h : BuildTrace spr pt = some pt') (i : Nat) (hi : i < spr.Public.length) :
    pt'.Ql[i]? = some (-1) ∧ pt'.Qr[i]? = some 0 ∧ pt'.Qm[i]? = some 0 ∧
      pt'.Qo[i]? = some 0 ∧ pt'.Qk[i]? = some 0 := by
  obtain ⟨sel, hsel, a, b, c, d, e, _⟩ := BuildTrace_of_some spr pt pt' h
  obtain ⟨⟨_, a2⟩, ⟨_, b2⟩, ⟨_, c2⟩, ⟨_, d2⟩, ⟨_, e2⟩⟩ := buildSelectors_of_some spr hsel
  have hsize := le_nextPowerOfTwo (spr.GetNbConstraints + spr.Public.length)
  have hiN : i < nextPowerOfTwo (spr.GetNbConstraints + spr.Public.length) := by omega
  have hlt : i < spr.Public.length + spr.Constraints.length := by omega
  rw [a, b, c, d, e, a2 i hiN, b2 i hiN, c2 i hiN, d2 i hiN, e2 i hiN]
  simp only [if_pos hlt, selectorRow_public spr _ _ hi, and_self]

/-- C21, as stated, fails. For the example system, with one public input, `Setup` succeeds and
the first Lagrange entry of `Ql` (here also the entry stored in the proving key, the basis
change of the example being the identity) is `-1`, not `1`. -/
theorem Setup_public_rows_counterexample :
    exampleSpr.Public.length = 1 ∧
    ∃ pk vk t, Setup exampleEnv exampleSpr fullSrs = some (some pk, some vk, none) ∧
      lagrangeTrace exampleSpr (initDomains exampleEnv.gens exampleSpr).1 = some t ∧
      t.Ql = [-1, 0, 0, 0] ∧ pk.trace.Ql = [-1, 0, 0, 0] ∧ t.Ql[0]? ≠ some 1 :=
  ⟨rfl, _, _, _, rfl, rfl, rfl, rfl, by decide⟩

/-- C21, amended. The `ql` polynomial stored in the proving key and committed in the verifying
key is prepended with as many entries `-1` (a one with the sign that makes the placeholder row
read `-PUB_i + qk_i = 0`) as there are public inputs: whenever `Setup` succeeds, the first `P`
Lagrange entries of `Ql` produced by `BuildTrace` are `-1` and those of `qr`, `qm`, `qo`, `qk`
are `0`; the proving key stores the canonical forms of these columns and the verifying key
their commitments. -/
theorem Setup_public_rows {F D G1 KV E : Type} [Field F] [Inhabited D]
    (env : Collaborators F D G1 E) (spr : SparseR1CS F) (kzgSrs : SRS G1 KV)
    (pk : ProvingKey F D G1 KV) (vk : VerifyingKey F D KV)
    (h : Setup env spr kzgSrs = some (some pk, some vk, none)) :
    ∃ t, lagrangeTrace spr (initDomains env.gens spr).1 = some t ∧
      (∀ i, i < spr.Public.length →
        t.Ql[i]? = some (-1) ∧ t.Qr[i]? = some 0 ∧ t.Qm[i]? = some 0 ∧
        t.Qo[i]? = some 0 ∧ t.Qk[i]? = some 0) ∧
      (pk.trace.Ql = env.toCanonical (initDomains env.gens spr).1 t.Ql ∧
        pk.trace.Qr = env.toCanonical (initDomains env.gens spr).1 t.Qr ∧
        pk.trace.Qm = env.toCanonical (initDomains env.gens spr).1 t.Qm ∧
        pk.trace.Qo = env.toCanonical (initDomains env.gens spr).1 t.Qo ∧
        pk.trace.Qk = env.toCanonical (initDomains env.gens spr).1 t.Qk) ∧
      (env.commit pk.trace.Ql kzgSrs.Pk = Except.ok vk.Ql ∧
        env.commit pk.trace.Qr kzgSrs.Pk = Except.ok vk.Qr ∧
        env.commit pk.trace.Qm kzgSrs.Pk = Except.ok vk.Qm ∧
        env.commit pk.trace.Qo kzgSrs.Pk = Except.ok vk.Qo ∧
        env.commit pk.trace.Qk kzgSrs.Pk = Except.ok vk.Qk) := by
  obtain ⟨t1, t, h1, ht, ⟨e1, e2, e3, e4, e5⟩, hpk, hvk⟩ :=
    Setup_success_trace env spr kzgSrs pk vk h
  refine ⟨t, ht, ?_, hpk, hvk⟩
  intro i hi
  rw [e1, e2, e3, e4, e5]
  exact BuildTrace_placeholders spr _ t1 h1 i hi

theorem Setup_public_rows_witness :
    ∃ pk vk, Setup exampleEnv exampleSpr fullSrs = some (some pk, some vk, none) ∧
      ∃ t, lagrangeTrace exampleSpr (initDomains exampleEnv.gens exampleSpr).1 = some t ∧
        (∀ i, i < exampleSpr.Public.length →
          t.Ql[i]? = some (-1) ∧ t.Qr[i]? = some 0 ∧ t.Qm[i]? = some 0 ∧
          t.Qo[i]? = some 0 ∧ t.Qk[i]? = some 0) ∧
        exampleEnv.commit pk.trace.Ql fullSrs.Pk = Except.ok vk.Ql := by
  obtain ⟨pk, vk, h⟩ :
      ∃ pk vk, Setup exampleEnv exampleSpr fullSrs = some (some pk, some vk, none) :=
    ⟨_, _, rfl⟩
  exact ⟨pk, vk, h, (Setup_public_rows exampleEnv exampleSpr fullSrs pk vk h).imp
    fun _ h => ⟨h.1, h.2.1, h.2.2.2.1⟩⟩

/-! ## The closed form of the copy permutation and its first pass (C22, C23) -/

/-- The closed form `nextSlot` in words: the previous slot with the same label if there is
one, else the last slot with that label; a fixed point exactly for a label held once. -/
theorem nextSlot_closed_form {lro : List Nat} {i : Nat} (hi : i < lro.length) :
    nextSlot lro i < lro.length ∧ lro[nextSlot lro i]? = lro[i]? ∧
    ((∃ j, j < i ∧ lro[j]? = lro[i]?) →
      nextSlot lro i < i ∧ ∀ j, j < i → lro[j]? = lro[i]? → j ≤ nextSlot lro i) ∧
    ((∀ j, j < i → lro[j]? ≠ lro[i]?) →
      i ≤ nextSlot lro i ∧ ∀ j, j < lro.length → lro[j]? = lro[i]? → j ≤ nextSlot lro i) ∧
    (nextSlot lro i = i ↔ ∀ j, j < lro.length → lro[j]? = lro[i]? → j = i) := by
  obtain ⟨h1, h2⟩ := nextSlot_spec hi
  have hv : lro[i]? = some lro[i] := List.getElem?_eq_getElem hi
  refine ⟨h1, h2, ?_, ?_, ?_⟩
  · rintro ⟨j, hj, hje⟩
    rcases nextSlot_cases hi hv with ⟨s, hs, hse⟩ | ⟨hnone, _⟩
    · obtain ⟨a, b, c⟩ := lastBefore_some hs
      rw [hse]
      refine ⟨a, fun k hk hke => ?_⟩
      by_contra hlt
      exact c k (by omega) hk (by rw [hke, hv])
    · exact absurd (by rw [hje, hv]) (lastBefore_none hnone j hj)
  · intro hno
    rcases nextSlot_cases hi hv with ⟨s, hs, hse⟩ | ⟨hnone, s, hs, his, hse⟩
    · obtain ⟨a, b, c⟩ := lastBefore_some hs
      exact absurd (by rw [b, hv]) (hno s a)
    · obtain ⟨a, b, c⟩ := lastBefore_some hs
      rw [hse]
      refine ⟨his, fun k hk hke => ?_⟩
      by_contra hlt
      exact c k (by omega) hk (by rw [hke, hv])
  · constructor
    · intro hfix j hj hje
      rcases nextSlot_cases hi hv with ⟨s, hs, hse⟩ | ⟨hnone, s, hs, his, hse⟩
      · obtain ⟨a, b, c⟩ := lastBefore_some hs
        omega
      · obtain ⟨a, b, c⟩ := lastBefore_some hs
        have hje' : lro[j]? = some lro[i] := by rw [hje, hv]
        have h3 : ¬ j < i := fun hlt => lastBefore_none hnone j hlt hje'
        have h4 : ¬ s < j := fun hlt => c j hlt hj hje'
        omega
    · intro hsingle
      exact hsingle _ h1 h2

/-- C22. `buildPermutation` is a function of the slot labelling, with the slot index as
tie-break, and its result has this closed form: for every slot `i` of `[0, 3N)`, `S[i]` is a
slot `s` of `[0, 3N)` carrying the same variable as `i`; if some slot `j < i` carries the same
variable as `i` then `s` is the largest such `j` (the previous occurrence); otherwise (`i` is the
first occurrence) `s` is the largest slot overall carrying that variable (its last occurrence);
so `S[i] = i` exactly when the variable occupies a single slot. -/
theorem buildPermutation_closed_form {F : Type} (spr : SparseR1CS F) (pt : Trace F)
    (nbVariables : Nat)
    (hN : pt.Ql.length = nextPowerOfTwo (spr.GetNbConstraints + spr.Public.length))
    (hP : spr.Public.length ≤ nbVariables) (hpos : 1 ≤ nbVariables)
    (hw : ∀ c ∈ spr.Constraints,
      c.XA < nbVariables ∧ c.XB < nbVariables ∧ c.XC < nbVariables) :
    ∃ pt', buildPermutation spr pt nbVariables = some pt' ∧
      pt'.S.length = 3 * pt.Ql.length ∧
      ∀ i, i < 3 * pt.Ql.length → ∃ s : Nat, pt'.S[i]? = some (s : Int) ∧
        s < 3 * pt.Ql.length ∧
        wireAt spr pt.Ql.length s = wireAt spr pt.Ql.length i ∧
        ((∃ j, j < i ∧ wireAt spr pt.Ql.length j = wireAt spr pt.Ql.length i) →
          s < i ∧ ∀ j, j < i →
            wireAt spr pt.Ql.length j = wireAt spr pt.Ql.length i → j ≤ s) ∧
        ((∀ j, j < i → wireAt spr pt.Ql.length j ≠ wireAt spr pt.Ql.length i) →
          i ≤ s ∧ ∀ j, j < 3 * pt.Ql.length →
            wireAt spr pt.Ql.length j = wireAt spr pt.Ql.length i → j ≤ s) ∧
        (s = i ↔ ∀ j, j < 3 * pt.Ql.length →
          wireAt spr pt.Ql.length j = wireAt spr pt.Ql.length i → j = i) := by
  have hsize : spr.Public.length + spr.Constraints.length ≤ pt.Ql.length := by
    rw [hN, SparseR1CS.GetNbConstraints, Nat.add_comm]; exact le_nextPowerOfTwo _
  obtain ⟨lro, S, hl, hS, hlen, hlro, hSlen, hSv⟩ :=
    permutationArray_spec spr pt.Ql.length nbVariables hsize hP hpos hw
  have heq : ∀ j i, j < 3 * pt.Ql.length → i < 3 * pt.Ql.length →
      (lro[j]? = lro[i]? ↔ wireAt spr pt.Ql.length j = wireAt spr pt.Ql.length i) := by
    intro j i hj hi
    rw [hlro j hj, hlro i hi]
    exact ⟨fun h => Option.some.inj h, fun h => by rw [h]⟩
  refine ⟨{ pt with S := S }, by simp [buildPermutation, hS], hSlen, ?_⟩
  intro i hi
  obtain ⟨c1, c2, c3, c4, c5⟩ := @nextSlot_closed_form lro i (by omega)
  rw [hlen] at c1 c4 c5
  refine ⟨nextSlot lro i, hSv i hi, c1, (heq _ _ c1 hi).mp c2, ?_, ?_, ?_⟩
  · rintro ⟨j, hj, hje⟩
    obtain ⟨d1, d2⟩ := c3 ⟨j, hj, (heq j i (by omega) hi).mpr hje⟩
    exact ⟨d1, fun k hk hke => d2 k hk ((heq k i (by omega) hi).mpr hke)⟩
  · intro hno
    obtain ⟨d1, d2⟩ := c4 (fun j hj hje => hno j hj ((heq j i (by omega) hi).mp hje))
    exact ⟨d1, fun k hk hke => d2 k hk ((heq k i hk hi).mpr hke)⟩
  · rw [c5]
    constructor
    · intro h j hj hje
      exact h j hj ((heq j i hj hi).mpr hje)
    · intro h j hj hje
      exact h j hj ((heq j i hj hi).mp hje)

theorem buildPermutation_closed_form_witness :
    ∃ pt', buildPermutation exampleSpr exampleTrace 4 = some pt' ∧
      pt'.S.length = 3 * exampleTrace.Ql.length ∧
      ∀ i, i < 3 * exampleTrace.Ql.length → ∃ s : Nat, pt'.S[i]? = some (s : Int) ∧
        s < 3 * exampleTrace.Ql.length ∧
        wireAt exampleSpr exampleTrace.Ql.length s
          = wireAt exampleSpr exampleTrace.Ql.length i ∧
        ((∃ j, j < i ∧ wireAt exampleSpr exampleTrace.Ql.length j
            = wireAt exampleSpr exampleTrace.Ql.length i) →
          s < i ∧ ∀ j, j < i →
            wireAt exampleSpr exampleTrace.Ql.length j
              = wireAt exampleSpr exampleTrace.Ql.length i → j ≤ s) ∧
        ((∀ j, j < i → wireAt exampleSpr exampleTrace.Ql.length j
            ≠ wireAt exampleSpr exampleTrace.Ql.length i) →
          i ≤ s ∧ ∀ j, j < 3 * exampleTrace.Ql.length →
            wireAt exampleSpr exampleTrace.Ql.length j
              = wireAt exampleSpr exampleTrace.Ql.length i → j ≤ s) ∧
        (s = i ↔ ∀ j, j < 3 * exampleTrace.Ql.length →
          wireAt exampleSpr exampleTrace.Ql.length j
            = wireAt exampleSpr exampleTrace.Ql.length i → j = i) :=
  buildPermutation_closed_form exampleSpr exampleTrace 4 (by decide) (by decide)
    (by decide) (by decide)

theorem enc_eq_neg_one (x : Option Nat) : enc x = -1 ↔ x = none := by
  cases x with
  | none => simp [enc]
  | some j =>
    simp only [enc, reduceCtorEq, iff_false]

/-- C23, as stated, fails. In the example system the slot `0` is still unassigned (`-1`)
after the first pass, and it is not the last occurrence of its variable `0`: the slot `1`
carries the same variable. It is the first occurrence. -/
theorem firstPass_unassigned_counterexample :
    ∃ lro st, buildLRO exampleSpr exampleTrace.Ql.length = some lro ∧
      forLoop (firstPassBody lro)
        (List.replicate (3 * exampleTrace.Ql.length) (-1), List.replicate 4 (-1)) lro.length
        = some st ∧
      st.1 = [-1, 0, -1, 1, 3, -1, 5, 4, 7, 2, -1, 8] ∧
      st.1[0]? = some (-1) ∧ lro[0]? = some 0 ∧ lro[1]? = some 0 :=
  ⟨_, _, rfl, rfl, rfl, rfl, rfl, rfl⟩

/-- C23, amended. In `buildPermutation`, after the first pass over the slots, a slot is still
unassigned (`-1`) exactly when it is the first occurrence of its variable (no slot with a
smaller index carries the same variable), and for such a slot `cycle` holds the last occurrence
of the variable (no slot with a larger index carries it), which the second pass assigns to
it. -/
theorem firstPass_unassigned {F : Type} (spr : SparseR1CS F) (pt : Trace F)
    (nbVariables : Nat)
    (hN : pt.Ql.length = nextPowerOfTwo (spr.GetNbConstraints + spr.Public.length))
    (hP : spr.Public.length ≤ nbVariables) (hpos : 1 ≤ nbVariables)
    (hw : ∀ c ∈ spr.Constraints,
      c.XA < nbVariables ∧ c.XB < nbVariables ∧ c.XC < nbVariables) :
    ∃ lro st pt', buildLRO spr pt.Ql.length = some lro ∧
      forLoop (firstPassBody lro)
        (List.replicate (3 * pt.Ql.length) (-1), List.replicate nbVariables (-1)) lro.length
        = some st ∧
      forLoop (secondPassBody lro st.2) st.1 (3 * pt.Ql.length) = some pt'.S ∧
      buildPermutation spr pt nbVariables = some pt' ∧
      ∀ i, i < 3 * pt.Ql.length →
        (st.1[i]? = some (-1) ↔
          ∀ j, j < i → wireAt spr pt.Ql.length j ≠ wireAt spr pt.Ql.length i) ∧
        (st.1[i]? = some (-1) →
          ∃ m : Nat, st.2[wireAt spr pt.Ql.length i]? = some (m : Int) ∧
            pt'.S[i]? = some (m : Int) ∧ i ≤ m ∧ m < 3 * pt.Ql.length ∧
            wireAt spr pt.Ql.length m = wireAt spr pt.Ql.length i ∧
            ∀ k, m < k → k < 3 * pt.Ql.length →
              wireAt spr pt.Ql.length k ≠ wireAt spr pt.Ql.length i) := by
  have hsize : spr.Public.length + spr.Constraints.length ≤ pt.Ql.length := by
    rw [hN, SparseR1CS.GetNbConstraints, Nat.add_comm]; exact le_nextPowerOfTwo _
  obtain ⟨lro, hl, hlen, hlro⟩ := buildLRO_spec spr pt.Ql.length hsize
  have hlab : ∀ i, i < lro.length → lro[i]?.getD 0 < nbVariables := by
    intro i hi
    rw [hlro i (by omega)]
    exact wireAt_lt spr pt.Ql.length nbVariables hP hpos hw i
  obtain ⟨st, hst, hp, hc, hcv, hpv⟩ := firstPass_spec lro nbVariables hlab
  obtain ⟨S, hS, hSlen, hSv⟩ := secondPass_spec lro nbVariables st.1 st.2 hlab hp hcv hpv
  have hst2 : forLoop (firstPassBody lro)
      (List.replicate (3 * pt.Ql.length) (-1), List.replicate nbVariables (-1)) lro.length
      = some st := by
    rw [← hlen]; exact hst
  have hS2 : forLoop (secondPassBody lro st.2) st.1 (3 * pt.Ql.length) = some S := by
    rw [← hlen]; exact hS
  have hperm : permutationArray spr pt.Ql.length nbVariables = some S := by
    simp only [permutationArray, hl, Option.bind_eq_bind, Option.some_bind]
    rw [hst2, Option.some_bind, hS2]
  have hget : ∀ i, i < 3 * pt.Ql.length → lro[i]?.getD 0 = wireAt spr pt.Ql.length i := by
    intro i hi
    rw [hlro i hi]; rfl
  refine ⟨lro, st, { pt with S := S }, hl, hst2, hS2, by simp [buildPermutation, hperm], ?_⟩
  intro i hi
  have hpi := hpv i (by omega)
  rw [hget i hi] at hpi
  have hfirst : st.1[i]? = some (-1) ↔
      ∀ j, j < i → wireAt spr pt.Ql.length j ≠ wireAt spr pt.Ql.length i := by
    rw [hpi, Option.some.injEq, enc_eq_neg_one]
    constructor
    · intro hnone j hj hje
      exact lastBefore_none hnone j hj (by rw [hlro j (by omega), hje])
    · intro hno
      cases hlb : lastBefore lro (wireAt spr pt.Ql.length i) i with
      | none => rfl
      | some j =>
        obtain ⟨a, b, _⟩ := lastBefore_some hlb
        rw [hlro j (by omega)] at b
        exact absurd (Option.some.inj b) (hno j a)
  refine ⟨hfirst, fun hun => ?_⟩
  have hno := hfirst.mp hun
  have hv : lro[i]? = some (wireAt spr pt.Ql.length i) := hlro i hi
  obtain ⟨j, hj, hij⟩ := @lastBefore_of_mem lro (wireAt spr pt.Ql.length i) lro.length i
    (by omega) hv
  obtain ⟨a, b, c⟩ := lastBefore_some hj
  rw [hlen] at a
  have hwj : wireAt spr pt.Ql.length j = wireAt spr pt.Ql.length i := by
    rw [hlro j a] at b
    exact Option.some.inj b
  have hcyc := hcv (wireAt spr pt.Ql.length i)
    (wireAt_lt spr pt.Ql.length nbVariables hP hpos hw i)
  rw [hj] at hcyc
  have hSi := hSv i (by omega)
  have hnext : nextSlot lro i = j := by
    have hlb : lastBefore lro (wireAt spr pt.Ql.length i) i = none := by
      rw [← enc_eq_neg_one]
      rw [hpi] at hun
      exact Option.some.inj hun
    simp [nextSlot, hget i hi, hlb, hj]
  rw [hnext] at hSi
  refine ⟨j, hcyc, hSi, hij, a, hwj, fun k hjk hk hke => ?_⟩
  exact c k hjk (by omega) (by rw [hlro k hk, hke])

theorem firstPass_unassigned_witness :
    ∃ lro st pt', buildLRO exampleSpr exampleTrace.Ql.length = some lro ∧
      forLoop (firstPassBody lro)
        (List.replicate (3 * exampleTrace.Ql.length) (-1), List.replicate 4 (-1)) lro.length
        = some st ∧
      forLoop (secondPassBody lro st.2) st.1 (3 * exampleTrace.Ql.length) = some pt'.S ∧
      buildPermutation exampleSpr exampleTrace 4 = some pt' ∧
      ∀ i, i < 3 * exampleTrace.Ql.length →
        (st.1[i]? = some (-1) ↔
          ∀ j, j < i → wireAt exampleSpr exampleTrace.Ql.length j
            ≠ wireAt exampleSpr exampleTrace.Ql.length i) ∧
        (st.1[i]? = some (-1) →
          ∃ m : Nat, st.2[wireAt exampleSpr exampleTrace.Ql.length i]? = some (m : Int) ∧
            pt'.S[i]? = some (m : Int) ∧ i ≤ m ∧ m < 3 * exampleTrace.Ql.length ∧
            wireAt exampleSpr exampleTrace.Ql.length m
              = wireAt exampleSpr exampleTrace.Ql.length i ∧
            ∀ k, m < k → k < 3 * exampleTrace.Ql.length →
              wireAt exampleSpr exampleTrace.Ql.length k
                ≠ wireAt exampleSpr exampleTrace.Ql.length i) :=
  firstPass_unassigned exampleSpr exampleTrace 4 (by decide) (by decide) (by decide)
    (by decide)

/-! ## Room for the quotient in the large domain (C24) -/

/-- For a system of size `n ≥ 2` the large domain of `initDomains` has at least `3(n+2)`
points. -/
theorem initDomains_quotient_room {F : Type} (gens : Nat → F × F × F) (spr : SparseR1CS F)
    (hn : 2 ≤ spr.GetNbConstraints + spr.Public.length) :
    3 * (spr.GetNbConstraints + spr.Public.length + 2)
      ≤ (initDomains gens spr).2.Cardinality := by
  simp only [initDomains]
  split
  · have := le_nextPowerOfTwo (8 * (spr.GetNbConstraints + spr.Public.length))
    simp only [NewDomain]
    omega
  · have := le_nextPowerOfTwo (4 * (spr.GetNbConstraints + spr.Public.length))
    simp only [NewDomain]
    omega

/-- C24 at a concrete input: for the system with one public input and no gate, of size `n = 1`,
`initDomains` takes `8n = 8` points for the large domain, fewer than the `3(n+2) = 9` that the
quotient of degree `3(n+1)+2 = 8` needs. -/
theorem initDomains_quotient_room_example :
    oneInput.GetNbConstraints + oneInput.Public.length = 1 ∧
    (initDomains exampleGens oneInput).2.Cardinality = 8 ∧
    3 * (oneInput.GetNbConstraints + oneInput.Public.length + 2) = 9 ∧
    ¬ 3 * (oneInput.GetNbConstraints + oneInput.Public.length + 2)
        ≤ (initDomains exampleGens oneInput).2.Cardinality := by
  decide

/-! ## The coset points and the permutation identity (C28, C25) -/

theorem cosetComponent_const {F : Type} (q : F) (k : Nat) : cosetComponent (q, q, q, q) k = q := by
  simp only [cosetComponent]
  split_ifs <;> rfl

theorem cosetComponent_odd_powers {F : Type} [Field F] (u : F) (k : Nat) (hk : k < 4) :
    cosetComponent (u, u * (u * u), u * (u * u) * (u * u), u * (u * u) * (u * u) * (u * u)) k
      = u ^ (2 * k + 1) := by
  interval_cases k <;> simp [cosetComponent] <;> ring

/-- Four updates `dst[4i+k] = src[4i+k]·c_k` of `scaleFour`, for a source and a destination
with room for them. -/
theorem scaleFour_spec {F : Type} [Field F] (src dst : List F) (i : Nat) (c0 c1 c2 c3 : F)
    (hs : 4 * i + 3 < src.length) (hd : 4 * i + 3 < dst.length) :
    ∃ d, scaleFour src dst i c0 c1 c2 c3 = some d ∧ d.length = dst.length ∧
      ∀ j, d[j]? = if j / 4 = i then
          some (src[j]?.getD 0 * cosetComponent (c0, c1, c2, c3) (j % 4))
        else dst[j]? := by
  obtain ⟨a0, e0⟩ : ∃ a, src[4 * i]? = some a := ⟨_, List.getElem?_eq_getElem (by omega)⟩
  obtain ⟨a1, e1⟩ : ∃ a, src[4 * i + 1]? = some a := ⟨_, List.getElem?_eq_getElem (by omega)⟩
  obtain ⟨a2, e2⟩ : ∃ a, src[4 * i + 2]? = some a := ⟨_, List.getElem?_eq_getElem (by omega)⟩
  obtain ⟨a3, e3⟩ : ∃ a, src[4 * i + 3]? = some a := ⟨_, List.getElem?_eq_getElem (by omega)⟩
  refine ⟨(((dst.set (4 * i) (a0 * c0)).set (4 * i + 1) (a1 * c1)).set (4 * i + 2)
    (a2 * c2)).set (4 * i + 3) (a3 * c3), ?_, ?_, ?_⟩
  · simp only [scaleFour, Option.bind_eq_bind, e0, e1, e2, e3, Option.some_bind]
    exact storeFour_eq_some _ _ _ _ _ _ hd
  · simp
  · intro j
    rw [getElem?_setFour _ _ _ _ _ _ _ hd]
    by_cases e : j / 4 = i
    · rw [if_pos e, if_pos e]
      have hj : j % 4 = 0 ∨ j % 4 = 1 ∨ j % 4 = 2 ∨ j % 4 = 3 := by omega
      rcases hj with q | q | q | q
      · have : j = 4 * i := by omega
        subst this; simp [cosetComponent, e0, q]
      · have : j = 4 * i + 1 := by omega
        subst this; simp [cosetComponent, e1, q]
      · have : j = 4 * i + 2 := by omega
        subst this; simp [cosetComponent, e2, q]
      · have : j = 4 * i + 3 := by omega
        subst this; simp [cosetComponent, e3, q]
    · rw [if_neg e, if_neg e]

/-- The first loop of `evalIDCosets`: after it `id[4i+k] = g^i`. -/
theorem evalIDCosets_powers {F : Type} [Field F] (g : F) (N : Nat) (hN : 1 ≤ N) :
    ∃ id0 id, storeFour (List.replicate (4 * N) (0 : F)) 0 1 1 1 1 = some id0 ∧
      forLoop (evalIDCosetsPowers g) id0 (N - 1) = some id ∧ id.length = 4 * N ∧
      ∀ j, j < 4 * N → id[j]? = some (g ^ (j / 4)) := by
  obtain ⟨id0, h0, hlen0, hv0⟩ : ∃ id0, storeFour (List.replicate (4 * N) (0 : F)) 0 1 1 1 1
      = some id0 ∧ id0.length = 4 * N ∧ ∀ j, j < 4 → id0[j]? = some (g ^ (j / 4)) := by
    refine ⟨_, storeFour_eq_some (List.replicate (4 * N) (0 : F)) 0 1 1 1 1 (by simp; omega),
      by simp, fun j hj => ?_⟩
    rw [getElem?_setFour _ _ _ _ _ _ _ (by simp; omega)]
    have : j / 4 = 0 := by omega
    rw [if_pos this, this, cosetComponent_const, pow_zero]
  refine ⟨id0, ?_⟩
  have := forLoop_invariant (evalIDCosetsPowers g) id0
    (fun k id => id.length = 4 * N ∧ ∀ j, j < 4 * (k + 1) → id[j]? = some (g ^ (j / 4)))
    (N - 1) ⟨hlen0, fun j hj => hv0 j (by omega)⟩
    (fun k id hk hinv => by
      obtain ⟨hlen, hv⟩ := hinv
      have hp : id[4 * (k + 1 - 1)]? = some (g ^ k) := by
        rw [Nat.add_sub_cancel, hv (4 * k) (by omega)]
        congr 2
        omega
      have hq : (id.set (4 * (k + 1)) (g ^ k * g))[4 * (k + 1)]? = some (g ^ k * g) := by
        rw [List.getElem?_set_self (by omega)]
      have hsf := storeFour_eq_some (id.set (4 * (k + 1)) (g ^ k * g)) (k + 1)
        (g ^ k * g) (g ^ k * g) (g ^ k * g) (g ^ k * g) (by simp; omega)
      beta_reduce
      refine ⟨((((id.set (4 * (k + 1)) (g ^ k * g)).set (4 * (k + 1)) (g ^ k * g)).set
          (4 * (k + 1) + 1) (g ^ k * g)).set (4 * (k + 1) + 2) (g ^ k * g)).set
          (4 * (k + 1) + 3) (g ^ k * g), ?_, by simp [hlen], ?_⟩
      · simp only [evalIDCosetsPowers, Option.bind_eq_bind, hp, Option.some_bind]
        rw [store_eq_some _ (by omega), Option.some_bind, hq, Option.some_bind]
        exact hsf
      · intro j hj
        rw [getElem?_setFour _ _ _ _ _ _ _ (by simp; omega)]
        by_cases e : j / 4 = k + 1
        · rw [if_pos e, cosetComponent_const, e, pow_succ]
        · rw [if_neg e, List.getElem?_set_ne (by omega)]
          exact hv j (by omega))
  obtain ⟨id, hid, hlen, hv⟩ := this
  exact ⟨id, h0, hid, hlen, fun j hj => hv j (by omega)⟩

/-- The vectors of `evalIDCosets`: `id[j]` is the coset point `x_j = u^(2(j mod 4)+1)·g^(j div 4)`,
`uid[j] = x_j·Shifter[0]` and `uuid[j] = x_j·Shifter[1]`. -/
theorem evalIDCosets_spec {F : Type} [Field F] (pd : PublicRaw F)
    (hN : 1 ≤ pd.DomainNum.Cardinality) :
    ∃ id uid uuid, evalIDCosets pd = some (id, uid, uuid) ∧
      id.length = 4 * pd.DomainNum.Cardinality ∧ uid.length = 4 * pd.DomainNum.Cardinality ∧
      uuid.length = 4 * pd.DomainNum.Cardinality ∧
      ∀ j, j < 4 * pd.DomainNum.Cardinality →
        id[j]? = some (cosetPoint pd.DomainNum j) ∧
        uid[j]? = some (cosetPoint pd.DomainNum j * pd.Shifter.1) ∧
        uuid[j]? = some (cosetPoint pd.DomainNum j * pd.Shifter.2) := by
  obtain ⟨id0, id1, h0, h1, hlen1, hv1⟩ :=
    evalIDCosets_powers pd.DomainNum.Generator pd.DomainNum.Cardinality hN
  have := forLoop_invariant
    (evalIDCosetsShift pd.DomainNum.FinerGenerator
      (pd.DomainNum.FinerGenerator
        * (pd.DomainNum.FinerGenerator * pd.DomainNum.FinerGenerator))
      (pd.DomainNum.FinerGenerator
        * (pd.DomainNum.FinerGenerator * pd.DomainNum.FinerGenerator)
        * (pd.DomainNum.FinerGenerator * pd.DomainNum.FinerGenerator))
      (pd.DomainNum.FinerGenerator
        * (pd.DomainNum.FinerGenerator * pd.DomainNum.FinerGenerator)
        * (pd.DomainNum.FinerGenerator * pd.DomainNum.FinerGenerator)
        * (pd.DomainNum.FinerGenerator * pd.DomainNum.FinerGenerator))
      pd.Shifter.1 pd.Shifter.2)
    (id1, List.replicate (4 * pd.DomainNum.Cardinality) (0 : F),
      List.replicate (4 * pd.DomainNum.Cardinality) (0 : F))
    (fun k st =>
      (st.1.length = 4 * pd.DomainNum.Cardinality ∧
        st.2.1.length = 4 * pd.DomainNum.Cardinality ∧
        st.2.2.length = 4 * pd.DomainNum.Cardinality) ∧
      (∀ j, j < 4 * pd.DomainNum.Cardinality → st.1[j]? = some
        (if j / 4 < k then cosetPoint pd.DomainNum j else pd.DomainNum.Generator ^ (j / 4))) ∧
      ∀ j, j / 4 < k →
        st.2.1[j]? = some (cosetPoint pd.DomainNum j * pd.Shifter.1) ∧
        st.2.2[j]? = some (cosetPoint pd.DomainNum j * pd.Shifter.2))
    pd.DomainNum.Cardinality
    ⟨⟨hlen1, by simp, by simp⟩, fun j hj => by simp [hv1 j hj], fun j hj => by omega⟩
    (fun k st hk hinv => by
      obtain ⟨id, uid, uuid⟩ := st
      obtain ⟨⟨l1, l2, l3⟩, hid, hsh⟩ := hinv
      simp only at l1 l2 l3 hid hsh
      obtain ⟨id2, e1, m1, v1⟩ := scaleFour_spec id id k pd.DomainNum.FinerGenerator
        (pd.DomainNum.FinerGenerator
          * (pd.DomainNum.FinerGenerator * pd.DomainNum.FinerGenerator))
        (pd.DomainNum.FinerGenerator
          * (pd.DomainNum.FinerGenerator * pd.DomainNum.FinerGenerator)
          * (pd.DomainNum.FinerGenerator * pd.DomainNum.FinerGenerator))
        (pd.DomainNum.FinerGenerator
          * (pd.DomainNum.FinerGenerator * pd.DomainNum.FinerGenerator)
          * (pd.DomainNum.FinerGenerator * pd.DomainNum.FinerGenerator)
          * (pd.DomainNum.FinerGenerator * pd.DomainNum.FinerGenerator))
        (by omega) (by omega)
      obtain ⟨uid2, e2, m2, v2⟩ := scaleFour_spec id2 uid k pd.Shifter.1 pd.Shifter.1
        pd.Shifter.1 pd.Shifter.1 (by omega) (by omega)
      obtain ⟨uuid2, e3, m3, v3⟩ := scaleFour_spec id2 uuid k pd.Shifter.2 pd.Shifter.2
        pd.Shifter.2 pd.Shifter.2 (by omega) (by omega)
      have hid2 : ∀ j, j < 4 * pd.DomainNum.Cardinality → id2[j]? = some
          (if j / 4 < k + 1 then cosetPoint pd.DomainNum j
            else pd.DomainNum.Generator ^ (j / 4)) := by
        intro j hj
        rw [v1 j]
        by_cases e : j / 4 = k
        · rw [if_pos e, if_pos (by omega), hid j hj, if_neg (by omega),
            cosetComponent_odd_powers _ _ (Nat.mod_lt _ (by omega))]
          simp only [Option.getD_some, cosetPoint]
          rw [mul_comm]
        · rw [if_neg e, hid j hj]
          by_cases e' : j / 4 < k
          · rw [if_pos e', if_pos (by omega)]
          · rw [if_neg e', if_neg (by omega)]
      refine ⟨(id2, uid2, uuid2), ?_, ⟨m1.trans l1, m2.trans l2, m3.trans l3⟩, hid2, ?_⟩
      · simp only [evalIDCosetsShift, Option.bind_eq_bind, e1, e2, e3, Option.some_bind]
      · intro j hj
        simp only
        rw [v2 j, v3 j]
        by_cases e : j / 4 = k
        · have hjN : j < 4 * pd.DomainNum.Cardinality := by omega
          rw [if_pos e, if_pos e, hid2 j hjN, if_pos (by omega), cosetComponent_const,
            cosetComponent_const]
          simp
        · rw [if_neg e, if_neg e]
          exact hsh j (by omega))
  obtain ⟨⟨id, uid, uuid⟩, hst, ⟨l1, l2, l3⟩, hid, hsh⟩ := this
  simp only at l1 l2 l3 hid hsh
  refine ⟨id, uid, uuid, ?_, l1, l2, l3, fun j hj => ?_⟩
  · simp only [evalIDCosets, Option.bind_eq_bind, h0, h1, Option.some_bind]
    exact hst
  · have hj4 : j / 4 < pd.DomainNum.Cardinality := by omega
    have := hid j hj
    rw [if_pos hj4] at this
    exact ⟨this, hsh j hj4⟩

/-- C28. For a small domain of `N ≥ 1` points with generator `g` and finer generator `u`,
`evalIDCosets` returns `id`, `uid`, `uuid` of length `4N` with `id[4i+k] = u^(2k+1)·g^i`,
`uid[j] = Shifter[0]·id[j]` and `uuid[j] = Shifter[1]·id[j]`. When `g = u^8` this is
`id[j] = u^(2j+1) = u·(u²)^j` for every `j < 4N`: the interleaved layout of the four odd cosets
is the natural order of the single coset `u·<u²>`, the points `FinerGenerator^1·Generator^j` of
the coset inverse FFT of `computeH` on a large domain generated by `u²`. -/
theorem evalIDCosets_natural_order {F : Type} [Field F] (pd : PublicRaw F)
    (hN : 1 ≤ pd.DomainNum.Cardinality) :
    ∃ id uid uuid, evalIDCosets pd = some (id, uid, uuid) ∧
      id.length = 4 * pd.DomainNum.Cardinality ∧ uid.length = 4 * pd.DomainNum.Cardinality ∧
      uuid.length = 4 * pd.DomainNum.Cardinality ∧
      (∀ i k, i < pd.DomainNum.Cardinality → k < 4 →
        id[4 * i + k]?
          = some (pd.DomainNum.FinerGenerator ^ (2 * k + 1) * pd.DomainNum.Generator ^ i)) ∧
      (∀ j, j < 4 * pd.DomainNum.Cardinality → ∃ x, id[j]? = some x ∧
        uid[j]? = some (pd.Shifter.1 * x) ∧ uuid[j]? = some (pd.Shifter.2 * x)) ∧
      (pd.DomainNum.Generator = pd.DomainNum.FinerGenerator ^ 8 →
        ∀ j, j < 4 * pd.DomainNum.Cardinality →
          id[j]? = some (pd.DomainNum.FinerGenerator ^ (2 * j + 1)) ∧
          pd.DomainNum.FinerGenerator ^ (2 * j + 1)
            = pd.DomainNum.FinerGenerator * (pd.DomainNum.FinerGenerator ^ 2) ^ j ∧
          (pd.DomainH.Generator = pd.DomainNum.FinerGenerator ^ 2 →
            pd.DomainH.FinerGenerator = pd.DomainNum.FinerGenerator →
            id[j]? = some (pd.DomainH.FinerGenerator ^ 1 * pd.DomainH.Generator ^ j))) := by
  obtain ⟨id, uid, uuid, h, l1, l2, l3, hv⟩ := evalIDCosets_spec pd hN
  refine ⟨id, uid, uuid, h, l1, l2, l3, ?_, ?_, ?_⟩
  · intro i k hi hk
    have := (hv (4 * i + k) (by omega)).1
    rw [this, cosetPoint]
    have e1 : (4 * i + k) % 4 = k := by omega
    have e2 : (4 * i + k) / 4 = i := by omega
    rw [e1, e2]
  · intro j hj
    obtain ⟨a, b, c⟩ := hv j hj
    exact ⟨_, a, by rw [b, mul_comm], by rw [c, mul_comm]⟩
  · intro hg j hj
    have key : cosetPoint pd.DomainNum j = pd.DomainNum.FinerGenerator ^ (2 * j + 1) := by
      rw [cosetPoint, hg, ← pow_mul, ← pow_add]
      congr 1
      omega
    have key2 : pd.DomainNum.FinerGenerator ^ (2 * j + 1)
        = pd.DomainNum.FinerGenerator * (pd.DomainNum.FinerGenerator ^ 2) ^ j := by
      rw [← pow_mul, pow_succ, mul_comm]
    refine ⟨by rw [(hv j hj).1, key], key2, fun h1 h2 => ?_⟩
    rw [(hv j hj).1, key, key2, h1, h2, pow_one]

theorem evalIDCosets_natural_order_witness :
    ∃ id uid uuid, evalIDCosets pd17two = some (id, uid, uuid) ∧
      id.length = 4 * pd17two.DomainNum.Cardinality ∧
      (∀ j, j < 4 * pd17two.DomainNum.Cardinality → ∃ x, id[j]? = some x ∧
        uid[j]? = some (pd17two.Shifter.1 * x) ∧ uuid[j]? = some (pd17two.Shifter.2 * x)) ∧
      (∀ j, j < 4 * pd17two.DomainNum.Cardinality →
        id[j]? = some (pd17two.DomainNum.FinerGenerator ^ (2 * j + 1)) ∧
        id[j]? = some (pd17two.DomainH.FinerGenerator ^ 1 * pd17two.DomainH.Generator ^ j)) :=
  (evalIDCosets_natural_order pd17two (by decide)).imp fun _ h => h.imp fun _ h => h.imp
    fun _ h => ⟨h.1, h.2.1, h.2.2.2.2.2.1, fun j hj =>
      ⟨(h.2.2.2.2.2.2 (by decide) j hj).1, (h.2.2.2.2.2.2 (by decide) j hj).2.2 (by decide)
        (by decide)⟩⟩

theorem copySlice_length {α : Type} (dst src : List α) :
    (copySlice dst src).length = dst.length := by
  simp only [copySlice, List.length_append, List.length_take, List.length_drop]
  omega

/-- For a transform that keeps the length of its input, as an in-place FFT does,
`evaluateCosets` returns, with a result of the length of `res`. -/
theorem evaluateCosets_isSome {F W E BO OP : Type} [Field F]
    (env : ProverCollaborators F W E BO OP) (poly res : List F) (domain : Domain F)
    (hres : res.length = 4 * domain.Cardinality)
    (hfft : ∀ a c, a.length = domain.Cardinality →
      (env.fft domain a c).length = domain.Cardinality) :
    ∃ out, evaluateCosets env poly res domain = some out ∧
      out.length = 4 * domain.Cardinality := by
  have hc : (copySlice (List.replicate domain.Cardinality (0 : F)) poly).length
      = domain.Cardinality := by rw [copySlice_length, List.length_replicate]
  have := forLoop_invariant
    (fun i (res : List F) => do
      let a ← (env.fft domain (copySlice (List.replicate domain.Cardinality (0 : F)) poly) 1)[i]?
      let b ← (env.fft domain (copySlice (List.replicate domain.Cardinality (0 : F)) poly) 3)[i]?
      let c ← (env.fft domain (copySlice (List.replicate domain.Cardinality (0 : F)) poly) 5)[i]?
      let d ← (env.fft domain (copySlice (List.replicate domain.Cardinality (0 : F)) poly) 7)[i]?
      storeFour res i a b c d)
    res (fun _ out => out.length = 4 * domain.Cardinality) domain.Cardinality hres
    (fun k out hk hlen => by
      have e1 := List.getElem?_eq_getElem (l := env.fft domain
        (copySlice (List.replicate domain.Cardinality (0 : F)) poly) 1) (n := k)
        (by rw [hfft _ _ hc]; exact hk)
      have e3 := List.getElem?_eq_getElem (l := env.fft domain
        (copySlice (List.replicate domain.Cardinality (0 : F)) poly) 3) (n := k)
        (by rw [hfft _ _ hc]; exact hk)
      have e5 := List.getElem?_eq_getElem (l := env.fft domain
        (copySlice (List.replicate domain.Cardinality (0 : F)) poly) 5) (n := k)
        (by rw [hfft _ _ hc]; exact hk)
      have e7 := List.getElem?_eq_getElem (l := env.fft domain
        (copySlice (List.replicate domain.Cardinality (0 : F)) poly) 7) (n := k)
        (by rw [hfft _ _ hc]; exact hk)
      beta_reduce
      simp only [Option.bind_eq_bind]
      rw [e1, Option.some_bind, e3, Option.some_bind, e5, Option.some_bind, e7,
        Option.some_bind, storeFour_eq_some _ _ _ _ _ _ (by omega)]
      exact ⟨_, rfl, by simpa using hlen⟩)
  exact this

/-- One iteration of the loop of `evalConstraintOrdering`. -/
theorem evalConstraintOrderingBody_eq {F : Type} [Field F] (gamma : F)
    (evalID evaluID evaluuID evalS1 evalS2 evalS3 evalZ evalZu evalL evalR evalO : List F)
    (i : Nat) (res : List F) (li id ri uid oi uuid s1 s2 s3 zi zui : F)
    (g9 : evalL[i]? = some li) (g1 : evalID[i]? = some id) (g10 : evalR[i]? = some ri)
    (g2 : evaluID[i]? = some uid) (g11 : evalO[i]? = some oi) (g3 : evaluuID[i]? = some uuid)
    (g4 : evalS1[i]? = some s1) (g5 : evalS2[i]? = some s2) (g6 : evalS3[i]? = some s3)
    (g7 : evalZ[i]? = some zi) (g8 : evalZu[i]? = some zui) (hi : i < res.length) :
    evalConstraintOrderingBody gamma evalID evaluID evaluuID evalS1 evalS2 evalS3 evalZ evalZu
        evalL evalR evalO i res
      = some (res.set i (orderingValue gamma li ri oi id uid uuid s1 s2 s3 zi zui)) := by
  unfold evalConstraintOrderingBody
  simp only [Option.bind_eq_bind]
  rw [g9, Option.some_bind, g1, Option.some_bind, g10, Option.some_bind, g2, Option.some_bind,
    g11, Option.some_bind, g3, Option.some_bind, g4, Option.some_bind, g5, Option.some_bind,
    g6, Option.some_bind, g7, Option.some_bind, g8, Option.some_bind]
  exact store_eq_some _ hi

/-- The loop of `evalConstraintOrdering` over vectors of length `n`: entry `i` of the result is
`orderingValue` of the entries `i`. -/
theorem evalConstraintOrdering_loop {F : Type} [Field F] (gamma : F) (n : Nat)
    (evalID evaluID evaluuID evalS1 evalS2 evalS3 evalZ evalZu evalL evalR evalO : List F)
    (h1 : evalID.length = n) (h2 : evaluID.length = n) (h3 : evaluuID.length = n)
    (h4 : evalS1.length = n) (h5 : evalS2.length = n) (h6 : evalS3.length = n)
    (h7 : evalZ.length = n) (h8 : evalZu.length = n) (h9 : evalL.length = n)
    (h10 : evalR.length = n) (h11 : evalO.length = n) :
    ∃ res, forLoop (evalConstraintOrderingBody gamma evalID evaluID evaluuID evalS1 evalS2
        evalS3 evalZ evalZu evalL evalR evalO) (List.replicate n 0) n = some res ∧
      res.length = n ∧
      ∀ i, i < n → res[i]? = some (orderingValue gamma (evalL[i]?.getD 0) (evalR[i]?.getD 0)
        (evalO[i]?.getD 0) (evalID[i]?.getD 0) (evaluID[i]?.getD 0) (evaluuID[i]?.getD 0)
        (evalS1[i]?.getD 0) (evalS2[i]?.getD 0) (evalS3[i]?.getD 0) (evalZ[i]?.getD 0)
        (evalZu[i]?.getD 0)) := by
  have := forLoop_invariant
    (evalConstraintOrderingBody gamma evalID evaluID evaluuID evalS1 evalS2 evalS3 evalZ evalZu
      evalL evalR evalO)
    (List.replicate n 0)
    (fun k res => res.length = n ∧ ∀ i, i < k → res[i]? = some (orderingValue gamma
      (evalL[i]?.getD 0) (evalR[i]?.getD 0) (evalO[i]?.getD 0) (evalID[i]?.getD 0)
      (evaluID[i]?.getD 0) (evaluuID[i]?.getD 0) (evalS1[i]?.getD 0) (evalS2[i]?.getD 0)
      (evalS3[i]?.getD 0) (evalZ[i]?.getD 0) (evalZu[i]?.getD 0)))
    n ⟨by simp, fun i hi => absurd hi (Nat.not_lt_zero i)⟩
    (fun k res hk hinv => by
      obtain ⟨hlen, hv⟩ := hinv
      obtain ⟨id, g1⟩ : ∃ x, evalID[k]? = some x :=
        ⟨_, List.getElem?_eq_getElem (by rw [h1]; exact hk)⟩
      obtain ⟨uid, g2⟩ : ∃ x, evaluID[k]? = some x :=
        ⟨_, List.getElem?_eq_getElem (by rw [h2]; exact hk)⟩
      obtain ⟨uuid, g3⟩ : ∃ x, evaluuID[k]? = some x :=
        ⟨_, List.getElem?_eq_getElem (by rw [h3]; exact hk)⟩
      obtain ⟨s1, g4⟩ : ∃ x, evalS1[k]? = some x :=
        ⟨_, List.getElem?_eq_getElem (by rw [h4]; exact hk)⟩
      obtain ⟨s2, g5⟩ : ∃ x, evalS2[k]? = some x :=
        ⟨_, List.getElem?_eq_getElem (by rw [h5]; exact hk)⟩
      obtain ⟨s3, g6⟩ : ∃ x, evalS3[k]? = some x :=
        ⟨_, List.getElem?_eq_getElem (by rw [h6]; exact hk)⟩
      obtain ⟨zi, g7⟩ : ∃ x, evalZ[k]? = some x :=
        ⟨_, List.getElem?_eq_getElem (by rw [h7]; exact hk)⟩
      obtain ⟨zui, g8⟩ : ∃ x, evalZu[k]? = some x :=
        ⟨_, List.getElem?_eq_getElem (by rw [h8]; exact hk)⟩
      obtain ⟨li, g9⟩ : ∃ x, evalL[k]? = some x :=
        ⟨_, List.getElem?_eq_getElem (by rw [h9]; exact hk)⟩
      obtain ⟨ri, g10⟩ : ∃ x, evalR[k]? = some x :=
        ⟨_, List.getElem?_eq_getElem (by rw [h10]; exact hk)⟩
      obtain ⟨oi, g11⟩ : ∃ x, evalO[k]? = some x :=
        ⟨_, List.getElem?_eq_getElem (by rw [h11]; exact hk)⟩
      refine ⟨res.set k (orderingValue gamma li ri oi id uid uuid s1 s2 s3 zi zui),
        evalConstraintOrderingBody_eq gamma _ _ _ _ _ _ _ _ _ _ _ k res li id ri uid oi uuid
          s1 s2 s3 zi zui g9 g1 g10 g2 g11 g3 g4 g5 g6 g7 g8 (by rw [hlen]; exact hk),
        by rw [List.length_set]; exact hlen, ?_⟩
      · intro i hi
        rw [List.getElem?_set]
        by_cases e : k = i
        · subst e
          rw [if_pos rfl, if_pos (by rw [hlen]; exact hk), g1, g2, g3, g4, g5, g6, g7, g8, g9,
            g10, g11]
          simp only [Option.getD_some]
        · rw [if_neg e]
          exact hv i (Nat.lt_of_le_of_ne (Nat.le_of_lt_succ hi) (fun h => e h.symm)))
  obtain ⟨res, hr, hlen, hv⟩ := this
  exact ⟨res, hr, hlen, hv⟩

/-- C25. For coset evaluations `evalZ`, `evalZu`, `evalL`, `evalR`, `evalO` of length `4N`
(`N ≥ 1`, the FFT keeping the length of its input), `evalConstraintOrdering` returns a vector of
length `4N` whose entry `i` is
`(L_i + S1_i + γ)(R_i + S2_i + γ)(O_i + S3_i + γ)·Zshift_i
 - (L_i + id_i + γ)(R_i + u·id_i + γ)(O_i + u²·id_i + γ)·Z_i`,
where `S1`, `S2`, `S3` are the coset evaluations of `CS1`, `CS2`, `CS3`, `id_i` is the `i`-th
coset point from `evalIDCosets` and `(u, u²) = Shifter`. -/
theorem evalConstraintOrdering_values {F W E BO OP : Type} [Field F]
    (env : ProverCollaborators F W E BO OP) (gamma : F) (pd : PublicRaw F)
    (evalZ evalZu evalL evalR evalO : List F)
    (hN : 1 ≤ pd.DomainNum.Cardinality)
    (hfft : ∀ a c, a.length = pd.DomainNum.Cardinality →
      (env.fft pd.DomainNum a c).length = pd.DomainNum.Cardinality)
    (hZ : evalZ.length = 4 * pd.DomainNum.Cardinality)
    (hZu : evalZu.length = 4 * pd.DomainNum.Cardinality)
    (hL : evalL.length = 4 * pd.DomainNum.Cardinality)
    (hR : evalR.length = 4 * pd.DomainNum.Cardinality)
    (hO : evalO.length = 4 * pd.DomainNum.Cardinality) :
    ∃ evalS1 evalS2 evalS3 id uid uuid res,
      evaluateCosets env pd.CS1 (List.replicate (4 * pd.DomainNum.Cardinality) 0)
        pd.DomainNum = some evalS1 ∧
      evaluateCosets env pd.CS2 (List.replicate (4 * pd.DomainNum.Cardinality) 0)
        pd.DomainNum = some evalS2 ∧
      evaluateCosets env pd.CS3 (List.replicate (4 * pd.DomainNum.Cardinality) 0)
        pd.DomainNum = some evalS3 ∧
      evalIDCosets pd = some (id, uid, uuid) ∧
      evalConstraintOrdering env gamma pd evalZ evalZu evalL evalR evalO = some res ∧
      res.length = 4 * pd.DomainNum.Cardinality ∧
      ∀ i, i < 4 * pd.DomainNum.Cardinality →
        ∃ li ri oi zi zui s1 s2 s3 x, evalL[i]? = some li ∧ evalR[i]? = some ri ∧
          evalO[i]? = some oi ∧ evalZ[i]? = some zi ∧ evalZu[i]? = some zui ∧
          evalS1[i]? = some s1 ∧ evalS2[i]? = some s2 ∧ evalS3[i]? = some s3 ∧
          id[i]? = some x ∧ x = cosetPoint pd.DomainNum i ∧
          uid[i]? = some (pd.Shifter.1 * x) ∧ uuid[i]? = some (pd.Shifter.2 * x) ∧
          res[i]? = some ((li + s1 + gamma) * (ri + s2 + gamma) * (oi + s3 + gamma) * zui
            - (li + x + gamma) * (ri + pd.Shifter.1 * x + gamma)
              * (oi + pd.Shifter.2 * x + gamma) * zi) := by
  obtain ⟨evalS1, e1, l1⟩ := evaluateCosets_isSome env pd.CS1
    (List.replicate (4 * pd.DomainNum.Cardinality) 0) pd.DomainNum (by simp) hfft
  obtain ⟨evalS2, e2, l2⟩ := evaluateCosets_isSome env pd.CS2
    (List.replicate (4 * pd.DomainNum.Cardinality) 0) pd.DomainNum (by simp) hfft
  obtain ⟨evalS3, e3, l3⟩ := evaluateCosets_isSome env pd.CS3
    (List.replicate (4 * pd.DomainNum.Cardinality) 0) pd.DomainNum (by simp) hfft
  obtain ⟨id, uid, uuid, hid, m1, m2, m3, hv⟩ := evalIDCosets_spec pd hN
  obtain ⟨res, hr, hlen, hres⟩ := evalConstraintOrdering_loop gamma
    (4 * pd.DomainNum.Cardinality) id uid uuid evalS1 evalS2 evalS3 evalZ evalZu evalL evalR
    evalO m1 m2 m3 l1 l2 l3 hZ hZu hL hR hO
  refine ⟨evalS1, evalS2, evalS3, id, uid, uuid, res, e1, e2, e3, hid, ?_, hlen, ?_⟩
  · simp only [evalConstraintOrdering, Option.bind_eq_bind, e1, e2, e3, hid, Option.some_bind]
    exact hr
  · intro i hi
    obtain ⟨a, b, c⟩ := hv i hi
    obtain ⟨li, g1⟩ : ∃ x, evalL[i]? = some x := ⟨_, List.getElem?_eq_getElem (by omega)⟩
    obtain ⟨ri, g2⟩ : ∃ x, evalR[i]? = some x := ⟨_, List.getElem?_eq_getElem (by omega)⟩
    obtain ⟨oi, g3⟩ : ∃ x, evalO[i]? = some x := ⟨_, List.getElem?_eq_getElem (by omega)⟩
    obtain ⟨zi, g4⟩ : ∃ x, evalZ[i]? = some x := ⟨_, List.getElem?_eq_getElem (by omega)⟩
    obtain ⟨zui, g5⟩ : ∃ x, evalZu[i]? = some x := ⟨_, List.getElem?_eq_getElem (by omega)⟩
    obtain ⟨s1, g6⟩ : ∃ x, evalS1[i]? = some x := ⟨_, List.getElem?_eq_getElem (by omega)⟩
    obtain ⟨s2, g7⟩ : ∃ x, evalS2[i]? = some x := ⟨_, List.getElem?_eq_getElem (by omega)⟩
    obtain ⟨s3, g8⟩ : ∃ x, evalS3[i]? = some x := ⟨_, List.getElem?_eq_getElem (by omega)⟩
    refine ⟨li, ri, oi, zi, zui, s1, s2, s3, cosetPoint pd.DomainNum i, g1, g2, g3, g4, g5, g6,
      g7, g8, a, rfl, by rw [b, mul_comm], by rw [c, mul_comm], ?_⟩
    rw [hres i hi, g1, g2, g3, g4, g5, g6, g7, g8, a, b, c]
    simp only [Option.getD_some, orderingValue, mul_comm (cosetPoint pd.DomainNum i)]

theorem evalConstraintOrdering_values_witness :
    ∃ evalS1 evalS2 evalS3 id uid uuid res,
      evaluateCosets env17 pd17two.CS1 (List.replicate (4 * pd17two.DomainNum.Cardinality) 0)
        pd17two.DomainNum = some evalS1 ∧
      evaluateCosets env17 pd17two.CS2 (List.replicate (4 * pd17two.DomainNum.Cardinality) 0)
        pd17two.DomainNum = some evalS2 ∧
      evaluateCosets env17 pd17two.CS3 (List.replicate (4 * pd17two.DomainNum.Cardinality) 0)
        pd17two.DomainNum = some evalS3 ∧
      evalIDCosets pd17two = some (id, uid, uuid) ∧
      evalConstraintOrdering env17 2 pd17two [1, 2, 3, 4, 5, 6, 7, 8] [2, 3, 4, 5, 6, 7, 8, 1] [1, 1, 2, 2, 3, 3, 4, 4] [5, 0, 5, 0, 5, 0, 5, 0] [7, 7, 7, 7, 0, 0, 0, 0] = some res ∧
      res.length = 4 * pd17two.DomainNum.Cardinality ∧
      ∀ i, i < 4 * pd17two.DomainNum.Cardinality →
        ∃ li ri oi zi zui s1 s2 s3 x, [1, 1, 2, 2, 3, 3, 4, 4][i]? = some li ∧ [5, 0, 5, 0, 5, 0, 5, 0][i]? = some ri ∧
          [7, 7, 7, 7, 0, 0, 0, 0][i]? = some oi ∧ [1, 2, 3, 4, 5, 6, 7, 8][i]? = some zi ∧ [2, 3, 4, 5, 6, 7, 8, 1][i]? = some zui ∧
          evalS1[i]? = some s1 ∧ evalS2[i]? = some s2 ∧ evalS3[i]? = some s3 ∧
          id[i]? = some x ∧ x = cosetPoint pd17two.DomainNum i ∧
          uid[i]? = some (pd17two.Shifter.1 * x) ∧ uuid[i]? = some (pd17two.Shifter.2 * x) ∧
          res[i]? = some ((li + s1 + 2) * (ri + s2 + 2) * (oi + s3 + 2) * zui
            - (li + x + 2) * (ri + pd17two.Shifter.1 * x + 2)
              * (oi + pd17two.Shifter.2 * x + 2) * zi) :=
  evalConstraintOrdering_values env17 2 pd17two [1, 2, 3, 4, 5, 6, 7, 8]
    [2, 3, 4, 5, 6, 7, 8, 1] [1, 1, 2, 2, 3, 3, 4, 4] [5, 0, 5, 0, 5, 0, 5, 0]
    [7, 7, 7, 7, 0, 0, 0, 0] (by decide)
    (fun a c _ => by simp [env17, naiveFFT, pd17two]) rfl rfl rfl rfl rfl

/-! ## The wire columns and the slot labelling (C26) -/

/-- The variable IDs that `ComputeLRO` reads are the labels `wireAt` of `buildPermutation`, for
a prover's system without assertions that has the public variables and the gates of the
setup's system. -/
theorem wireID_eq_wireAt {F : Type} (spr : SparseR1CS F) (sprP : bls381.SparseR1CS) (N : Nat)
    (hpub : sprP.NbPublicVariables = spr.Public.length)
    (hgates : sprP.Constraints.map (fun g => (g.L, g.R, g.O))
      = spr.Constraints.map (fun c => (c.XA, c.XB, c.XC)))
    (hassert : sprP.Assertions = []) (i : Nat) (hi : i < N) :
    wireID sprP (fun i => i) (fun g => g.L) i = wireAt spr N i ∧
    wireID sprP (fun _ => 0) (fun g => g.R) i = wireAt spr N (N + i) ∧
    wireID sprP (fun _ => 0) (fun g => g.O) i = wireAt spr N (2 * N + i) := by
  have hk : ∀ k : Nat,
      (sprP.Constraints[k]?).map (fun (g : bls381.SparseR1C) => (g.L, g.R, g.O))
        = (spr.Constraints[k]?).map (fun (c : SparseR1C) => (c.XA, c.XB, c.XC)) := by
    intro k
    rw [← List.getElem?_map, ← List.getElem?_map, hgates]
  have h1 : ¬ N + i < N := by omega
  have h2 : N + i < 2 * N := by omega
  have h3 : ¬ 2 * N + i < N := by omega
  have h4 : ¬ 2 * N + i < 2 * N := by omega
  have h5 : 2 * N + i < 3 * N := by omega
  have h6 : N + i - N = i := by omega
  have h7 : 2 * N + i - 2 * N = i := by omega
  simp only [wireID, wireAt, hassert, List.append_nil, hpub, if_pos hi, if_neg h1, if_pos h2,
    if_neg h3, if_neg h4, if_pos h5, h6, h7]
  by_cases hp : i < spr.Public.length
  · simp only [if_pos hp, and_self]
  · simp only [if_neg hp]
    have := hk (i - spr.Public.length)
    cases hc : sprP.Constraints[i - spr.Public.length]? with
    | none =>
      rw [hc] at this
      cases hd : spr.Constraints[i - spr.Public.length]? with
      | none => simp
      | some c => rw [hd] at this; simp at this
    | some g =>
      rw [hc] at this
      cases hd : spr.Constraints[i - spr.Public.length]? with
      | none => rw [hd] at this; simp at this
      | some c =>
        rw [hd] at this
        simp only [Option.map_some', Option.some.injEq, Prod.mk.injEq] at this
        simp [this.1, this.2.1, this.2.2]

/-- C26. The wire columns of `ComputeLRO` agree with the slot labelling of `buildPermutation`:
for a prover's system without assertions that has the public variables and the gate wires of
the setup's system, a small domain of the size `N` of the trace and a solution `w` with a value
for every variable, the concatenation `v = l‖r‖o` has length `3N` and `v[j] = w[wireAt[j]]` for
every slot `j < 3N` (public rows, gate rows, and the padding and unused slots that both sides map
to variable `0`); therefore `v[S[j]] = v[j]` for the permutation `S` of `buildPermutation`. -/
theorem ComputeLRO_matches_wireAt {F : Type} [Field F] (spr : SparseR1CS F)
    (sprP : bls381.SparseR1CS) (pd : PublicRaw F) (pt : Trace F) (solution : List F)
    (hpub : sprP.NbPublicVariables = spr.Public.length)
    (hgates : sprP.Constraints.map (fun g => (g.L, g.R, g.O))
      = spr.Constraints.map (fun c => (c.XA, c.XB, c.XC)))
    (hassert : sprP.Assertions = [])
    (hN : pt.Ql.length = nextPowerOfTwo (spr.GetNbConstraints + spr.Public.length))
    (hdom : pd.DomainNum.Cardinality = pt.Ql.length)
    (hsol : solution ≠ []) (hP : spr.Public.length ≤ solution.length)
    (hw : ∀ c ∈ spr.Constraints,
      c.XA < solution.length ∧ c.XB < solution.length ∧ c.XC < solution.length) :
    ∃ l r o partialL pt', ComputeLRO sprP pd solution = some (l, r, o, partialL) ∧
      buildPermutation spr pt solution.length = some pt' ∧
      (l ++ r ++ o).length = 3 * pt.Ql.length ∧
      (∀ j, j < 3 * pt.Ql.length → ∃ v, solution[wireAt spr pt.Ql.length j]? = some v ∧
        (l ++ r ++ o)[j]? = some v) ∧
      (∀ j, j < 3 * pt.Ql.length → ∃ s : Nat, pt'.S[j]? = some (s : Int) ∧
        s < 3 * pt.Ql.length ∧ (l ++ r ++ o)[s]? = (l ++ r ++ o)[j]?) := by
  have hpos : 0 < solution.length := List.length_pos.mpr hsol
  have hsize : spr.Public.length + spr.Constraints.length ≤ pt.Ql.length := by
    rw [hN, SparseR1CS.GetNbConstraints, Nat.add_comm]; exact le_nextPowerOfTwo _
  have hclen : sprP.Constraints.length = spr.Constraints.length := by
    have := congrArg List.length hgates
    simpa using this
  have hG : ∀ g ∈ sprP.Constraints ++ sprP.Assertions,
      g.L < solution.length ∧ g.R < solution.length ∧ g.O < solution.length := by
    intro g hg
    rw [hassert, List.append_nil] at hg
    have hm : (g.L, g.R, g.O) ∈ sprP.Constraints.map
        (fun (g : bls381.SparseR1C) => (g.L, g.R, g.O)) := List.mem_map.mpr ⟨g, hg, rfl⟩
    rw [hgates] at hm
    obtain ⟨c, hc, hce⟩ := List.mem_map.mp hm
    simp only [Prod.mk.injEq] at hce
    have := hw c hc
    rw [hce.1, hce.2.1, hce.2.2] at this
    exact this
  obtain ⟨⟨l, r, o, p⟩, hst, ⟨l1, l2, l3, _⟩, hrows⟩ := ComputeLRO_spec sprP pd solution
    (by rw [hpub, hclen, hassert, hdom]; simpa using hsize) hpos (by rw [hpub]; exact hP) hG
  simp only at l1 l2 l3 hrows
  rw [hdom] at l1 l2 l3 hrows
  obtain ⟨lro, S, hl, hS, hlen, hlro, hSlen, hSv⟩ :=
    permutationArray_spec spr pt.Ql.length solution.length hsize hP hpos hw
  have hvlen : (l ++ r ++ o).length = 3 * pt.Ql.length := by
    simp only [List.length_append, l1, l2, l3]; omega
  have hval : ∀ j, j < 3 * pt.Ql.length →
      (l ++ r ++ o)[j]? = solution[wireAt spr pt.Ql.length j]? := by
    intro j hj
    by_cases c1 : j < pt.Ql.length
    · rw [List.append_assoc, List.getElem?_append_left (by omega), (hrows j c1).1,
        (wireID_eq_wireAt spr sprP pt.Ql.length hpub hgates hassert j c1).1]
    · by_cases c2 : j < 2 * pt.Ql.length
      · have hj' : j - pt.Ql.length < pt.Ql.length := by omega
        rw [List.append_assoc, List.getElem?_append_right (by omega), l1,
          List.getElem?_append_left (by omega), (hrows _ hj').2.1,
          (wireID_eq_wireAt spr sprP pt.Ql.length hpub hgates hassert _ hj').2.1]
        congr 2
        omega
      · have hj' : j - 2 * pt.Ql.length < pt.Ql.length := by omega
        rw [List.getElem?_append_right (by simp only [List.length_append, l1, l2]; omega)]
        have e : j - (l ++ r).length = j - 2 * pt.Ql.length := by
          simp only [List.length_append, l1, l2]; omega
        rw [e, (hrows _ hj').2.2,
          (wireID_eq_wireAt spr sprP pt.Ql.length hpub hgates hassert _ hj').2.2]
        congr 2
        omega
  refine ⟨l, r, o, p, { pt with S := S }, hst, by simp [buildPermutation, hS], hvlen, ?_, ?_⟩
  · intro j hj
    have hlt := wireAt_lt spr pt.Ql.length solution.length hP hpos hw j
    exact ⟨solution[wireAt spr pt.Ql.length j], List.getElem?_eq_getElem hlt,
      (hval j hj).trans (List.getElem?_eq_getElem hlt)⟩
  · intro j hj
    obtain ⟨h1, h2⟩ := @nextSlot_spec lro j (by omega)
    have h1' : nextSlot lro j < 3 * pt.Ql.length := by omega
    rw [hlro _ h1', hlro j hj] at h2
    refine ⟨nextSlot lro j, hSv j hj, h1', ?_⟩
    rw [hval _ h1', hval j hj, Option.some.inj h2]

theorem ComputeLRO_matches_wireAt_witness :
    ∃ l r o partialL pt', ComputeLRO exampleProverSpr exampleLroData [(10 : ℚ), 20, 30, 40] = some (l, r, o, partialL) ∧
      buildPermutation exampleSpr exampleTrace [(10 : ℚ), 20, 30, 40].length = some pt' ∧
      (l ++ r ++ o).length = 3 * exampleTrace.Ql.length ∧
      (∀ j, j < 3 * exampleTrace.Ql.length → ∃ v, [(10 : ℚ), 20, 30, 40][wireAt exampleSpr exampleTrace.Ql.length j]? = some v ∧
        (l ++ r ++ o)[j]? = some v) ∧
      (∀ j, j < 3 * exampleTrace.Ql.length → ∃ s : Nat, pt'.S[j]? = some (s : Int) ∧
        s < 3 * exampleTrace.Ql.length ∧ (l ++ r ++ o)[s]? = (l ++ r ++ o)[j]?) :=
  ComputeLRO_matches_wireAt exampleSpr exampleProverSpr exampleLroData exampleTrace
    [10, 20, 30, 40] rfl (by decide) rfl (by decide) rfl (by simp) (by decide) (by decide)

/-! ## Distinct entries of the support (C27) -/

/-- With `g` of order `N`, a non-zero `u`, and neither `u` nor `u²` a power of `g`, the entries
`u^(s div N)·g^(s mod N)` of the support are pairwise distinct. -/
theorem sigmaAt_injective {F : Type} [Field F] (domain : Domain F)
    (hN : 1 ≤ domain.Cardinality) (hg : orderOf domain.Generator = domain.Cardinality)
    (hu0 : domain.FrMultiplicativeGen ≠ 0)
    (hu : ∀ k : Nat, domain.FrMultiplicativeGen ≠ domain.Generator ^ k)
    (hu2 : ∀ k : Nat, domain.FrMultiplicativeGen ^ 2 ≠ domain.Generator ^ k)
    (s t : Nat) (hs : s < 3 * domain.Cardinality) (ht : t < 3 * domain.Cardinality)
    (h : sigmaAt domain s = sigmaAt domain t) : s = t := by
  have hgN : domain.Generator ^ domain.Cardinality = 1 := by
    rw [← hg]; exact pow_orderOf_eq_one _
  have key : ∀ d k1 k2 : Nat, d = 1 ∨ d = 2 →
      domain.Generator ^ k1 = domain.FrMultiplicativeGen ^ d * domain.Generator ^ k2 →
      False := by
    intro d k1 k2 hd he
    have h1 : domain.Generator ^ k2 * domain.Generator ^ (domain.Cardinality * k2 - k2) = 1 := by
      rw [← pow_add, Nat.add_sub_cancel' (Nat.le_mul_of_pos_left k2 hN), pow_mul, hgN, one_pow]
    have h2 : domain.FrMultiplicativeGen ^ d
        = domain.Generator ^ (k1 + (domain.Cardinality * k2 - k2)) := by
      rw [pow_add, he, mul_assoc, h1, mul_one]
    rcases hd with rfl | rfl
    · rw [pow_one] at h2; exact hu _ h2
    · exact hu2 _ h2
  have hinj : ∀ i j, i < domain.Cardinality → j < domain.Cardinality →
      domain.Generator ^ i = domain.Generator ^ j → i = j := by
    intro i j hi hj he
    exact pow_injOn_Iio_orderOf (by rw [hg]; exact hi) (by rw [hg]; exact hj) he
  have hsm : s % domain.Cardinality < domain.Cardinality := Nat.mod_lt _ hN
  have htm : t % domain.Cardinality < domain.Cardinality := Nat.mod_lt _ hN
  have hsd : s / domain.Cardinality < 3 := (Nat.div_lt_iff_lt_mul hN).mpr hs
  have htd : t / domain.Cardinality < 3 := (Nat.div_lt_iff_lt_mul hN).mpr ht
  have hs' := Nat.div_add_mod s domain.Cardinality
  have ht' := Nat.div_add_mod t domain.Cardinality
  simp only [sigmaAt] at h
  generalize s / domain.Cardinality = a at h hsd hs'
  generalize t / domain.Cardinality = b at h htd ht'
  generalize s % domain.Cardinality = i at h hsm hs'
  generalize t % domain.Cardinality = j at h htm ht'
  have hab : a = b ∧ i = j := by
    interval_cases a <;> interval_cases b
    · simp only [pow_zero, one_mul] at h
      exact ⟨rfl, hinj i j hsm htm h⟩
    · exact (key 1 i j (Or.inl rfl) (by simpa using h)).elim
    · exact (key 2 i j (Or.inr rfl) (by simpa using h)).elim
    · exact (key 1 j i (Or.inl rfl) (by simpa using h.symm)).elim
    · simp only [pow_one] at h
      exact ⟨rfl, hinj i j hsm htm (mul_left_cancel₀ hu0 h)⟩
    · refine (key 1 i j (Or.inl rfl) ?_).elim
      rw [pow_one]
      apply mul_left_cancel₀ hu0
      rw [← mul_assoc, ← pow_two]
      simpa using h
    · exact (key 2 j i (Or.inr rfl) (by simpa using h.symm)).elim
    · refine (key 1 j i (Or.inl rfl) ?_).elim
      rw [pow_one]
      apply mul_left_cancel₀ hu0
      rw [← mul_assoc, ← pow_two]
      simpa using h.symm
    · exact ⟨rfl, hinj i j hsm htm (mul_left_cancel₀ (pow_ne_zero 2 hu0) h)⟩
  obtain ⟨rfl, rfl⟩ := hab
  omega

/-- C27. The support vector returned by `getSupportPermutation` has pairwise distinct entries
whenever `g` is a primitive `N`-th root of unity (`N ≥ 1`) and neither `u` nor `u²` lies in the
subgroup generated by `g`: `σ[s] = σ[t]` implies `s = t` for `s, t < 3N`. Consequently the
permutation `S` is uniquely recoverable from the values of `S1`, `S2`, `S3` returned by
`computePermutationPolynomials`: two permutations of `[0, 3N)` with the same three vectors are
equal. The coset shift `u = FrMultiplicativeGen` of a domain is a unit of the field, as every
shift that `fft.NewDomain` hands to `Setup` is; `hu0` records this invariant of the domain. -/
theorem getSupportPermutation_distinct {F : Type} [Field F] (domain : Domain F)
    (hN : 1 ≤ domain.Cardinality) (hg : orderOf domain.Generator = domain.Cardinality)
    (hu0 : domain.FrMultiplicativeGen ≠ 0)
    (hu : ∀ k : Nat, domain.FrMultiplicativeGen ≠ domain.Generator ^ k)
    (hu2 : ∀ k : Nat, domain.FrMultiplicativeGen ^ 2 ≠ domain.Generator ^ k) :
    ∃ sigma, getSupportPermutation domain = some sigma ∧
      sigma.length = 3 * domain.Cardinality ∧ sigma.Nodup ∧
      (∀ s t, s < 3 * domain.Cardinality → t < 3 * domain.Cardinality →
        sigma[s]? = sigma[t]? → s = t) ∧
      (∀ pt pt2 : Trace F, pt.S.length = 3 * domain.Cardinality →
        pt2.S.length = 3 * domain.Cardinality →
        (∀ x ∈ pt.S, 0 ≤ x ∧ x < ((3 * domain.Cardinality : Nat) : Int)) →
        (∀ x ∈ pt2.S, 0 ≤ x ∧ x < ((3 * domain.Cardinality : Nat) : Int)) →
        computePermutationPolynomials pt domain = computePermutationPolynomials pt2 domain →
        pt.S = pt2.S) := by
  obtain ⟨sigma, hsig, hlen, hv⟩ := getSupportPermutation_spec domain hN
  have hat := getSupportPermutation_sigmaAt domain hN sigma hv
  have hinj : ∀ s t, s < 3 * domain.Cardinality → t < 3 * domain.Cardinality →
      sigma[s]? = sigma[t]? → s = t := by
    intro s t hs ht h
    rw [hat s hs, hat t ht] at h
    exact sigmaAt_injective domain hN hg hu0 hu hu2 s t hs ht (Option.some.inj h)
  refine ⟨sigma, hsig, hlen, ?_, hinj, ?_⟩
  · rw [List.nodup_iff_getElem?_ne_getElem?]
    intro i j hij hj h
    rw [hlen] at hj
    have := hinj i j (by omega) hj h
    omega
  · intro pt pt2 hl1 hl2 hr1 hr2 heq
    obtain ⟨a1, a2, a3, ha, la1, la2, la3, hav⟩ :=
      computePermutationPolynomials_spec pt domain sigma hN hsig hlen hl1 hr1
    obtain ⟨b1, b2, b3, hb, lb1, lb2, lb3, hbv⟩ :=
      computePermutationPolynomials_spec pt2 domain sigma hN hsig hlen hl2 hr2
    rw [ha, hb] at heq
    simp only [Option.some.injEq, Prod.mk.injEq] at heq
    obtain ⟨rfl, rfl, rfl⟩ := heq
    have hslot : ∀ s, s < 3 * domain.Cardinality → slotNext pt.S s = slotNext pt2.S s := by
      intro s hs
      have hp := (getElem?_slotNext hl1 hr1 hs).2
      have hq := (getElem?_slotNext hl2 hr2 hs).2
      apply hinj _ _ hp hq
      by_cases c1 : s < domain.Cardinality
      · rw [← (hav s c1).1, ← (hbv s c1).1]
      · by_cases c2 : s < 2 * domain.Cardinality
        · have e : s = domain.Cardinality + (s - domain.Cardinality) := by omega
          rw [e, ← (hav _ (by omega)).2.1, ← (hbv _ (by omega)).2.1]
        · have e : s = 2 * domain.Cardinality + (s - 2 * domain.Cardinality) := by omega
          rw [e, ← (hav _ (by omega)).2.2, ← (hbv _ (by omega)).2.2]
    apply List.ext_getElem?
    intro s
    by_cases hs : s < 3 * domain.Cardinality
    · rw [(getElem?_slotNext hl1 hr1 hs).1, (getElem?_slotNext hl2 hr2 hs).1, hslot s hs]
    · rw [List.getElem?_eq_none (by omega), List.getElem?_eq_none (by omega)]

theorem orderOf_neg_one_rat : orderOf (-1 : ℚ) = 2 := by
  rw [orderOf_neg_one, if_neg]
  rw [ringChar.eq_zero]
  decide

theorem getSupportPermutation_distinct_witness :
    ∃ sigma, getSupportPermutation exampleZData.DomainNum = some sigma ∧
      sigma.length = 3 * exampleZData.DomainNum.Cardinality ∧ sigma.Nodup ∧
      (∀ s t, s < 3 * exampleZData.DomainNum.Cardinality →
        t < 3 * exampleZData.DomainNum.Cardinality → sigma[s]? = sigma[t]? → s = t) ∧
      (∀ pt pt2 : Trace ℚ, pt.S.length = 3 * exampleZData.DomainNum.Cardinality →
        pt2.S.length = 3 * exampleZData.DomainNum.Cardinality →
        (∀ x ∈ pt.S, 0 ≤ x ∧ x < ((3 * exampleZData.DomainNum.Cardinality : Nat) : Int)) →
        (∀ x ∈ pt2.S, 0 ≤ x ∧ x < ((3 * exampleZData.DomainNum.Cardinality : Nat) : Int)) →
        computePermutationPolynomials pt exampleZData.DomainNum
          = computePermutationPolynomials pt2 exampleZData.DomainNum →
        pt.S = pt2.S) :=
  getSupportPermutation_distinct exampleZData.DomainNum (by decide) orderOf_neg_one_rat
    (by norm_num [exampleZData])
    (fun k => by
      rcases neg_one_pow_eq_or ℚ k with h | h <;> simp only [exampleZData, h] <;> norm_num)
    (fun k => by
      rcases neg_one_pow_eq_or ℚ k with h | h <;> simp only [exampleZData, h] <;> norm_num)

end Plonk

